import Mathlib

/-!
# min-os audiomon: sink arbitration daemon

A shallow embedding of `workspace/tg5040/audiomon/audiomon.cpp`.

* `std::string` values are Lean `String`s; `find`, `substr` and `strstr` are
  defined on the character lists.
* The routing file `/mnt/SDCARD/.userdata/tg5040/.asoundrc` is the `file`
  field of `World` (`none` when the file does not exist).
* The category last passed to `SetAudioSink` is the `sink` field of `World`.
* Calls to `log` write to stdout or syslog only and are left out of the state.
-/

namespace Audiomon

/-! ## std::string helpers -/

/-- Position of the first occurrence of `pat` in `s`, as `std::string::find`
computes it on the character sequence; `none` stands for `npos`. -/
def findList (pat : List Char) : List Char → Option Nat
  | [] => if pat.isEmpty then some 0 else none
  | c :: cs =>
    if pat.isPrefixOf (c :: cs) then some 0
    else (findList pat cs).map Nat.succ

/-- The call `s.find(pat)`. -/
def strFind (s pat : String) : Option Nat :=
  findList pat.data s.data

/-- The call `s.substr(pos)`: the text from index `pos` to the end. -/
def substrFrom (s : String) (pos : Nat) : String :=
  String.mk (s.data.drop pos)

/-- The test `strstr(s, pat) != NULL`. -/
def strstr (s pat : String) : Bool :=
  (strFind s pat).isSome

/-! ## Data model -/

/-- The enum `DeviceType`. -/
inductive DeviceType where
  | DEVICE_BLUETOOTH
  | DEVICE_USB_AUDIO
  deriving DecidableEq, Repr

/-- Modelled from the spec: the sink categories accepted by `SetAudioSink`
(declared in `msettings.h`, which is not part of the sources): one of
Default, Bluetooth, UsbAudio-DAC. -/
inductive AudioSink where
  | AUDIO_SINK_DEFAULT
  | AUDIO_SINK_BLUETOOTH
  | AUDIO_SINK_USBDAC
  deriving DecidableEq, Repr

/-- The observable state of the daemon: the content of the routing file
`AUDIO_FILE` (`none` when it does not exist) and the category most recently
passed to `SetAudioSink`. -/
structure World where
  file : Option String
  sink : AudioSink
  deriving DecidableEq, Repr

/-- Outcome of the file system calls made while one event is handled.
`openOk` tells whether `std::ofstream f(AUDIO_FILE)` opens the file;
`unlinkOk` tells whether `unlink(AUDIO_FILE)` is permitted to remove an
existing file. Stream insertions on an opened file are taken to reach the
file; the source never tests them. -/
structure IoEnv where
  openOk : Bool
  unlinkOk : Bool
  deriving DecidableEq, Repr

/-- A D-Bus value as seen through a `DBusMessageIter`. -/
inductive DBusValue where
  | str (s : String)
  | bool (b : Bool)
  | array (elems : List DBusValue)
  | dictEntry (key : DBusValue) (value : DBusValue)
  | variant (v : DBusValue)
  | other

/-- The bus connection as `hasUUID` uses it: for an object path, the outcome
of the blocking call `Get("org.bluez.Device1", "UUIDs")`. `none` stands for a
null reply (error, timeout, or a request that could not be built); `some v`
carries the value held by the variant of the reply. -/
def DBusConnection : Type := String → Option DBusValue

/-- A `struct udev_device` as far as the daemon reads it: the action, the
subsystem, the device node, the device path and the properties. A `none`
stands for a null pointer returned by the accessor. -/
structure UdevDevice where
  action : Option String
  subsystem : Option String
  devnode : Option String
  devpath : Option String
  properties : List (String × String)
  deriving DecidableEq, Repr

/-- The call `udev_device_get_property_value(dev, key)`. -/
def udev_device_get_property_value (dev : UdevDevice) (key : String) : Option String :=
  dev.properties.lookup key

/-- The constant `UUID_A2DP`. -/
def UUID_A2DP : String := "0000110b-0000-1000-8000-00805f9b34fb"

/-! ## Persistence -/

/-- Modelled from the spec: `SetAudioSink` (declared in `msettings.h`, which
is not part of the sources) informs the rest of the system which sink
category is now active; the state records the category notified last. -/
def SetAudioSink (sink : AudioSink) (w : World) : World :=
  { w with sink := sink }

/-- The function `writeAudioFile`. Opening the `ofstream` truncates the file;
when it cannot be opened the function returns at once. -/
def writeAudioFile (io : IoEnv) (device_identifier : String) (type : DeviceType)
    (w : World) : World :=
  if !io.openOk then w
  else
    match type with
    | DeviceType.DEVICE_BLUETOOTH =>
      { w with file := some (
          "defaults.bluealsa.device \"" ++ device_identifier ++ "\"\n\n"
          ++ "pcm.!default \x7b\n"
          ++ "    type plug\n"
          ++ "    slave.pcm \x7b\n"
          ++ "        type bluealsa\n"
          ++ "        device \"" ++ device_identifier ++ "\"\n"
          ++ "        profile \"a2dp\"\n"
          ++ "        delay 0\n"
          ++ "    \x7d\n"
          ++ "\x7d\n"
          ++ "ctl.!default \x7b\n"
          ++ "    type bluealsa\n"
          ++ "\x7d\n") }
    | DeviceType.DEVICE_USB_AUDIO =>
      { w with file := some (
          "pcm.!default \x7b\n"
          ++ "    type hw\n"
          ++ "    card " ++ device_identifier ++ "\n"
          ++ "\x7d\n"
          ++ "ctl.!default \x7b\n"
          ++ "    type hw\n"
          ++ "    card " ++ device_identifier ++ "\n"
          ++ "\x7d\n") }

/-- The function `clearAudioFile`: `unlink` returns 0 exactly when the file
exists and may be removed; otherwise nothing changes. -/
def clearAudioFile (io : IoEnv) (w : World) : World :=
  if w.file.isSome && io.unlinkOk then { w with file := none }
  else w

/-! ## Event decoding -/

/-- The function `pathToMac`. -/
def pathToMac (path : String) : String :=
  match strFind path "dev_" with
  | none => ""
  | some pos =>
    String.mk ((substrFrom path (pos + 4)).data.map
      (fun c => if c = '_' then ':' else c))

/-- The function `getUsbAudioCardNumber`. -/
def getUsbAudioCardNumber (dev : UdevDevice) : String :=
  match dev.devnode with
  | none => ""
  | some devnode_str =>
    match strFind devnode_str "controlC" with
    | some pos => substrFrom devnode_str (pos + 8)
    | none =>
      match udev_device_get_property_value dev "SOUND_CARD" with
      | some card => card
      | none => ""

/-- The function `isUsbAudioDevice`. -/
def isUsbAudioDevice (dev : UdevDevice) : Bool :=
  match dev.subsystem with
  | none => false
  | some subsystem =>
    if subsystem ≠ "sound" then false
    else
      match dev.devnode with
      | none => false
      | some devnode_str =>
        if strFind devnode_str "controlC" = none then false
        else
          match dev.devpath with
          | none => false
          | some devpath => if strstr devpath "usb" then true else false

/-- The `while` loop of `hasUUID`: walks the array while its elements are
strings and stops at the first element equal to `uuid`. -/
def hasUUIDLoop (uuid : String) : List DBusValue → Bool
  | .str val :: rest => if uuid = val then true else hasUUIDLoop uuid rest
  | _ => false

/-- The function `hasUUID`. -/
def hasUUID (conn : DBusConnection) (path : String) (uuid : String) : Bool :=
  match conn path with
  | none => false
  | some (.array elems) => hasUUIDLoop uuid elems
  | some _ => false

/-! ## Handlers -/

/-- The function `handleDeviceConnected`. -/
def handleDeviceConnected (io : IoEnv) (conn : DBusConnection) (path : String)
    (w : World) : World :=
  let mac := pathToMac path
  if hasUUID conn path UUID_A2DP then
    SetAudioSink .AUDIO_SINK_BLUETOOTH (writeAudioFile io mac DeviceType.DEVICE_BLUETOOTH w)
  else w

/-- The function `handleDeviceDisconnected`. -/
def handleDeviceDisconnected (io : IoEnv) (conn : DBusConnection) (path : String)
    (w : World) : World :=
  if hasUUID conn path UUID_A2DP then
    SetAudioSink .AUDIO_SINK_DEFAULT (clearAudioFile io w)
  else w

/-- The function `handleUsbAudioConnected`. -/
def handleUsbAudioConnected (io : IoEnv) (dev : UdevDevice) (w : World) : World :=
  let card := getUsbAudioCardNumber dev
  if !card.isEmpty then
    SetAudioSink .AUDIO_SINK_USBDAC (writeAudioFile io card DeviceType.DEVICE_USB_AUDIO w)
  else w

/-- The function `handleUsbAudioDisconnected`. -/
def handleUsbAudioDisconnected (io : IoEnv) (dev : UdevDevice) (w : World) : World :=
  let card := getUsbAudioCardNumber dev
  if !card.isEmpty then
    SetAudioSink .AUDIO_SINK_DEFAULT (clearAudioFile io w)
  else w

/-- The udev branch of the loop in `main`, entered when the monitor descriptor
is ready; `received` is the result of `udev_monitor_receive_device`. -/
def udevBranch (io : IoEnv) (received : Option UdevDevice) (w : World) : World :=
  match received with
  | none => w
  | some dev =>
    match dev.subsystem with
    | none => w
    | some subsystem =>
      if subsystem = "sound" then
        if isUsbAudioDevice dev then
          match dev.action with
          | none => w
          | some action =>
            if action = "add" then handleUsbAudioConnected io dev w
            else if action = "remove" then handleUsbAudioDisconnected io dev w
            else w
        else w
      else w

/-! ## Startup scan and the loop of main -/

/-- The `udev_list_entry_foreach` loop of `scanExistingUsbAudioDevices`. Each
entry carries the device `udev_device_new_from_syspath` returns for it (`none`
for a null pointer) and the outcome of the file system calls made while it is
handled. -/
def scanLoop : List (IoEnv × Option UdevDevice) → World → World
  | [], w => w
  | (_, none) :: rest, w => scanLoop rest w
  | (io, some dev) :: rest, w =>
    scanLoop rest (if isUsbAudioDevice dev then handleUsbAudioConnected io dev w else w)

/-- The function `scanExistingUsbAudioDevices`. `enumerate` is `none` when
`udev_enumerate_new` fails, and otherwise the list of the enumerated entries
of the sound subsystem, in order. -/
def scanExistingUsbAudioDevices (enumerate : Option (List (IoEnv × Option UdevDevice)))
    (w : World) : World :=
  match enumerate with
  | none => w
  | some entries => scanLoop entries w

/-- A message popped from the bus connection, as far as the loop reads it:
the outcome of `dbus_message_is_signal` for the PropertiesChanged member of
`org.freedesktop.DBus.Properties`, the object path and the arguments. -/
structure DBusMessage where
  isPropertiesChanged : Bool
  path : Option String
  args : List DBusValue

/-- The body of the `while` loop over the changed properties in the D-Bus
branch of `main`, for one dictionary entry and a state of any type:
`onConnected` and `onDisconnected` stand for the calls of
`handleDeviceConnected` and `handleDeviceDisconnected`. PropertiesChanged
carries a dictionary from strings to variants and BlueZ sends Connected as a
boolean; an entry that is not of this form is passed over. -/
def changedEntry {σ : Type} (onConnected onDisconnected : σ → σ)
    (key value : DBusValue) (s : σ) : σ :=
  match key, value with
  | .str k, .variant (.bool connected) =>
    if k = "Connected" then
      if connected then onConnected s else onDisconnected s
    else s
  | _, _ => s

/-- The `while` loop over the changed properties in the D-Bus branch of
`main`: it runs while the elements are dictionary entries. -/
def changedLoop {σ : Type} (onConnected onDisconnected : σ → σ) :
    List DBusValue → σ → σ
  | .dictEntry key value :: rest, s =>
    changedLoop onConnected onDisconnected rest
      (changedEntry onConnected onDisconnected key value s)
  | _, s => s

/-- The D-Bus branch of the loop in `main`, entered when the bus descriptor is
ready, for a state of any type; `popped` is the result of
`dbus_connection_pop_message`, and `onConnected path`, `onDisconnected path`
stand for the two handler calls. A first argument that is not a string leaves
`iface` null. -/
def dbusDispatch {σ : Type} (onConnected onDisconnected : String → σ → σ)
    (popped : Option DBusMessage) (s : σ) : σ :=
  match popped with
  | none => s
  | some msg =>
    if msg.isPropertiesChanged then
      match msg.path with
      | none => s
      | some path =>
        if (strFind path "dev_").isSome then
          match msg.args with
          | .str iface :: rest =>
            if iface = "org.bluez.Device1" then
              match rest with
              | .array changed :: _ =>
                changedLoop (onConnected path) (onDisconnected path) changed s
              | _ => s
            else s
          | _ => s
        else s
    else s

/-- The D-Bus branch of the loop in `main` with the two handlers of the
source. -/
def dbusBranch (io : IoEnv) (conn : DBusConnection) (popped : Option DBusMessage)
    (w : World) : World :=
  dbusDispatch (handleDeviceConnected io conn) (handleDeviceDisconnected io conn) popped w

/-- The D-Bus branch with a counter of handler calls next to the state. Each
of the two handlers calls `hasUUID` exactly once, so the counter is also the
number of profile queries sent on the bus. -/
def dbusBranchCounted (io : IoEnv) (conn : DBusConnection) (popped : Option DBusMessage)
    (s : World × Nat) : World × Nat :=
  dbusDispatch
    (fun path s => (handleDeviceConnected io conn path s.1, s.2 + 1))
    (fun path s => (handleDeviceDisconnected io conn path s.1, s.2 + 1))
    popped s

/-- The state of the loop in `main`: the daemon state, the messages waiting on
the bus connection and the devices waiting on the udev monitor. -/
structure LoopState where
  world : World
  bus : List DBusMessage
  hotplug : List UdevDevice

/-- One iteration of the loop in `main` after a `select` that did not fail.
`dbusReady` is the test `dbus_fd >= 0 && FD_ISSET(dbus_fd, &readfds)` and
`udevReady` the test `FD_ISSET(udev_fd, &readfds)`. Each branch takes the first
waiting event of its source, if there is one. -/
def loopIteration (ioBus ioUdev : IoEnv) (conn : DBusConnection)
    (dbusReady udevReady : Bool) (s : LoopState) : LoopState :=
  let s1 : LoopState :=
    if dbusReady then
      { s with world := dbusBranch ioBus conn s.bus.head? s.world, bus := s.bus.tail }
    else s
  if udevReady then
    { s1 with world := udevBranch ioUdev s1.hotplug.head? s1.world,
              hotplug := s1.hotplug.tail }
  else s1

/-- The messages `writeAudioFile` passes to `log`. -/
def writeAudioFile_log (io : IoEnv) (device_identifier : String) (type : DeviceType) :
    List String :=
  if !io.openOk then ["Failed to write audio config file"]
  else
    match type with
    | DeviceType.DEVICE_BLUETOOTH =>
      ["Updated .asoundrc with Bluetooth device: " ++ device_identifier]
    | DeviceType.DEVICE_USB_AUDIO =>
      ["Updated .asoundrc with USB audio device: " ++ device_identifier]

/-- The messages `clearAudioFile` passes to `log`. -/
def clearAudioFile_log (io : IoEnv) (w : World) : List String :=
  if w.file.isSome && io.unlinkOk then ["Removed audio config"]
  else ["Audio config file not present or failed to remove"]

/-- The value `writeAudioFile` hands back to its caller: the function is
declared `void`. -/
def writeAudioFile_return (_io : IoEnv) (_device_identifier : String) (_type : DeviceType)
    (_w : World) : Unit :=
  ()

/-- The value `clearAudioFile` hands back to its caller: the function is
declared `void`. -/
def clearAudioFile_return (_io : IoEnv) (_w : World) : Unit :=
  ()

/-! ## Specification vocabulary -/

/-- The Bluetooth shape of the routing file for peer identity `id`: the
`defaults.bluealsa.device` line, a blank line, the `pcm.!default` block of
type plug over a bluealsa slave with the A2DP profile and delay 0, and the
`ctl.!default` block of type bluealsa. -/
def bluealsaStanza (id : String) : String :=
  String.join [
    "defaults.bluealsa.device \"", id, "\"\n",
    "\n",
    "pcm.!default \x7b\n",
    "    type plug\n",
    "    slave.pcm \x7b\n",
    "        type bluealsa\n",
    "        device \"", id, "\"\n",
    "        profile \"a2dp\"\n",
    "        delay 0\n",
    "    \x7d\n",
    "\x7d\n",
    "ctl.!default \x7b\n",
    "    type bluealsa\n",
    "\x7d\n"]

/-- The USB shape of the routing file for card identity `c`: a `pcm.!default`
block and a `ctl.!default` block, both of type hw on card `c`. -/
def hwStanza (c : String) : String :=
  String.join [
    "pcm.!default \x7b\n",
    "    type hw\n",
    "    card ", c, "\n",
    "\x7d\n",
    "ctl.!default \x7b\n",
    "    type hw\n",
    "    card ", c, "\n",
    "\x7d\n"]

/-- The arbiter state of the specification: which sink is active. -/
inductive SinkState where
  | Default
  | Bluetooth (identity : String)
  | UsbAudio (identity : String)
  deriving DecidableEq, Repr

/-- The daemon state that has `s` as its active sink: the routing file holds
the stanza of `s` (no file for `Default`) and the notified category is the
category of `s`. -/
def SinkState.toWorld : SinkState → World
  | .Default => ⟨none, .AUDIO_SINK_DEFAULT⟩
  | .Bluetooth id => ⟨some (bluealsaStanza id), .AUDIO_SINK_BLUETOOTH⟩
  | .UsbAudio c => ⟨some (hwStanza c), .AUDIO_SINK_USBDAC⟩

/-- The text `s` contains the text `pat`. -/
def Contains (s pat : String) : Prop :=
  ∃ a b : String, s = a ++ pat ++ b

/-- The peer at `path` answers the profile query with a list of profile
identifiers that contains the A2DP one. -/
def IsA2dpPeer (conn : DBusConnection) (path : String) : Prop :=
  ∃ uuids : List String,
    conn path = some (.array (uuids.map DBusValue.str)) ∧ UUID_A2DP ∈ uuids

/-- An event as delivered to one of the four handlers. -/
inductive Event where
  | btConnected (conn : DBusConnection) (path : String)
  | btDisconnected (conn : DBusConnection) (path : String)
  | usbAdd (dev : UdevDevice)
  | usbRemove (dev : UdevDevice)

/-- Dispatch of an event to its handler. -/
def handleEvent (io : IoEnv) : Event → World → World
  | .btConnected conn path => handleDeviceConnected io conn path
  | .btDisconnected conn path => handleDeviceDisconnected io conn path
  | .usbAdd dev => handleUsbAudioConnected io dev
  | .usbRemove dev => handleUsbAudioDisconnected io dev

/-- The handlers applied to a sequence of events, each with the outcome of
its own file system calls, in order. -/
def runEvents : List (IoEnv × Event) → World → World
  | [], w => w
  | (io, e) :: rest, w => runEvents rest (handleEvent io e w)

/-- Whether the event is a connect event. -/
def Event.isConnect : Event → Bool
  | .btConnected _ _ => true
  | .usbAdd _ => true
  | _ => false

/-- The event is audio-relevant: a Bluetooth event of an A2DP peer, or a USB
event with a non-empty card identity. -/
def Event.Accepted : Event → Prop
  | .btConnected conn path => IsA2dpPeer conn path
  | .btDisconnected conn path => IsA2dpPeer conn path
  | .usbAdd dev => getUsbAudioCardNumber dev ≠ ""
  | .usbRemove dev => getUsbAudioCardNumber dev ≠ ""

/-- The kind and identity of the device an event is about. -/
def Event.sink : Event → SinkState
  | .btConnected _ path => .Bluetooth (pathToMac path)
  | .btDisconnected _ path => .Bluetooth (pathToMac path)
  | .usbAdd dev => .UsbAudio (getUsbAudioCardNumber dev)
  | .usbRemove dev => .UsbAudio (getUsbAudioCardNumber dev)

/-- The notified category and the routing file agree: Default exactly when
there is no file, Bluetooth exactly when the file is a bluealsa stanza,
USB-DAC exactly when the file is a hw stanza. -/
def Consistent (w : World) : Prop :=
  (w.sink = .AUDIO_SINK_DEFAULT ↔ w.file = none) ∧
  (w.sink = .AUDIO_SINK_BLUETOOTH ↔ ∃ id, w.file = some (bluealsaStanza id)) ∧
  (w.sink = .AUDIO_SINK_USBDAC ↔ ∃ c, w.file = some (hwStanza c))

/-- File system calls all succeed. -/
def ioOk : IoEnv := ⟨true, true⟩

/-- A bus on which every peer advertises exactly the A2DP profile. -/
def a2dpBus : DBusConnection :=
  fun _ => some (.array [.str UUID_A2DP])

/-- The object path of the peer with address AA:BB:CC:DD:EE:FF. -/
def peerPath : String := "/org/bluez/hci0/dev_AA_BB_CC_DD_EE_FF"

/-- The control node of USB sound card 1 with the given action. -/
def usbCard1 (action : String) : UdevDevice :=
  { action := some action
    subsystem := some "sound"
    devnode := some "/dev/snd/controlC1"
    devpath := some "/devices/platform/soc/usb1/1-1/1-1:1.0/sound/card1/controlC1"
    properties := [] }

/-- Whether a D-Bus value is a string. -/
def DBusValue.isStr : DBusValue → Bool
  | .str _ => true
  | _ => false

/-- The elements of a D-Bus array all have the same type as far as the
daemon can tell: they are all strings or none of them is. -/
def Homogeneous (elems : List DBusValue) : Prop :=
  (∀ e ∈ elems, e.isStr = true) ∨ (∀ e ∈ elems, e.isStr = false)

/-- Whether a D-Bus value is a dictionary entry with the key "Connected". -/
def DBusValue.isConnectedEntry : DBusValue → Bool
  | .dictEntry (.str k) _ => k == "Connected"
  | _ => false

/-- The number of entries with the key "Connected" in the changed-properties
dictionary of a popped message (0 when nothing was popped or the second
argument is not an array). -/
def connectedEntries (popped : Option DBusMessage) : Nat :=
  match popped with
  | some msg =>
    match msg.args with
    | _ :: .array changed :: _ => (changed.filter DBusValue.isConnectedEntry).length
    | _ => 0
  | none => 0

/-- The add events a startup scan stands for: one for each enumerated device
that passes `isUsbAudioDevice`, in enumeration order. -/
def addEvents (entries : List (IoEnv × Option UdevDevice)) : List (IoEnv × Event) :=
  entries.filterMap (fun e =>
    match e.2 with
    | some dev => if isUsbAudioDevice dev then some (e.1, Event.usbAdd dev) else none
    | none => none)

/-- The hotplug event with action "add" for an enumerated device. -/
def asAddEvent (dev : UdevDevice) : UdevDevice :=
  { dev with action := some "add" }

/-- The PropertiesChanged signal of `org.bluez.Device1` on the peer
AA:BB:CC:DD:EE:FF that reports `Connected` with the given value. -/
def connectedSignal (connected : Bool) : DBusMessage :=
  { isPropertiesChanged := true
    path := some peerPath
    args := [.str "org.bluez.Device1",
      .array [.dictEntry (.str "Connected") (.variant (.bool connected))],
      .array []] }

end Audiomon

/-!
# min-os common utilities

A shallow embedding of functions of `workspace/all/common/utils.c`.

* A C string is the list of its characters before the terminator, except for
  `trimString`, which is given the whole array the pointer `str` points into,
  terminator and following bytes included: a read outside that array has no
  defined result and is `none`.
* Pointers into a string are offsets, or the text that starts at the offset.
-/

namespace Utils

/-! ## Characters -/

/-- The terminating byte of a C string. -/
def NUL : Char := Char.ofNat 0

/-- The test `isdigit(c)` in the C locale. -/
def isdigit (c : Char) : Bool := c.isDigit

/-- The test `isblank(c)` in the C locale: space or tab. -/
def isblank (c : Char) : Bool := c == ' ' || c == '\t'

/-- The test `isspace(c)` in the C locale. -/
def isspace (c : Char) : Bool :=
  c == ' ' || c == '\t' || c == '\n' || c == Char.ofNat 11 || c == Char.ofNat 12 || c == '\r'

/-- The test `strchr(set, c) != NULL`. The terminator of `set` counts as part
of it, so the test succeeds for the terminating byte too. -/
def strchrHit (set : List Char) (c : Char) : Bool :=
  c == NUL || set.contains c

/-- The characters of the literal `"\r\n\t {},"`. -/
def trimSet : List Char := ['\r', '\n', '\t', ' ', '\x7b', '\x7d', ',']

/-- The characters of the literal `"\r\n\""`. -/
def quoteSet : List Char := ['\r', '\n', '\x22']

/-! ## trimSortingMeta -/

/-- The function `trimSortingMeta`: the argument is the text `*str` points to
and the result the text it points to afterwards. Both loops stop at the
terminator, which is neither a digit nor a blank. -/
def trimSortingMeta (str : List Char) : List Char :=
  let safe := str
  match str.dropWhile isdigit with
  | ')' :: rest => rest.dropWhile isblank
  | _ => safe

/-! ## baseName and folderPath -/

/-- The call `strrchr(s, c)` for a character `c` other than the terminator:
the offset of the last occurrence of `c`, `none` for a null pointer. -/
def strrchr (s : List Char) (c : Char) : Option Nat :=
  match s with
  | [] => none
  | x :: xs =>
    match strrchr xs c with
    | some i => some (i + 1)
    | none => if x = c then some 0 else none

/-- The function `baseName`. -/
def baseName (filename : List Char) : List Char :=
  match strrchr filename '/' with
  | some p => filename.drop (p + 1)
  | none => filename

/-- The function `folderPath`: the result is the string left in `result`.
`pathCopy` holds at most the first 255 characters of `path`. -/
def folderPath (path : List Char) : List Char :=
  let pathCopy := path.take (256 - 1)
  match strrchr pathCopy '/' with
  | some lastSlash => (pathCopy.take lastSlash).take (256 - 1)
  | none => []

/-! ## trimString -/

/-- A loop `while (p(*q)) q++` that starts at the first byte of `mem`: the
number of steps it makes, `none` when it runs past the last byte of the
array. -/
def scanForward (p : Char → Bool) : List Char → Option Nat
  | [] => none
  | c :: rest => if p c then (scanForward p rest).map (· + 1) else some 0

/-- A loop `while (p(*q)) q++` that starts at offset `i` of `mem`: the offset
at which it stops. -/
def scanFrom (p : Char → Bool) (mem : List Char) (i : Nat) : Option Nat :=
  (scanForward p (mem.drop i)).map (· + i)

/-- The loop `while (end > str && strchr("\r\n\t {},", *end) != NULL) end--`
of `trimString`, started at offset `e`: the offset at which it stops. It reads
between `str` and the terminator only. -/
def scanBack (mem : List Char) (str : Nat) : Nat → Nat
  | 0 => 0
  | e + 1 =>
    if str < e + 1 && strchrHit trimSet (mem.getD (e + 1) NUL) then scanBack mem str e
    else e + 1

/-- What `trimString` leaves behind: the bytes written to `out`, from its
first byte on, and the returned value. -/
structure TrimResult where
  written : List Char
  ret : Nat
  deriving DecidableEq, Repr

/-- The part of `trimString` from the test `*str == 0` on, with `str` and `end`
as offsets into `mem`. The difference `end - str` is converted to the 64-bit
`size_t` for the comparison with `len - 1`. -/
def trimTail (mem : List Char) (first is_string : Bool) (str end1 len : Nat) :
    Option TrimResult :=
  match mem.get? str with
  | none => none
  | some c =>
    if c = NUL then some ⟨[NUL], 1⟩
    else
      match (if first then scanFrom (fun c => !strchrHit trimSet c) mem end1
        else (scanFrom (fun c => c != NUL) mem str).map
          (fun e => scanBack mem str (e - 1) + 1)) with
      | none => none
      | some end2 =>
        let stop : Int :=
          if is_string && mem.get? (end2 - 1) == some '\x22' then (end2 : Int) - 1
          else (end2 : Int)
        let diff : Nat := ((stop - (str : Int)) % 2 ^ 64).toNat
        let out_size := if diff < len - 1 then diff else len - 1
        if str + out_size ≤ mem.length then
          some ⟨(mem.drop str).take out_size ++ [NUL], out_size⟩
        else none

/-- The function `trimString`. `mem` is the array `str` points into, from the
byte `str` points to up to its last byte. -/
def trimString (len : Nat) (mem : List Char) (first : Bool) : Option TrimResult :=
  if len = 0 then some ⟨[], 0⟩
  else
    match scanForward (strchrHit trimSet) mem with
    | none => none
    | some str0 =>
      if mem.get? str0 = some '\x22' then
        match scanFrom (fun c => !strchrHit quoteSet c) mem (str0 + 1) with
        | none => none
        | some end1 => trimTail mem first true (str0 + 1) end1 len
      else trimTail mem first false str0 (str0 + 1) len

/-! ## putInt and getInt -/

/-- The character of a decimal digit. -/
def digitChar (d : Nat) : Char := Char.ofNat (48 + d)

/-- The decimal digits of `n` put in front of `acc`, least significant digit
produced first; `fuel` bounds the number of digits. -/
def decimalDigitsAux : Nat → Nat → List Char → List Char
  | 0, _, acc => acc
  | fuel + 1, n, acc =>
    if n < 10 then digitChar n :: acc
    else decimalDigitsAux fuel (n / 10) (digitChar (n % 10) :: acc)

/-- The decimal digits of a natural number, most significant first. A number
`n` has at most `n + 1` digits. -/
def decimalDigits (n : Nat) : List Char :=
  decimalDigitsAux (n + 1) n []

/-- The text `printf` produces for the conversion `%d`. -/
def formatDecimal (value : Int) : List Char :=
  if value < 0 then '-' :: decimalDigits value.natAbs else decimalDigits value.natAbs

/-- The string `snprintf(buffer, size, "%d", value)` leaves in `buffer`: at
most `size - 1` characters of the text, then the terminator. -/
def snprintfDecimal (size : Nat) (value : Int) : List Char :=
  (formatDecimal value).take (size - 1)

/-- The value of a character as a digit of the given base, if it is one. -/
def digitValue (base : Nat) (c : Char) : Option Nat :=
  if '0' ≤ c ∧ c ≤ '9' then
    (if c.toNat - 48 < base then some (c.toNat - 48) else none)
  else if 'a' ≤ c ∧ c ≤ 'f' then
    (if c.toNat - 87 < base then some (c.toNat - 87) else none)
  else if 'A' ≤ c ∧ c ≤ 'F' then
    (if c.toNat - 55 < base then some (c.toNat - 55) else none)
  else none

/-- Reading the digits of a number: the value so far and the count of digits
read, continued over the longest run of digits of the base. -/
def readDigits (base : Nat) : List Char → Nat → Nat → Nat × Nat
  | [], acc, k => (acc, k)
  | c :: cs, acc, k =>
    match digitValue base c with
    | some d => readDigits base cs (acc * base + d) (k + 1)
    | none => (acc, k)

/-- The optional sign of a number: whether it is negative, and the rest. -/
def skipSign (s : List Char) : Bool × List Char :=
  match s with
  | [] => (false, [])
  | c :: t => if c = '-' then (true, t) else if c = '+' then (false, t) else (false, c :: t)

/-- The base the conversion `%i` reads a number in, and the text its digits
start at: 16 after "0x" or "0X", 8 for a leading "0", 10 otherwise. -/
def detectBase (s : List Char) : Nat × List Char :=
  match s with
  | [] => (10, [])
  | c :: t =>
    if c = '0' then
      match t with
      | [] => (8, c :: t)
      | x :: u => if x = 'x' ∨ x = 'X' then (16, u) else (8, c :: t)
    else (10, c :: t)

/-- The conversion `%i` of `fscanf` at the start of a file: `some v` when a
number is converted and assigned, so that `fscanf` returns 1, and `none`
otherwise. White space is skipped first. The number is taken to be in the
range of `int`. -/
def scanInteger (input : List Char) : Option Int :=
  let signed := skipSign (input.dropWhile isspace)
  let based := detectBase signed.2
  let read := readDigits based.1 based.2 0 0
  if read.2 = 0 then none
  else some (if signed.1 then -(read.1 : Int) else (read.1 : Int))

/-- The files the functions work on: the content of the file at each path,
`none` when there is no file that can be opened. -/
def Files : Type := String → Option (List Char)

/-- The function `putFile`; `openOk` tells whether `fopen(path, "w")`
succeeds. -/
def putFile (openOk : Bool) (files : Files) (path : String) (contents : List Char) :
    Files :=
  if openOk then fun p => if p = path then some contents else files p
  else files

/-- The function `getInt`; a null `path` is `none`. -/
def getInt (files : Files) (path : Option String) : Int :=
  match path with
  | none => 0
  | some p =>
    match files p with
    | none => 0
    | some content =>
      match scanInteger content with
      | some i => i
      | none => 0

/-- The function `putInt`, with its buffer of 8 bytes. -/
def putInt (openOk : Bool) (files : Files) (path : String) (value : Int) : Files :=
  putFile openOk files path (snprintfDecimal 8 value)

/-- The text of a string after its leading trim characters. -/
def afterLeading (s : List Char) : List Char :=
  s.dropWhile (fun c => trimSet.contains c)

/-- A text without its trailing trim characters. -/
def dropTrailing (s : List Char) : List Char :=
  (s.reverse.dropWhile (fun c => trimSet.contains c)).reverse

/-- A text without its trailing trim characters, its first character being
kept in any case. -/
def lineText (s : List Char) : List Char :=
  if dropTrailing s = [] then s.take 1 else dropTrailing s

/-- The characters of a text up to its first trim character. -/
def tokenText (s : List Char) : List Char :=
  s.takeWhile (fun c => !trimSet.contains c)

/-- The text after an opening double quote up to the first trim character that
does not stand before the first carriage return, line feed or double quote. -/
def quotedTokenText (r : List Char) : List Char :=
  r.takeWhile (fun c => !quoteSet.contains c)
    ++ (r.dropWhile (fun c => !quoteSet.contains c)).takeWhile (fun c => !trimSet.contains c)

/-- A text without the double quote at its end, if it ends in one. -/
def dropClosingQuote (t : List Char) : List Char :=
  if t.getLast? = some '\x22' then t.dropLast else t

/-- The trimmed text of a string. Leading trim characters do not belong to it.
With `first` set it ends before the next trim character, otherwise it is the
rest of the string without its trailing trim characters. When it starts with a
double quote, that quote and a double quote at its end do not belong to it, and
with `first` set trim characters inside the quotes do. -/
def trimmedText (first : Bool) (s : List Char) : List Char :=
  match afterLeading s with
  | [] => []
  | c :: r =>
    if c = '\x22' then dropClosingQuote (if first then quotedTokenText r else lineText r)
    else if first then tokenText (c :: r)
    else lineText (c :: r)

/-! ## replaceString2 -/

/-- Conversion of an integer value to `int` (32 bits, two's complement). -/
def toInt32 (n : Int) : Int := (n + 2147483648) % 4294967296 - 2147483648

/-- Whether a value is representable in `int`. -/
def inInt32 (n : Int) : Bool := decide (-2147483648 ≤ n) && decide (n < 2147483648)

/-- Conversion of an integer value to `size_t` (64 bits). -/
def toSizeT (n : Int) : Nat := (n % 18446744073709551616).toNat

/-- The call `strstr(s, rep)` as the offset of the first occurrence of `rep`
in `s`; `none` is the null pointer. -/
def strstr (s rep : List Char) : Option Nat := Audiomon.findList rep s

/-- Pointer arithmetic `p + d` inside an object of `bound` bytes: the result
has to lie inside the object or one past its end. -/
def ptrAdd (bound p : Nat) (d : Int) : Option Nat :=
  if 0 ≤ (p : Int) + d ∧ (p : Int) + d ≤ (bound : Int) then some ((p : Int) + d).toNat
  else none

/-- The call `strncpy(buf + pos, src, n)`: exactly `n` bytes are written, the
characters of `src` and then terminators; a write outside `buf` has no defined
result. -/
def strncpyAt (buf : List Char) (pos : Nat) (src : List Char) (n : Nat) :
    Option (List Char) :=
  if pos + n ≤ buf.length then
    some (buf.take pos ++ (src.take n ++ List.replicate (n - src.length) NUL)
      ++ buf.drop (pos + n))
  else none

/-- The assignment `buf[pos] = c`. -/
def storeAt (buf : List Char) (pos : Nat) (c : Char) : Option (List Char) :=
  if pos < buf.length then some (buf.set pos c) else none

/-- The call `malloc(size)`: `fresh` gives the bytes the new block happens to
hold, `ok` tells whether the allocation succeeds. -/
def malloc (fresh : Nat → Char) (ok : Bool) (size : Nat) : Option (List Char) :=
  if ok then some ((List.range size).map fresh) else none

/-- The counting loop of `replaceString2`,
`for (count = 0; (tmp = strstr(ins, rep)); ++count) ins = tmp + len_rep;`
with `ins` an offset into `orig`. The result is `none` when a step has no
defined result or when the loop has not ended after `fuel` rounds. -/
def countLoop (orig rep : List Char) (len_rep : Int) : Nat → Nat → Nat → Option Nat
  | 0, _, _ => none
  | fuel + 1, ins, count =>
    match strstr (orig.drop ins) rep with
    | none => some count
    | some k =>
      match ptrAdd orig.length (ins + k) len_rep with
      | none => none
      | some next =>
        if inInt32 ((count : Int) + 1) then countLoop orig rep len_rep fuel next (count + 1)
        else none

/-- State of the writing loop of `replaceString2`: the block `result`, the
offset of `tmp` in it and the offset of `orig` in the original text. -/
structure WriteState where
  result : List Char
  tmp : Nat
  orig : Nat
  deriving DecidableEq, Repr

/-- One round of the loop `while (count--)` of `replaceString2`. The variable
`result_len` is used by the function and declared nowhere in the file, so it
is a parameter here. -/
def writeStep (orig rep with_ : List Char) (len_rep len_with : Int) (result_len : Nat)
    (st : WriteState) : Option WriteState :=
  match strstr (orig.drop st.orig) rep with
  | none => none
  | some ins =>
    let len_front := toInt32 (ins : Int)
    if len_front < 0 then none
    else
      (strncpyAt st.result st.tmp (orig.drop st.orig) len_front.toNat).bind fun r1 =>
      (ptrAdd r1.length st.tmp len_front).bind fun tmp1 =>
      let remaining := toSizeT ((result_len : Int) - (tmp1 : Int))
      (strncpyAt r1 tmp1 with_ (toSizeT ((remaining : Int) - 1))).bind fun r2 =>
      (storeAt r2 (tmp1 + toSizeT ((remaining : Int) - 1)) NUL).bind fun r3 =>
      (ptrAdd r3.length tmp1 len_with).bind fun tmp2 =>
      if inInt32 (len_front + len_rep) then
        (ptrAdd orig.length st.orig (len_front + len_rep)).bind fun orig1 =>
        some ⟨r3, tmp2, orig1⟩
      else none

/-- The loop `while (count--)` of `replaceString2`, for a `count` that is not
negative. -/
def writeLoop (orig rep with_ : List Char) (len_rep len_with : Int) (result_len : Nat) :
    Nat → WriteState → Option WriteState
  | 0, st => some st
  | count + 1, st =>
    (writeStep orig rep with_ len_rep len_with result_len st).bind
      (writeLoop orig rep with_ len_rep len_with result_len count)

/-- What a call of `replaceString2` gives: no defined result, the null
pointer, or an allocated block with its bytes. -/
inductive Outcome where
  | undefined : Outcome
  | null : Outcome
  | block : List Char → Outcome
  deriving DecidableEq, Repr

/-- The statements of `replaceString2` after the writing loop. -/
def writeRest (orig : List Char) (result_len : Nat) (st : WriteState) :
    Option (List Char) :=
  (strncpyAt st.result st.tmp (orig.drop st.orig)
    (toSizeT ((result_len : Int) - (st.tmp : Int) - 1))).bind fun r =>
  storeAt r (toSizeT ((result_len : Int) - 1)) NUL

/-- The statements of `replaceString2` from the call of `malloc` on. -/
def replaceAlloc (fresh : Nat → Char) (mallocOk : Bool) (result_len : Nat)
    (orig rep with_ : List Char) (len_rep len_with : Int) (count : Nat) : Outcome :=
  if inInt32 (len_with - len_rep) && inInt32 ((len_with - len_rep) * (count : Int)) then
    match malloc fresh mallocOk
        (toSizeT ((orig.length : Int) + (len_with - len_rep) * (count : Int) + 1)) with
    | none => Outcome.null
    | some result =>
      match (writeLoop orig rep with_ len_rep len_with result_len count ⟨result, 0, 0⟩).bind
          (writeRest orig result_len) with
      | none => Outcome.undefined
      | some r => Outcome.block r
  else Outcome.undefined

/-- The function `replaceString2`; a null argument is `none`. The variable
`result_len`, which the function uses and the file declares nowhere, is a
parameter. -/
def replaceString2 (fresh : Nat → Char) (mallocOk : Bool) (result_len : Nat)
    (orig rep with_ : Option (List Char)) : Outcome :=
  match orig, rep with
  | none, _ => Outcome.null
  | some _, none => Outcome.null
  | some orig, some rep =>
    if toInt32 (rep.length : Int) = 0 then Outcome.null
    else
      match countLoop orig rep (toInt32 (rep.length : Int)) (orig.length + 1) 0 0 with
      | none => Outcome.undefined
      | some count =>
        replaceAlloc fresh mallocOk result_len orig rep (with_.getD [])
          (toInt32 (rep.length : Int)) (toInt32 ((with_.getD []).length : Int)) count

/-! ### Specification vocabulary for replaceString2 -/

/-- The text `s` with every occurrence of `rep` replaced by `with_`, the
occurrences being found from left to right and not overlapping: `skip` is the
number of characters of `s` that still belong to the occurrence found last. -/
def replaceAllAux (rep with_ : List Char) : Nat → List Char → List Char
  | _, [] => []
  | 0, c :: cs =>
    if rep.isPrefixOf (c :: cs) then with_ ++ replaceAllAux rep with_ (rep.length - 1) cs
    else c :: replaceAllAux rep with_ 0 cs
  | skip + 1, _ :: cs => replaceAllAux rep with_ skip cs

/-- The text `s` with every non-overlapping occurrence of `rep`, found from
left to right, replaced by `with_`. -/
def replaceAll (rep with_ s : List Char) : List Char := replaceAllAux rep with_ 0 s

/-- Number of non-overlapping occurrences of `rep` in `s`, found from left to
right; `skip` is as in `replaceAllAux`. -/
def occurrencesAux (rep : List Char) : Nat → List Char → Nat
  | _, [] => 0
  | 0, c :: cs =>
    if rep.isPrefixOf (c :: cs) then occurrencesAux rep (rep.length - 1) cs + 1
    else occurrencesAux rep 0 cs
  | skip + 1, _ :: cs => occurrencesAux rep skip cs

/-- Number of non-overlapping occurrences of `rep` in `s`, found from left to
right. -/
def occurrences (rep s : List Char) : Nat := occurrencesAux rep 0 s

end Utils

namespace Audiomon

/-! ## Helper lemmas -/

theorem writeAudioFile_bluetooth (io : IoEnv) (id : String) (w : World)
    (h : io.openOk = true) :
    writeAudioFile io id DeviceType.DEVICE_BLUETOOTH w = ⟨some (bluealsaStanza id), w.sink⟩ := by
  simp [writeAudioFile, h, bluealsaStanza, String.join, String.append_assoc]

theorem writeAudioFile_usb (io : IoEnv) (c : String) (w : World)
    (h : io.openOk = true) :
    writeAudioFile io c DeviceType.DEVICE_USB_AUDIO w = ⟨some (hwStanza c), w.sink⟩ := by
  simp [writeAudioFile, h, hwStanza, String.join, String.append_assoc]

theorem clearAudioFile_ok (io : IoEnv) (w : World) (h : io.unlinkOk = true) :
    clearAudioFile io w = ⟨none, w.sink⟩ := by
  cases w with
  | mk file sink => cases file <;> simp [clearAudioFile, h]

theorem clearAudioFile_absent (io : IoEnv) (sink : AudioSink) :
    clearAudioFile io ⟨none, sink⟩ = ⟨none, sink⟩ := by
  simp [clearAudioFile]

theorem hasUUIDLoop_map_str (uuid : String) (uuids : List String) :
    hasUUIDLoop uuid (uuids.map DBusValue.str) = decide (uuid ∈ uuids) := by
  induction uuids with
  | nil => simp [hasUUIDLoop]
  | cons u us ih =>
    by_cases h : uuid = u
    · simp [hasUUIDLoop, h]
    · simp [hasUUIDLoop, h, ih]

theorem hasUUID_of_isA2dpPeer (conn : DBusConnection) (path : String)
    (h : IsA2dpPeer conn path) : hasUUID conn path UUID_A2DP = true := by
  obtain ⟨uuids, hreply, hmem⟩ := h
  simp [hasUUID, hreply, hasUUIDLoop_map_str, hmem]

theorem isA2dpPeer_a2dpBus (path : String) : IsA2dpPeer a2dpBus path :=
  ⟨[UUID_A2DP], rfl, by simp⟩

theorem handleDeviceConnected_accepted (io : IoEnv) (conn : DBusConnection)
    (path : String) (w : World) (hpeer : IsA2dpPeer conn path)
    (hio : io.openOk = true) :
    handleDeviceConnected io conn path w
      = ⟨some (bluealsaStanza (pathToMac path)), .AUDIO_SINK_BLUETOOTH⟩ := by
  simp [handleDeviceConnected, hasUUID_of_isA2dpPeer conn path hpeer,
    writeAudioFile_bluetooth io _ w hio, SetAudioSink]

theorem handleUsbAudioConnected_accepted (io : IoEnv) (dev : UdevDevice)
    (w : World) (hcard : getUsbAudioCardNumber dev ≠ "")
    (hio : io.openOk = true) :
    handleUsbAudioConnected io dev w
      = ⟨some (hwStanza (getUsbAudioCardNumber dev)), .AUDIO_SINK_USBDAC⟩ := by
  have hne : (getUsbAudioCardNumber dev).isEmpty = false := by
    cases h : (getUsbAudioCardNumber dev).isEmpty
    · rfl
    · exact absurd ((String.isEmpty_iff _).mp h) hcard
  simp [handleUsbAudioConnected, hne, writeAudioFile_usb io _ w hio, SetAudioSink]

theorem handleDeviceDisconnected_accepted (io : IoEnv) (conn : DBusConnection)
    (path : String) (w : World) (hpeer : IsA2dpPeer conn path) :
    handleDeviceDisconnected io conn path w
      = ⟨(clearAudioFile io w).file, .AUDIO_SINK_DEFAULT⟩ := by
  simp [handleDeviceDisconnected, hasUUID_of_isA2dpPeer conn path hpeer, SetAudioSink]

theorem handleUsbAudioDisconnected_accepted (io : IoEnv) (dev : UdevDevice)
    (w : World) (hcard : getUsbAudioCardNumber dev ≠ "") :
    handleUsbAudioDisconnected io dev w
      = ⟨(clearAudioFile io w).file, .AUDIO_SINK_DEFAULT⟩ := by
  have hne : (getUsbAudioCardNumber dev).isEmpty = false := by
    cases h : (getUsbAudioCardNumber dev).isEmpty
    · rfl
    · exact absurd ((String.isEmpty_iff _).mp h) hcard
  simp [handleUsbAudioDisconnected, hne, SetAudioSink]

theorem handleEvent_connect (io : IoEnv) (e : Event) (w : World)
    (hconn : e.isConnect = true) (hacc : e.Accepted) (hio : io.openOk = true) :
    handleEvent io e w = e.sink.toWorld := by
  cases e with
  | btConnected conn path =>
    exact handleDeviceConnected_accepted io conn path w hacc hio
  | usbAdd dev => exact handleUsbAudioConnected_accepted io dev w hacc hio
  | btDisconnected conn path => simp [Event.isConnect] at hconn
  | usbRemove dev => simp [Event.isConnect] at hconn

theorem handleEvent_disconnect (io : IoEnv) (e : Event) (w : World)
    (hdis : e.isConnect = false) (hacc : e.Accepted) (hio : io.unlinkOk = true) :
    handleEvent io e w = ⟨none, .AUDIO_SINK_DEFAULT⟩ := by
  cases e with
  | btConnected conn path => simp [Event.isConnect] at hdis
  | usbAdd dev => simp [Event.isConnect] at hdis
  | btDisconnected conn path =>
    simp [handleEvent, handleDeviceDisconnected_accepted io conn path w hacc,
      clearAudioFile_ok io w hio]
  | usbRemove dev =>
    simp [handleEvent, handleUsbAudioDisconnected_accepted io dev w hacc,
      clearAudioFile_ok io w hio]

theorem runEvents_append (xs ys : List (IoEnv × Event)) (w : World) :
    runEvents (xs ++ ys) w = runEvents ys (runEvents xs w) := by
  induction xs generalizing w with
  | nil => rfl
  | cons x xs ih =>
    obtain ⟨io, e⟩ := x
    simp [runEvents, ih]

theorem getUsbAudioCardNumber_usbCard1 (action : String) :
    getUsbAudioCardNumber (usbCard1 action) = "1" := by
  have hfind : strFind "/dev/snd/controlC1" "controlC" = some 9 := by decide
  have hsub : substrFrom "/dev/snd/controlC1" (9 + 8) = "1" := by decide
  simp [getUsbAudioCardNumber, usbCard1, hfind, hsub]

theorem isUsbAudioDevice_usbCard1 (action : String) :
    isUsbAudioDevice (usbCard1 action) = true := by
  have hnode : strFind "/dev/snd/controlC1" "controlC" = some 9 := by decide
  have hpath : strstr "/devices/platform/soc/usb1/1-1/1-1:1.0/sound/card1/controlC1" "usb"
      = true := by decide
  simp [isUsbAudioDevice, usbCard1, hnode, hpath]

theorem pathToMac_peerPath : pathToMac peerPath = "AA:BB:CC:DD:EE:FF" := by
  decide

theorem findList_of_isPrefix (pat s : List Char) (h : pat <+: s) :
    findList pat s = some 0 := by
  cases s with
  | nil =>
    have hp : pat = [] := List.prefix_nil.mp h
    simp [findList, hp]
  | cons c cs =>
    have hp : pat.isPrefixOf (c :: cs) = true := List.isPrefixOf_iff_prefix.mpr h
    simp [findList, hp]

theorem findList_some (pat : List Char) :
    ∀ (s : List Char) (n : Nat), findList pat s = some n →
      ∃ a b, s = a ++ pat ++ b ∧ a.length = n := by
  intro s
  induction s with
  | nil =>
    intro n h
    by_cases hp : pat = []
    · subst hp
      simp [findList] at h
      exact ⟨[], [], by simp, by simp [h]⟩
    · simp [findList, hp] at h
  | cons c cs ih =>
    intro n h
    by_cases hp : pat.isPrefixOf (c :: cs) = true
    · simp [findList, hp] at h
      obtain ⟨t, ht⟩ := List.isPrefixOf_iff_prefix.mp hp
      exact ⟨[], t, by simp [ht], by simp [h]⟩
    · simp [findList, hp] at h
      obtain ⟨m, hm, hn⟩ := h
      obtain ⟨a, b, hs, ha⟩ := ih m hm
      exact ⟨c :: a, b, by simp [hs], by simp [ha, hn]⟩

theorem findList_min (pat : List Char) :
    ∀ (a b : List Char), ∃ n, findList pat (a ++ pat ++ b) = some n ∧ n ≤ a.length := by
  intro a
  induction a with
  | nil =>
    intro b
    exact ⟨0, findList_of_isPrefix pat _ ⟨b, by simp⟩, Nat.le_refl _⟩
  | cons c a ih =>
    intro b
    have e : (c :: a) ++ pat ++ b = c :: (a ++ pat ++ b) := rfl
    rw [e]
    by_cases hp : pat.isPrefixOf (c :: (a ++ pat ++ b)) = true
    · refine ⟨0, ?_, Nat.zero_le _⟩
      rw [findList, if_pos hp]
    · obtain ⟨n, hn, hle⟩ := ih b
      refine ⟨n + 1, ?_, Nat.succ_le_succ hle⟩
      rw [findList, if_neg hp, hn]
      rfl

theorem findList_eq_none_iff (pat s : List Char) :
    findList pat s = none ↔ ¬ ∃ a b, s = a ++ pat ++ b := by
  constructor
  · rintro h ⟨a, b, rfl⟩
    obtain ⟨n, hn, _⟩ := findList_min pat a b
    rw [h] at hn
    exact absurd hn (by simp)
  · intro h
    cases hf : findList pat s with
    | none => rfl
    | some n =>
      obtain ⟨a, b, hs, _⟩ := findList_some pat s n hf
      exact absurd ⟨a, b, hs⟩ h

theorem findList_first (pat pre rest : List Char)
    (hmin : ∀ a b, pre ++ pat ++ rest = a ++ pat ++ b → pre.length ≤ a.length) :
    findList pat (pre ++ pat ++ rest) = some pre.length := by
  obtain ⟨n, hn, hle⟩ := findList_min pat pre rest
  obtain ⟨a, b, hs, ha⟩ := findList_some pat _ n hn
  have := hmin a b hs
  have hnn : n = pre.length := by omega
  rw [hn, hnn]

theorem contains_iff_data (s pat : String) :
    Contains s pat ↔ ∃ a b : List Char, s.data = a ++ pat.data ++ b := by
  constructor
  · rintro ⟨a, b, h⟩
    exact ⟨a.data, b.data, by simp [h]⟩
  · rintro ⟨a, b, h⟩
    exact ⟨String.mk a, String.mk b, String.ext (by simp [h])⟩

theorem strFind_eq_none_iff (s pat : String) :
    strFind s pat = none ↔ ¬ Contains s pat := by
  rw [contains_iff_data, strFind, findList_eq_none_iff]

theorem strFind_isSome_iff (s pat : String) :
    (strFind s pat).isSome = true ↔ Contains s pat := by
  rw [← not_iff_not, ← strFind_eq_none_iff]
  cases strFind s pat <;> simp

theorem strFind_first (pat pre rest : String)
    (hmin : ∀ a b : String, pre ++ pat ++ rest = a ++ pat ++ b → pre.length ≤ a.length) :
    strFind (pre ++ pat ++ rest) pat = some pre.length := by
  have h := findList_first pat.data pre.data rest.data (by
    intro a b hab
    have := hmin (String.mk a) (String.mk b) (String.ext (by simpa using hab))
    simpa using this)
  simpa [strFind] using h

theorem strFind_le_of_decomposition (s pat : String) (n : Nat)
    (h : strFind s pat = some n) :
    ∀ a b : String, s = a ++ pat ++ b → n ≤ a.length := by
  intro a b hs
  obtain ⟨m, hm, hle⟩ := findList_min pat.data a.data b.data
  have hs2 : findList pat.data (a.data ++ pat.data ++ b.data) = some n := by
    have := h
    rw [hs] at this
    simpa [strFind] using this
  rw [hm] at hs2
  have hmn : m = n := Option.some.inj hs2
  rw [← hmn]
  exact hle

theorem findList_dev_append (p rest : List Char)
    (h : findList ['d', 'e', 'v', '_'] p = none) :
    findList ['d', 'e', 'v', '_'] (p ++ ['d', 'e', 'v', '_'] ++ rest) = some p.length := by
  induction p with
  | nil => exact findList_of_isPrefix _ _ ⟨rest, by simp⟩
  | cons c p ih =>
    by_cases hp : List.isPrefixOf ['d', 'e', 'v', '_'] (c :: p) = true
    · rw [findList, if_pos hp] at h
      exact absurd h (by simp)
    · rw [findList, if_neg hp] at h
      have hrest : findList ['d', 'e', 'v', '_'] p = none := by
        cases hf : findList ['d', 'e', 'v', '_'] p with
        | none => rfl
        | some n => rw [hf] at h; exact absurd h (by simp)
      have hp2 : ¬ List.isPrefixOf ['d', 'e', 'v', '_']
          (c :: (p ++ ['d', 'e', 'v', '_'] ++ rest)) = true := by
        match p, hp with
        | [], _ => simp [List.isPrefixOf]
        | [c2], _ => simp [List.isPrefixOf]
        | [c2, c3], _ => simp [List.isPrefixOf]
        | c2 :: c3 :: c4 :: p2, hp => simpa [List.isPrefixOf] using hp
      have e : (c :: p) ++ ['d', 'e', 'v', '_'] ++ rest
          = c :: (p ++ ['d', 'e', 'v', '_'] ++ rest) := rfl
      rw [e, findList, if_neg hp2, ih hrest]
      rfl

theorem bluealsaStanza_head (id : String) :
    (bluealsaStanza id).data.head? = some 'd' := by
  simp only [bluealsaStanza, String.data_join, List.map_cons, List.flatten_cons]
  rfl

theorem hwStanza_head (c : String) :
    (hwStanza c).data.head? = some 'p' := by
  simp only [hwStanza, String.data_join, List.map_cons, List.flatten_cons]
  rfl

theorem bluealsaStanza_ne_hwStanza (id c : String) :
    bluealsaStanza id ≠ hwStanza c := by
  intro h
  have h2 := bluealsaStanza_head id
  rw [h, hwStanza_head] at h2
  exact absurd h2 (by decide)

theorem isUsbAudioDevice_subsystem (dev : UdevDevice)
    (h : isUsbAudioDevice dev = true) : dev.subsystem = some "sound" := by
  unfold isUsbAudioDevice at h
  cases hs : dev.subsystem with
  | none => simp [hs] at h
  | some sub =>
    by_cases hsub : sub = "sound"
    · rw [hsub]
    · simp [hs, hsub] at h

theorem udevBranch_add (io : IoEnv) (dev : UdevDevice) (w : World)
    (hdev : isUsbAudioDevice dev = true) (hact : dev.action = some "add") :
    udevBranch io (some dev) w = handleUsbAudioConnected io dev w := by
  simp [udevBranch, isUsbAudioDevice_subsystem dev hdev, hdev, hact]

theorem udevBranch_remove (io : IoEnv) (dev : UdevDevice) (w : World)
    (hdev : isUsbAudioDevice dev = true) (hact : dev.action = some "remove") :
    udevBranch io (some dev) w = handleUsbAudioDisconnected io dev w := by
  simp [udevBranch, isUsbAudioDevice_subsystem dev hdev, hdev, hact]

theorem udevBranch_rejected (io : IoEnv) (dev : UdevDevice) (w : World)
    (hdev : isUsbAudioDevice dev = false) :
    udevBranch io (some dev) w = w := by
  cases hs : dev.subsystem with
  | none => simp [udevBranch, hs]
  | some sub => simp [udevBranch, hs, hdev]

theorem consistent_default : Consistent ⟨none, .AUDIO_SINK_DEFAULT⟩ := by
  simp [Consistent]

theorem consistent_bluetooth (id : String) :
    Consistent ⟨some (bluealsaStanza id), .AUDIO_SINK_BLUETOOTH⟩ := by
  refine ⟨by simp, ⟨fun _ => ⟨id, rfl⟩, fun _ => rfl⟩, ?_⟩
  constructor
  · intro h; cases h
  · rintro ⟨c, hc⟩
    exact absurd (Option.some.inj hc) (bluealsaStanza_ne_hwStanza id c)

theorem consistent_usb (c : String) :
    Consistent ⟨some (hwStanza c), .AUDIO_SINK_USBDAC⟩ := by
  refine ⟨by simp, ?_, ⟨fun _ => ⟨c, rfl⟩, fun _ => rfl⟩⟩
  constructor
  · intro h; cases h
  · rintro ⟨id, hid⟩
    exact absurd (Option.some.inj hid).symm (bluealsaStanza_ne_hwStanza id c)

theorem consistent_handleDeviceConnected (io : IoEnv) (conn : DBusConnection)
    (path : String) (w : World) (hio : io.openOk = true) (hw : Consistent w) :
    Consistent (handleDeviceConnected io conn path w) := by
  cases h : hasUUID conn path UUID_A2DP with
  | false => simpa [handleDeviceConnected, h] using hw
  | true =>
    simpa [handleDeviceConnected, h, writeAudioFile_bluetooth io _ w hio, SetAudioSink]
      using consistent_bluetooth (pathToMac path)

theorem consistent_handleDeviceDisconnected (io : IoEnv) (conn : DBusConnection)
    (path : String) (w : World) (hio : io.unlinkOk = true) (hw : Consistent w) :
    Consistent (handleDeviceDisconnected io conn path w) := by
  cases h : hasUUID conn path UUID_A2DP with
  | false => simpa [handleDeviceDisconnected, h] using hw
  | true =>
    simpa [handleDeviceDisconnected, h, clearAudioFile_ok io w hio, SetAudioSink]
      using consistent_default

theorem consistent_handleUsbAudioConnected (io : IoEnv) (dev : UdevDevice)
    (w : World) (hio : io.openOk = true) (hw : Consistent w) :
    Consistent (handleUsbAudioConnected io dev w) := by
  cases h : (getUsbAudioCardNumber dev).isEmpty with
  | true => simpa [handleUsbAudioConnected, h] using hw
  | false =>
    simpa [handleUsbAudioConnected, h, writeAudioFile_usb io _ w hio, SetAudioSink]
      using consistent_usb (getUsbAudioCardNumber dev)

theorem consistent_handleUsbAudioDisconnected (io : IoEnv) (dev : UdevDevice)
    (w : World) (hio : io.unlinkOk = true) (hw : Consistent w) :
    Consistent (handleUsbAudioDisconnected io dev w) := by
  cases h : (getUsbAudioCardNumber dev).isEmpty with
  | true => simpa [handleUsbAudioDisconnected, h] using hw
  | false =>
    simpa [handleUsbAudioDisconnected, h, clearAudioFile_ok io w hio, SetAudioSink]
      using consistent_default

theorem consistent_runEvents (steps : List (IoEnv × Event)) (w : World)
    (hio : ∀ s ∈ steps, s.1.openOk = true ∧ s.1.unlinkOk = true)
    (hw : Consistent w) : Consistent (runEvents steps w) := by
  induction steps generalizing w with
  | nil => exact hw
  | cons s rest ih =>
    obtain ⟨io, e⟩ := s
    have hs := hio (io, e) (List.mem_cons_self _ _)
    have hrest : ∀ s ∈ rest, s.1.openOk = true ∧ s.1.unlinkOk = true :=
      fun s hmem => hio s (List.mem_cons_of_mem _ hmem)
    apply ih _ hrest
    cases e with
    | btConnected conn path =>
      exact consistent_handleDeviceConnected io conn path w hs.1 hw
    | btDisconnected conn path =>
      exact consistent_handleDeviceDisconnected io conn path w hs.2 hw
    | usbAdd dev => exact consistent_handleUsbAudioConnected io dev w hs.1 hw
    | usbRemove dev => exact consistent_handleUsbAudioDisconnected io dev w hs.2 hw

theorem toWorld_ne_default (s : SinkState) (h : s ≠ .Default) :
    s.toWorld ≠ ⟨none, .AUDIO_SINK_DEFAULT⟩ := by
  cases s with
  | Default => exact absurd rfl h
  | Bluetooth id => simp [SinkState.toWorld]
  | UsbAudio c => simp [SinkState.toWorld]

theorem map_colon_of_not_mem (l : List Char) (h : '_' ∉ l) :
    l.map (fun c => if c = '_' then ':' else c) = l := by
  induction l with
  | nil => rfl
  | cons c cs ih =>
    have hc : c ≠ '_' := fun hc => h (by simp [hc])
    have hcs : '_' ∉ cs := fun hcs => h (List.mem_cons_of_mem _ hcs)
    simp [hc, ih hcs]

theorem pathToMac_of_strFind (path : String) (pos : Nat)
    (h : strFind path "dev_" = some pos) :
    pathToMac path
      = String.mk ((path.data.drop (pos + 4)).map (fun c => if c = '_' then ':' else c)) := by
  simp [pathToMac, h, substrFrom]

theorem pathToMac_append (p rest : String) (hp : ¬ Contains p "dev_") :
    pathToMac (p ++ "dev_" ++ rest)
      = String.mk (rest.data.map (fun c => if c = '_' then ':' else c)) := by
  have hnone : findList ['d', 'e', 'v', '_'] p.data = none :=
    (strFind_eq_none_iff p "dev_").mpr hp
  have hfind : strFind (p ++ "dev_" ++ rest) "dev_" = some p.data.length :=
    findList_dev_append p.data rest.data hnone
  rw [pathToMac_of_strFind _ _ hfind]
  have hdrop : (p ++ "dev_" ++ rest).data.drop (p.data.length + 4) = rest.data := by
    have e : (p ++ "dev_" ++ rest).data = (p.data ++ ['d', 'e', 'v', '_']) ++ rest.data := rfl
    rw [e]
    exact List.drop_left' (by simp)
  rw [hdrop]

theorem pathToMac_no_underscore (path : String) : '_' ∉ (pathToMac path).data := by
  unfold pathToMac
  cases strFind path "dev_" with
  | none => simp
  | some pos =>
    simp only [List.mem_map, not_exists, not_and]
    intro c _ hc
    by_cases h : c = '_'
    · simp [h] at hc
    · simp [h] at hc

theorem isUsbAudioDevice_iff (dev : UdevDevice) :
    isUsbAudioDevice dev = true ↔
      dev.subsystem = some "sound"
        ∧ (∃ node, dev.devnode = some node ∧ Contains node "controlC")
        ∧ (∃ path, dev.devpath = some path ∧ Contains path "usb") := by
  unfold isUsbAudioDevice
  cases hs : dev.subsystem with
  | none => simp
  | some sub =>
    by_cases hsub : sub = "sound"
    · subst hsub
      cases hn : dev.devnode with
      | none => simp
      | some node =>
        by_cases hnode : strFind node "controlC" = none
        · have := (strFind_eq_none_iff node "controlC").mp hnode
          simp [hnode, this]
        · have hc : Contains node "controlC" := by
            by_contra hcon
            exact hnode ((strFind_eq_none_iff node "controlC").mpr hcon)
          cases hp : dev.devpath with
          | none => simp [hnode]
          | some path => simp [hnode, hc, strstr, strFind_isSome_iff]
    · simp [hsub]

/-! ## C1: the last connect wins -/

/-- Claim C1. After any sequence of events that ends with an accepted connect
event (a Bluetooth connect of an A2DP peer, or a USB add with a non-empty card
identity) whose file write succeeds, the state is exactly the stanza and the
sink category of that last event. Neither the starting state nor the earlier
events, of whatever kind and outcome, have any influence; in particular this
holds when all earlier events are accepted connect events. -/
theorem last_connect_wins (w : World) (earlier : List (IoEnv × Event))
    (io : IoEnv) (last : Event)
    (hconn : last.isConnect = true) (hacc : last.Accepted)
    (hio : io.openOk = true) :
    runEvents (earlier ++ [(io, last)]) w = last.sink.toWorld := by
  rw [runEvents_append]
  simp [runEvents]
  exact handleEvent_connect io last _ hconn hacc hio

/-- Witness for C1: card 1 is plugged in, then the peer AA:BB:CC:DD:EE:FF
connects, starting from a state that claims a Bluetooth sink without a file. -/
theorem last_connect_wins_witness :
    runEvents ([(ioOk, Event.usbAdd (usbCard1 "add"))]
        ++ [(ioOk, Event.btConnected a2dpBus peerPath)])
      ⟨none, .AUDIO_SINK_BLUETOOTH⟩
      = (SinkState.Bluetooth (pathToMac peerPath)).toWorld :=
  last_connect_wins ⟨none, .AUDIO_SINK_BLUETOOTH⟩
    [(ioOk, Event.usbAdd (usbCard1 "add"))] ioOk
    (Event.btConnected a2dpBus peerPath) rfl (isA2dpPeer_a2dpBus peerPath) rfl

/-! ## C2: a disconnect of a device that is not the active sink -/

/-- Counterexample to claim C2. The active sink is the Bluetooth peer
AA:BB:CC:DD:EE:FF and the remove event of USB card 1 arrives: the event is an
accepted disconnect of another device, yet the handler deletes the routing
file and notifies Default, so the state is not left unchanged. -/
theorem disconnect_of_other_device_changes_state :
    (Event.usbRemove (usbCard1 "remove")).isConnect = false
      ∧ (Event.usbRemove (usbCard1 "remove")).Accepted
      ∧ (Event.usbRemove (usbCard1 "remove")).sink ≠ SinkState.Bluetooth "AA:BB:CC:DD:EE:FF"
      ∧ handleEvent ioOk (Event.usbRemove (usbCard1 "remove"))
          (SinkState.Bluetooth "AA:BB:CC:DD:EE:FF").toWorld
        = ⟨none, .AUDIO_SINK_DEFAULT⟩
      ∧ handleEvent ioOk (Event.usbRemove (usbCard1 "remove"))
          (SinkState.Bluetooth "AA:BB:CC:DD:EE:FF").toWorld
        ≠ (SinkState.Bluetooth "AA:BB:CC:DD:EE:FF").toWorld := by
  have hacc : (Event.usbRemove (usbCard1 "remove")).Accepted := by
    show getUsbAudioCardNumber (usbCard1 "remove") ≠ ""
    rw [getUsbAudioCardNumber_usbCard1]
    decide
  have hres := handleEvent_disconnect ioOk (Event.usbRemove (usbCard1 "remove"))
    (SinkState.Bluetooth "AA:BB:CC:DD:EE:FF").toWorld rfl hacc rfl
  refine ⟨rfl, hacc, ?_, hres, ?_⟩
  · simp [Event.sink]
  · rw [hres]
    exact (toWorld_ne_default _ (by simp)).symm

/-- Claim C2 as amended. In a state where some sink is active, an accepted
disconnect event (a USB remove with a non-empty card identity, or a Bluetooth
disconnect of an A2DP peer) whose kind and identity differ from the active
sink does change the state: with the unlink succeeding the routing file is
removed and the notified category becomes Default. -/
theorem disconnect_of_other_device_falls_back (io : IoEnv) (s : SinkState)
    (e : Event) (hactive : s ≠ .Default) (hdis : e.isConnect = false)
    (hacc : e.Accepted) (_hother : e.sink ≠ s) (hio : io.unlinkOk = true) :
    handleEvent io e s.toWorld = ⟨none, .AUDIO_SINK_DEFAULT⟩
      ∧ handleEvent io e s.toWorld ≠ s.toWorld := by
  have hres := handleEvent_disconnect io e s.toWorld hdis hacc hio
  refine ⟨hres, ?_⟩
  rw [hres]
  exact (toWorld_ne_default s hactive).symm

/-- Witness for the amended C2: USB card "1" is active and the Bluetooth peer
AA:BB:CC:DD:EE:FF disconnects. -/
theorem disconnect_of_other_device_falls_back_witness :
    handleEvent ioOk (Event.btDisconnected a2dpBus peerPath)
        (SinkState.UsbAudio "1").toWorld = ⟨none, .AUDIO_SINK_DEFAULT⟩
      ∧ handleEvent ioOk (Event.btDisconnected a2dpBus peerPath)
        (SinkState.UsbAudio "1").toWorld ≠ (SinkState.UsbAudio "1").toWorld :=
  disconnect_of_other_device_falls_back ioOk (SinkState.UsbAudio "1")
    (Event.btDisconnected a2dpBus peerPath) (by simp) rfl
    (isA2dpPeer_a2dpBus peerPath) (by simp [Event.sink]) rfl

/-! ## C3: the end-to-end scenario -/

/-- Counterexample to claim C3. Card 1 is added, the peer AA:BB:CC:DD:EE:FF
connects, and then the remove event of card 1 arrives: steps (1) and (2) give
the states the claim names, but step (3) does not leave the bluealsa stanza
and the Bluetooth category in place; it yields no file and Default. -/
theorem scenario_usb_remove_is_not_ignored :
    udevBranch ioOk (some (usbCard1 "add")) ⟨none, .AUDIO_SINK_DEFAULT⟩
        = ⟨some (hwStanza "1"), .AUDIO_SINK_USBDAC⟩
      ∧ handleDeviceConnected ioOk a2dpBus peerPath
          ⟨some (hwStanza "1"), .AUDIO_SINK_USBDAC⟩
        = ⟨some (bluealsaStanza "AA:BB:CC:DD:EE:FF"), .AUDIO_SINK_BLUETOOTH⟩
      ∧ udevBranch ioOk (some (usbCard1 "remove"))
          ⟨some (bluealsaStanza "AA:BB:CC:DD:EE:FF"), .AUDIO_SINK_BLUETOOTH⟩
        = ⟨none, .AUDIO_SINK_DEFAULT⟩
      ∧ udevBranch ioOk (some (usbCard1 "remove"))
          ⟨some (bluealsaStanza "AA:BB:CC:DD:EE:FF"), .AUDIO_SINK_BLUETOOTH⟩
        ≠ ⟨some (bluealsaStanza "AA:BB:CC:DD:EE:FF"), .AUDIO_SINK_BLUETOOTH⟩ := by
  have hcard : ∀ a, getUsbAudioCardNumber (usbCard1 a) ≠ "" := by
    intro a
    rw [getUsbAudioCardNumber_usbCard1]
    decide
  have h1 : udevBranch ioOk (some (usbCard1 "add")) ⟨none, .AUDIO_SINK_DEFAULT⟩
      = ⟨some (hwStanza "1"), .AUDIO_SINK_USBDAC⟩ := by
    rw [udevBranch_add _ _ _ (isUsbAudioDevice_usbCard1 "add") rfl,
      handleUsbAudioConnected_accepted _ _ _ (hcard "add") rfl,
      getUsbAudioCardNumber_usbCard1]
  have h2 : handleDeviceConnected ioOk a2dpBus peerPath
      ⟨some (hwStanza "1"), .AUDIO_SINK_USBDAC⟩
      = ⟨some (bluealsaStanza "AA:BB:CC:DD:EE:FF"), .AUDIO_SINK_BLUETOOTH⟩ := by
    rw [handleDeviceConnected_accepted _ _ _ _ (isA2dpPeer_a2dpBus peerPath) rfl,
      pathToMac_peerPath]
  have h3 : udevBranch ioOk (some (usbCard1 "remove"))
      ⟨some (bluealsaStanza "AA:BB:CC:DD:EE:FF"), .AUDIO_SINK_BLUETOOTH⟩
      = ⟨none, .AUDIO_SINK_DEFAULT⟩ := by
    rw [udevBranch_remove _ _ _ (isUsbAudioDevice_usbCard1 "remove") rfl,
      handleUsbAudioDisconnected_accepted _ _ _ (hcard "remove"),
      clearAudioFile_ok _ _ rfl]
  refine ⟨h1, h2, h3, ?_⟩
  rw [h3]
  simp

/-- Claim C3 as amended. From the Default state with no routing file, with
file operations succeeding: (1) the add event of a USB control node with card
identity "1" gives the hw stanza of card 1 and the USB-DAC category; (2) the
connect of an A2DP peer with address `mac` then gives exactly the bluealsa
stanza of `mac` and the Bluetooth category; (3) the remove event of card "1"
then removes the routing file and notifies Default; (4) the disconnect of the
peer then leaves no file and the Default category. -/
theorem scenario_usb_then_bluetooth (io : IoEnv) (add remove : UdevDevice)
    (conn : DBusConnection) (path mac : String)
    (hopen : io.openOk = true) (hunlink : io.unlinkOk = true)
    (hadd : isUsbAudioDevice add = true ∧ add.action = some "add"
      ∧ getUsbAudioCardNumber add = "1")
    (hremove : isUsbAudioDevice remove = true ∧ remove.action = some "remove"
      ∧ getUsbAudioCardNumber remove = "1")
    (hpeer : IsA2dpPeer conn path) (hmac : pathToMac path = mac) :
    udevBranch io (some add) ⟨none, .AUDIO_SINK_DEFAULT⟩
        = ⟨some (hwStanza "1"), .AUDIO_SINK_USBDAC⟩
      ∧ handleDeviceConnected io conn path ⟨some (hwStanza "1"), .AUDIO_SINK_USBDAC⟩
        = ⟨some (bluealsaStanza mac), .AUDIO_SINK_BLUETOOTH⟩
      ∧ udevBranch io (some remove) ⟨some (bluealsaStanza mac), .AUDIO_SINK_BLUETOOTH⟩
        = ⟨none, .AUDIO_SINK_DEFAULT⟩
      ∧ handleDeviceDisconnected io conn path ⟨none, .AUDIO_SINK_DEFAULT⟩
        = ⟨none, .AUDIO_SINK_DEFAULT⟩ := by
  have hne : ("1" : String) ≠ "" := by decide
  refine ⟨?_, ?_, ?_, ?_⟩
  · rw [udevBranch_add _ _ _ hadd.1 hadd.2.1,
      handleUsbAudioConnected_accepted _ _ _ (by rw [hadd.2.2]; exact hne) hopen,
      hadd.2.2]
  · rw [handleDeviceConnected_accepted _ _ _ _ hpeer hopen, hmac]
  · rw [udevBranch_remove _ _ _ hremove.1 hremove.2.1,
      handleUsbAudioDisconnected_accepted _ _ _ (by rw [hremove.2.2]; exact hne),
      clearAudioFile_ok _ _ hunlink]
  · rw [handleDeviceDisconnected_accepted _ _ _ _ hpeer, clearAudioFile_absent]

/-- Witness for the amended C3: card 1 and the peer AA:BB:CC:DD:EE:FF. -/
theorem scenario_usb_then_bluetooth_witness :
    udevBranch ioOk (some (usbCard1 "add")) ⟨none, .AUDIO_SINK_DEFAULT⟩
        = ⟨some (hwStanza "1"), .AUDIO_SINK_USBDAC⟩
      ∧ handleDeviceConnected ioOk a2dpBus peerPath
          ⟨some (hwStanza "1"), .AUDIO_SINK_USBDAC⟩
        = ⟨some (bluealsaStanza "AA:BB:CC:DD:EE:FF"), .AUDIO_SINK_BLUETOOTH⟩
      ∧ udevBranch ioOk (some (usbCard1 "remove"))
          ⟨some (bluealsaStanza "AA:BB:CC:DD:EE:FF"), .AUDIO_SINK_BLUETOOTH⟩
        = ⟨none, .AUDIO_SINK_DEFAULT⟩
      ∧ handleDeviceDisconnected ioOk a2dpBus peerPath ⟨none, .AUDIO_SINK_DEFAULT⟩
        = ⟨none, .AUDIO_SINK_DEFAULT⟩ :=
  scenario_usb_then_bluetooth ioOk (usbCard1 "add") (usbCard1 "remove") a2dpBus
    peerPath "AA:BB:CC:DD:EE:FF" rfl rfl
    ⟨isUsbAudioDevice_usbCard1 "add", rfl, getUsbAudioCardNumber_usbCard1 "add"⟩
    ⟨isUsbAudioDevice_usbCard1 "remove", rfl, getUsbAudioCardNumber_usbCard1 "remove"⟩
    (isA2dpPeer_a2dpBus peerPath) pathToMac_peerPath

/-! ## C4: the category and the routing file agree -/

/-- Claim C4. With file operations succeeding, each of the four handlers maps
a consistent state to a consistent state, for every event whatsoever; hence
every state reached from (no file, Default) by a sequence of events is
consistent. -/
theorem handlers_preserve_consistency :
    (∀ (io : IoEnv) (conn : DBusConnection) (path : String) (w : World),
        io.openOk = true → Consistent w →
        Consistent (handleDeviceConnected io conn path w))
      ∧ (∀ (io : IoEnv) (conn : DBusConnection) (path : String) (w : World),
        io.unlinkOk = true → Consistent w →
        Consistent (handleDeviceDisconnected io conn path w))
      ∧ (∀ (io : IoEnv) (dev : UdevDevice) (w : World),
        io.openOk = true → Consistent w →
        Consistent (handleUsbAudioConnected io dev w))
      ∧ (∀ (io : IoEnv) (dev : UdevDevice) (w : World),
        io.unlinkOk = true → Consistent w →
        Consistent (handleUsbAudioDisconnected io dev w))
      ∧ (∀ steps : List (IoEnv × Event),
        (∀ s ∈ steps, s.1.openOk = true ∧ s.1.unlinkOk = true) →
        Consistent (runEvents steps ⟨none, .AUDIO_SINK_DEFAULT⟩)) :=
  ⟨consistent_handleDeviceConnected, consistent_handleDeviceDisconnected,
    consistent_handleUsbAudioConnected, consistent_handleUsbAudioDisconnected,
    fun steps hio => consistent_runEvents steps _ hio consistent_default⟩

/-- Witness for C4: the state after card 1 is added and the peer
AA:BB:CC:DD:EE:FF connects is consistent, and each of the four handlers keeps
it consistent. -/
theorem handlers_preserve_consistency_witness :
    Consistent (runEvents [(ioOk, Event.usbAdd (usbCard1 "add")),
        (ioOk, Event.btConnected a2dpBus peerPath)] ⟨none, .AUDIO_SINK_DEFAULT⟩)
      ∧ Consistent (handleDeviceConnected ioOk a2dpBus peerPath
        (runEvents [(ioOk, Event.usbAdd (usbCard1 "add")),
          (ioOk, Event.btConnected a2dpBus peerPath)] ⟨none, .AUDIO_SINK_DEFAULT⟩))
      ∧ Consistent (handleDeviceDisconnected ioOk a2dpBus peerPath
        (runEvents [(ioOk, Event.usbAdd (usbCard1 "add")),
          (ioOk, Event.btConnected a2dpBus peerPath)] ⟨none, .AUDIO_SINK_DEFAULT⟩))
      ∧ Consistent (handleUsbAudioConnected ioOk (usbCard1 "add")
        (runEvents [(ioOk, Event.usbAdd (usbCard1 "add")),
          (ioOk, Event.btConnected a2dpBus peerPath)] ⟨none, .AUDIO_SINK_DEFAULT⟩))
      ∧ Consistent (handleUsbAudioDisconnected ioOk (usbCard1 "remove")
        (runEvents [(ioOk, Event.usbAdd (usbCard1 "add")),
          (ioOk, Event.btConnected a2dpBus peerPath)] ⟨none, .AUDIO_SINK_DEFAULT⟩)) :=
  have hreach := handlers_preserve_consistency.2.2.2.2
    [(ioOk, Event.usbAdd (usbCard1 "add")), (ioOk, Event.btConnected a2dpBus peerPath)]
    (by intro s hs; simp at hs; rcases hs with rfl | rfl <;> exact ⟨rfl, rfl⟩)
  ⟨hreach,
    handlers_preserve_consistency.1 ioOk a2dpBus peerPath _ rfl hreach,
    handlers_preserve_consistency.2.1 ioOk a2dpBus peerPath _ rfl hreach,
    handlers_preserve_consistency.2.2.1 ioOk (usbCard1 "add") _ rfl hreach,
    handlers_preserve_consistency.2.2.2.1 ioOk (usbCard1 "remove") _ rfl hreach⟩

/-! ## C5: persistence is idempotent -/

/-- Claim C5. Writing the routing file for the same identity and kind twice
leaves the same state as writing it once, and clearing twice leaves the same
state as clearing once; after a successful clear the file is absent and a
further clear, whatever its outcome, changes nothing. -/
theorem persistence_idempotent (io : IoEnv) (w : World) (identity : String)
    (kind : DeviceType) :
    writeAudioFile io identity kind (writeAudioFile io identity kind w)
        = writeAudioFile io identity kind w
      ∧ (io.openOk = true → ∀ io2 : IoEnv, io2.openOk = true →
          writeAudioFile io2 identity kind (writeAudioFile io identity kind w)
            = writeAudioFile io identity kind w)
      ∧ clearAudioFile io (clearAudioFile io w) = clearAudioFile io w
      ∧ (io.unlinkOk = true →
          (clearAudioFile io w).file = none
          ∧ ∀ io2 : IoEnv, clearAudioFile io2 (clearAudioFile io w) = clearAudioFile io w) := by
  refine ⟨?_, ?_, ?_, ?_⟩
  · cases hopen : io.openOk <;> cases kind <;> simp [writeAudioFile, hopen]
  · intro hopen io2 hopen2
    cases kind <;> simp [writeAudioFile, hopen, hopen2]
  · cases hun : io.unlinkOk <;> cases w with
    | mk file sink => cases file <;> simp [clearAudioFile, hun]
  · intro hun
    rw [clearAudioFile_ok io w hun]
    exact ⟨rfl, fun io2 => clearAudioFile_absent io2 w.sink⟩

/-- Witness for C5: two successful writes for card 1, and a successful clear
of an existing file followed by a clear that would not be permitted. -/
theorem persistence_idempotent_witness :
    (∀ io2 : IoEnv, io2.openOk = true →
        writeAudioFile io2 "1" DeviceType.DEVICE_USB_AUDIO
            (writeAudioFile ioOk "1" DeviceType.DEVICE_USB_AUDIO ⟨some "x", .AUDIO_SINK_USBDAC⟩)
          = writeAudioFile ioOk "1" DeviceType.DEVICE_USB_AUDIO ⟨some "x", .AUDIO_SINK_USBDAC⟩)
      ∧ (clearAudioFile ioOk ⟨some "x", .AUDIO_SINK_USBDAC⟩).file = none
      ∧ ∀ io2 : IoEnv, clearAudioFile io2 (clearAudioFile ioOk ⟨some "x", .AUDIO_SINK_USBDAC⟩)
        = clearAudioFile ioOk ⟨some "x", .AUDIO_SINK_USBDAC⟩ :=
  ⟨(persistence_idempotent ioOk ⟨some "x", .AUDIO_SINK_USBDAC⟩ "1"
      DeviceType.DEVICE_USB_AUDIO).2.1 rfl,
    (persistence_idempotent ioOk ⟨some "x", .AUDIO_SINK_USBDAC⟩ "1"
      DeviceType.DEVICE_USB_AUDIO).2.2.2 rfl⟩

/-! ## C6: the peer address derived from the object path -/

/-- Claim C6. For a path made of a text without "dev_", then "dev_", then six
groups without underscore separated by underscores, `pathToMac` returns the
groups separated by colons (for groups of any length, in particular of two
characters); the sample path gives AA:BB:CC:DD:EE:FF. In general the result
is the text after the first occurrence of "dev_" with every underscore
replaced by a colon, it never contains an underscore, and it is empty when
the path does not contain "dev_". -/
theorem pathToMac_spec :
    (∀ p g1 g2 g3 g4 g5 g6 : String, ¬ Contains p "dev_" →
        (∀ g ∈ [g1, g2, g3, g4, g5, g6], '_' ∉ g.data) →
        pathToMac (p ++ "dev_" ++ g1 ++ "_" ++ g2 ++ "_" ++ g3 ++ "_" ++ g4 ++ "_"
            ++ g5 ++ "_" ++ g6)
          = g1 ++ ":" ++ g2 ++ ":" ++ g3 ++ ":" ++ g4 ++ ":" ++ g5 ++ ":" ++ g6)
      ∧ pathToMac ".../dev_AA_BB_CC_DD_EE_FF" = "AA:BB:CC:DD:EE:FF"
      ∧ (∀ pre rest : String,
          (∀ a b : String, pre ++ "dev_" ++ rest = a ++ "dev_" ++ b →
            pre.length ≤ a.length) →
          pathToMac (pre ++ "dev_" ++ rest)
            = String.mk (rest.data.map (fun c => if c = '_' then ':' else c)))
      ∧ (∀ path : String, '_' ∉ (pathToMac path).data)
      ∧ (∀ path : String, ¬ Contains path "dev_" → pathToMac path = "") := by
  refine ⟨?_, by decide, ?_, pathToMac_no_underscore, ?_⟩
  · intro p g1 g2 g3 g4 g5 g6 hp hg
    have e : p ++ "dev_" ++ g1 ++ "_" ++ g2 ++ "_" ++ g3 ++ "_" ++ g4 ++ "_"
          ++ g5 ++ "_" ++ g6
        = p ++ "dev_" ++ (g1 ++ "_" ++ g2 ++ "_" ++ g3 ++ "_" ++ g4 ++ "_"
          ++ g5 ++ "_" ++ g6) := by
      simp only [String.append_assoc]
    rw [e, pathToMac_append p _ hp]
    apply String.ext
    have hu : ("_" : String).data = ['_'] := rfl
    have hc : (":" : String).data = [':'] := rfl
    simp only [String.data_append, List.map_append, hu, hc,
      map_colon_of_not_mem _ (hg g1 (by simp)), map_colon_of_not_mem _ (hg g2 (by simp)),
      map_colon_of_not_mem _ (hg g3 (by simp)), map_colon_of_not_mem _ (hg g4 (by simp)),
      map_colon_of_not_mem _ (hg g5 (by simp)), map_colon_of_not_mem _ (hg g6 (by simp))]
    rfl
  · intro pre rest hmin
    have hfind := strFind_first "dev_" pre rest hmin
    rw [pathToMac_of_strFind _ _ hfind]
    have hdrop : (pre ++ "dev_" ++ rest).data.drop (pre.length + 4) = rest.data := by
      have e : (pre ++ "dev_" ++ rest).data
          = (pre.data ++ ['d', 'e', 'v', '_']) ++ rest.data := rfl
      have hl : (pre.data ++ ['d', 'e', 'v', '_']).length = pre.length + 4 := by
        rw [List.length_append]
        rfl
      rw [e]
      exact List.drop_left' hl
    rw [hdrop]
  · intro path hpath
    simp [pathToMac, (strFind_eq_none_iff path "dev_").mpr hpath]

/-- Witness for C6: the BlueZ object path of the peer AA:BB:CC:DD:EE:FF, a
path whose first "dev_" is followed by a second one, and the path of the
adapter, which has no "dev_". -/
theorem pathToMac_spec_witness :
    pathToMac ("/org/bluez/hci0/" ++ "dev_" ++ "AA" ++ "_" ++ "BB" ++ "_" ++ "CC" ++ "_"
        ++ "DD" ++ "_" ++ "EE" ++ "_" ++ "FF")
      = "AA" ++ ":" ++ "BB" ++ ":" ++ "CC" ++ ":" ++ "DD" ++ ":" ++ "EE" ++ ":" ++ "FF"
      ∧ pathToMac ("/hci0/" ++ "dev_" ++ "AA_dev_BB")
        = String.mk (("AA_dev_BB" : String).data.map (fun c => if c = '_' then ':' else c))
      ∧ pathToMac "/org/bluez/hci0" = "" :=
  ⟨pathToMac_spec.1 "/org/bluez/hci0/" "AA" "BB" "CC" "DD" "EE" "FF"
      ((strFind_eq_none_iff "/org/bluez/hci0/" "dev_").mp (by decide))
      (by
        intro g hg
        simp only [List.mem_cons, List.mem_singleton, List.not_mem_nil, or_false] at hg
        rcases hg with rfl | rfl | rfl | rfl | rfl | rfl <;> decide),
    pathToMac_spec.2.2.1 "/hci0/" "AA_dev_BB"
      (strFind_le_of_decomposition ("/hci0/" ++ "dev_" ++ "AA_dev_BB") "dev_" 6 (by decide)),
    pathToMac_spec.2.2.2.2 "/org/bluez/hci0"
      ((strFind_eq_none_iff "/org/bluez/hci0" "dev_").mp (by decide))⟩

/-! ## C7: the USB audio filter -/

/-- Claim C7. `isUsbAudioDevice` returns false, and the udev branch of the loop
then leaves the state as it is, whenever the subsystem is missing or is not
"sound", or the device node is missing or does not contain "controlC", or the
device path is missing or does not contain "usb". It returns true when the
subsystem is "sound", the device node contains "controlC" and the device path
contains "usb". -/
theorem isUsbAudioDevice_filter (dev : UdevDevice) :
    ((dev.subsystem ≠ some "sound"
          ∨ (∀ node, dev.devnode = some node → ¬ Contains node "controlC")
          ∨ (∀ path, dev.devpath = some path → ¬ Contains path "usb")) →
        isUsbAudioDevice dev = false
          ∧ ∀ (io : IoEnv) (w : World), udevBranch io (some dev) w = w)
      ∧ ((dev.subsystem = some "sound"
          ∧ (∃ node, dev.devnode = some node ∧ Contains node "controlC")
          ∧ (∃ path, dev.devpath = some path ∧ Contains path "usb")) →
        isUsbAudioDevice dev = true) := by
  refine ⟨?_, (isUsbAudioDevice_iff dev).mpr⟩
  intro h
  have hfalse : isUsbAudioDevice dev = false := by
    cases hd : isUsbAudioDevice dev with
    | false => rfl
    | true =>
      obtain ⟨hs, ⟨node, hnode, hcn⟩, ⟨path, hpath, hcp⟩⟩ := (isUsbAudioDevice_iff dev).mp hd
      rcases h with h | h | h
      · exact absurd hs h
      · exact absurd hcn (h node hnode)
      · exact absurd hcp (h path hpath)
  exact ⟨hfalse, fun io w => udevBranch_rejected io dev w hfalse⟩

/-- Witness for C7: the add event of a control node of an on-board sound card
(no "usb" in its device path) is filtered out, and the add event of the
control node of USB card 1 passes. -/
theorem isUsbAudioDevice_filter_witness :
    (isUsbAudioDevice ⟨some "add", some "sound", some "/dev/snd/controlC0",
          some "/devices/platform/soc/sound/card0/controlC0", []⟩ = false
        ∧ ∀ (io : IoEnv) (w : World),
          udevBranch io (some ⟨some "add", some "sound", some "/dev/snd/controlC0",
            some "/devices/platform/soc/sound/card0/controlC0", []⟩) w = w)
      ∧ isUsbAudioDevice (usbCard1 "add") = true :=
  ⟨(isUsbAudioDevice_filter ⟨some "add", some "sound", some "/dev/snd/controlC0",
      some "/devices/platform/soc/sound/card0/controlC0", []⟩).1
      (Or.inr (Or.inr (fun path hpath => by
        cases hpath
        exact (strFind_eq_none_iff _ "usb").mp (by decide)))),
    (isUsbAudioDevice_filter (usbCard1 "add")).2
      ⟨rfl, ⟨"/dev/snd/controlC1", rfl, "/dev/snd/", "1", by decide⟩,
        ⟨"/devices/platform/soc/usb1/1-1/1-1:1.0/sound/card1/controlC1", rfl,
          "/devices/platform/soc/", "1/1-1/1-1:1.0/sound/card1/controlC1", by decide⟩⟩⟩

/-! ## C8 and C9: the shape of the routing file -/

/-- Claim C8. A successful `writeAudioFile` for a Bluetooth identity leaves
exactly the bluealsa stanza of that identity in the routing file, whatever
the file held before: any two successful writes for the same identity leave
the same content. The identity occurs in the stanza in the two quoted device
positions of a fixed text. -/
theorem bluetooth_artifact_shape (io io2 : IoEnv) (w w2 : World) (id : String)
    (hio : io.openOk = true) (hio2 : io2.openOk = true) :
    (writeAudioFile io id DeviceType.DEVICE_BLUETOOTH w).file = some (bluealsaStanza id)
      ∧ (writeAudioFile io2 id DeviceType.DEVICE_BLUETOOTH w2).file
        = (writeAudioFile io id DeviceType.DEVICE_BLUETOOTH w).file
      ∧ bluealsaStanza id
        = "defaults.bluealsa.device \"" ++ id
          ++ "\"\n\npcm.!default \x7b\n    type plug\n    slave.pcm \x7b\n        type bluealsa\n        device \""
          ++ id
          ++ "\"\n        profile \"a2dp\"\n        delay 0\n    \x7d\n\x7d\nctl.!default \x7b\n    type bluealsa\n\x7d\n" := by
  rw [writeAudioFile_bluetooth io id w hio, writeAudioFile_bluetooth io2 id w2 hio2]
  refine ⟨rfl, rfl, ?_⟩
  simp [bluealsaStanza, String.join, String.append_assoc]

/-- Witness for C8: the stanza written for the peer AA:BB:CC:DD:EE:FF over an
existing USB stanza. -/
theorem bluetooth_artifact_shape_witness :
    (writeAudioFile ioOk "AA:BB:CC:DD:EE:FF" DeviceType.DEVICE_BLUETOOTH
        ⟨some (hwStanza "1"), .AUDIO_SINK_USBDAC⟩).file
      = some "defaults.bluealsa.device \"AA:BB:CC:DD:EE:FF\"\n\npcm.!default \x7b\n    type plug\n    slave.pcm \x7b\n        type bluealsa\n        device \"AA:BB:CC:DD:EE:FF\"\n        profile \"a2dp\"\n        delay 0\n    \x7d\n\x7d\nctl.!default \x7b\n    type bluealsa\n\x7d\n" :=
  (bluetooth_artifact_shape ioOk ioOk ⟨some (hwStanza "1"), .AUDIO_SINK_USBDAC⟩
    ⟨none, .AUDIO_SINK_DEFAULT⟩ "AA:BB:CC:DD:EE:FF" rfl rfl).1.trans
    (by simp [bluealsaStanza, String.join])

/-- Claim C9. A successful `writeAudioFile` for a USB card identity leaves
exactly the hw stanza of that card in the routing file, whatever the file
held before: any two successful writes for the same card leave the same
content. The playback block and the control block name the same card. -/
theorem usb_artifact_shape (io io2 : IoEnv) (w w2 : World) (c : String)
    (hio : io.openOk = true) (hio2 : io2.openOk = true) :
    (writeAudioFile io c DeviceType.DEVICE_USB_AUDIO w).file = some (hwStanza c)
      ∧ (writeAudioFile io2 c DeviceType.DEVICE_USB_AUDIO w2).file
        = (writeAudioFile io c DeviceType.DEVICE_USB_AUDIO w).file
      ∧ hwStanza c
        = "pcm.!default \x7b\n    type hw\n    card " ++ c
          ++ "\n\x7d\nctl.!default \x7b\n    type hw\n    card " ++ c ++ "\n\x7d\n" := by
  rw [writeAudioFile_usb io c w hio, writeAudioFile_usb io2 c w2 hio2]
  refine ⟨rfl, rfl, ?_⟩
  simp [hwStanza, String.join, String.append_assoc]

/-- Witness for C9: the stanza written for card 1 over an existing bluealsa
stanza. -/
theorem usb_artifact_shape_witness :
    (writeAudioFile ioOk "1" DeviceType.DEVICE_USB_AUDIO
        ⟨some (bluealsaStanza "AA:BB:CC:DD:EE:FF"), .AUDIO_SINK_BLUETOOTH⟩).file
      = some "pcm.!default \x7b\n    type hw\n    card 1\n\x7d\nctl.!default \x7b\n    type hw\n    card 1\n\x7d\n" :=
  (usb_artifact_shape ioOk ioOk ⟨some (bluealsaStanza "AA:BB:CC:DD:EE:FF"), .AUDIO_SINK_BLUETOOTH⟩
    ⟨none, .AUDIO_SINK_DEFAULT⟩ "1" rfl rfl).1.trans
    (by simp [hwStanza, String.join])

/-! ## C10: a disconnect of the active sink -/

/-- Claim C10. When the active sink is the device of an accepted disconnect
event (the A2DP peer that disconnects, or the USB card that is removed) and
the unlink succeeds, the handler leaves no routing file and the Default
category. This holds after every history that led to that active sink, so no
sink connected earlier is restored. -/
theorem disconnect_of_active_sink_falls_back (w0 : World)
    (history : List (IoEnv × Event)) (io : IoEnv) (e : Event)
    (hdis : e.isConnect = false) (hacc : e.Accepted)
    (hstate : runEvents history w0 = e.sink.toWorld)
    (hio : io.unlinkOk = true) :
    handleEvent io e e.sink.toWorld = ⟨none, .AUDIO_SINK_DEFAULT⟩
      ∧ runEvents (history ++ [(io, e)]) w0 = ⟨none, .AUDIO_SINK_DEFAULT⟩ := by
  refine ⟨handleEvent_disconnect io e _ hdis hacc hio, ?_⟩
  rw [runEvents_append, hstate]
  exact handleEvent_disconnect io e _ hdis hacc hio

/-- Witness for C10: card 1 is added, the peer AA:BB:CC:DD:EE:FF connects and
then disconnects; the USB sink is not restored. -/
theorem disconnect_of_active_sink_falls_back_witness :
    handleEvent ioOk (Event.btDisconnected a2dpBus peerPath)
        (Event.btDisconnected a2dpBus peerPath).sink.toWorld
        = ⟨none, .AUDIO_SINK_DEFAULT⟩
      ∧ runEvents ([(ioOk, Event.usbAdd (usbCard1 "add")),
          (ioOk, Event.btConnected a2dpBus peerPath)]
          ++ [(ioOk, Event.btDisconnected a2dpBus peerPath)]) ⟨none, .AUDIO_SINK_DEFAULT⟩
        = ⟨none, .AUDIO_SINK_DEFAULT⟩ :=
  disconnect_of_active_sink_falls_back ⟨none, .AUDIO_SINK_DEFAULT⟩
    [(ioOk, Event.usbAdd (usbCard1 "add")), (ioOk, Event.btConnected a2dpBus peerPath)]
    ioOk (Event.btDisconnected a2dpBus peerPath) rfl (isA2dpPeer_a2dpBus peerPath)
    (handleEvent_connect ioOk (Event.btConnected a2dpBus peerPath) _ rfl
      (isA2dpPeer_a2dpBus peerPath) rfl)
    rfl

/-! ## Helper lemmas for the later claims -/

theorem findList_controlC_append (p rest : List Char)
    (h : findList ['c', 'o', 'n', 't', 'r', 'o', 'l', 'C'] p = none) :
    findList ['c', 'o', 'n', 't', 'r', 'o', 'l', 'C']
        (p ++ ['c', 'o', 'n', 't', 'r', 'o', 'l', 'C'] ++ rest) = some p.length := by
  induction p with
  | nil => exact findList_of_isPrefix _ _ ⟨rest, by simp⟩
  | cons c p ih =>
    by_cases hp : List.isPrefixOf ['c', 'o', 'n', 't', 'r', 'o', 'l', 'C'] (c :: p) = true
    · rw [findList, if_pos hp] at h
      exact absurd h (by simp)
    · rw [findList, if_neg hp] at h
      have hrest : findList ['c', 'o', 'n', 't', 'r', 'o', 'l', 'C'] p = none := by
        cases hf : findList ['c', 'o', 'n', 't', 'r', 'o', 'l', 'C'] p with
        | none => rfl
        | some n => rw [hf] at h; exact absurd h (by simp)
      have hp2 : ¬ List.isPrefixOf ['c', 'o', 'n', 't', 'r', 'o', 'l', 'C']
          (c :: (p ++ ['c', 'o', 'n', 't', 'r', 'o', 'l', 'C'] ++ rest)) = true := by
        match p, hp with
        | [], _ => simp [List.isPrefixOf]
        | [c2], _ => simp [List.isPrefixOf]
        | [c2, c3], _ => simp [List.isPrefixOf]
        | [c2, c3, c4], _ => simp [List.isPrefixOf]
        | [c2, c3, c4, c5], _ => simp [List.isPrefixOf]
        | [c2, c3, c4, c5, c6], _ => simp [List.isPrefixOf]
        | [c2, c3, c4, c5, c6, c7], _ => simp [List.isPrefixOf]
        | c2 :: c3 :: c4 :: c5 :: c6 :: c7 :: c8 :: p2, hp => simpa [List.isPrefixOf] using hp
      have e : (c :: p) ++ ['c', 'o', 'n', 't', 'r', 'o', 'l', 'C'] ++ rest
          = c :: (p ++ ['c', 'o', 'n', 't', 'r', 'o', 'l', 'C'] ++ rest) := rfl
      rw [e, findList, if_neg hp2, ih hrest]
      rfl

theorem strFind_controlC_append (p rest : String) (hp : ¬ Contains p "controlC") :
    strFind (p ++ "controlC" ++ rest) "controlC" = some p.length :=
  findList_controlC_append p.data rest.data ((strFind_eq_none_iff p "controlC").mpr hp)

theorem substrFrom_append (p pat rest : String) (n : Nat) (hn : n = pat.length) :
    substrFrom (p ++ pat ++ rest) (p.length + n) = rest := by
  apply String.ext
  have e : (p ++ pat ++ rest).data = (p.data ++ pat.data) ++ rest.data := rfl
  have hl : (p.data ++ pat.data).length = p.length + n := by
    rw [List.length_append, hn]
    rfl
  show List.drop (p.length + n) (p ++ pat ++ rest).data = rest.data
  rw [e]
  exact List.drop_left' hl

theorem hasUUIDLoop_iff (uuid : String) (elems : List DBusValue) :
    hasUUIDLoop uuid elems = true
      ↔ DBusValue.str uuid ∈ elems.takeWhile DBusValue.isStr := by
  induction elems with
  | nil => simp [hasUUIDLoop]
  | cons e rest ih =>
    cases e with
    | str val =>
      by_cases h : uuid = val
      · simp [hasUUIDLoop, h, DBusValue.isStr, List.takeWhile]
      · simp [hasUUIDLoop, h, DBusValue.isStr, List.takeWhile, ih]
    | bool b => simp [hasUUIDLoop, DBusValue.isStr, List.takeWhile]
    | array l => simp [hasUUIDLoop, DBusValue.isStr, List.takeWhile]
    | dictEntry k v => simp [hasUUIDLoop, DBusValue.isStr, List.takeWhile]
    | variant v => simp [hasUUIDLoop, DBusValue.isStr, List.takeWhile]
    | other => simp [hasUUIDLoop, DBusValue.isStr, List.takeWhile]

theorem mem_takeWhile_isStr_iff (uuid : String) (elems : List DBusValue)
    (h : Homogeneous elems) :
    DBusValue.str uuid ∈ elems.takeWhile DBusValue.isStr ↔ DBusValue.str uuid ∈ elems := by
  rcases h with hall | hnone
  · have : elems.takeWhile DBusValue.isStr = elems := by
      induction elems with
      | nil => rfl
      | cons e rest ih =>
        have he : e.isStr = true := hall e (List.mem_cons_self _ _)
        have hrest : ∀ x ∈ rest, x.isStr = true :=
          fun x hx => hall x (List.mem_cons_of_mem _ hx)
        simp [List.takeWhile, he, ih hrest]
    rw [this]
  · constructor
    · intro hmem
      exact (List.takeWhile_sublist _).subset hmem
    · intro hmem
      have := hnone _ hmem
      simp [DBusValue.isStr] at this

theorem hasUUID_iff (conn : DBusConnection) (path uuid : String) :
    hasUUID conn path uuid = true
      ↔ ∃ elems, conn path = some (.array elems)
          ∧ DBusValue.str uuid ∈ elems.takeWhile DBusValue.isStr := by
  unfold hasUUID
  cases hreply : conn path with
  | none => simp
  | some v =>
    cases v with
    | array l => simp [hasUUIDLoop_iff]
    | str val => simp
    | bool b => simp
    | dictEntry k v => simp
    | variant v => simp
    | other => simp

theorem hasUUID_of_not_mem (conn : DBusConnection) (path : String)
    (h : conn path = none ∨ ∃ uuids : List String,
      conn path = some (.array (uuids.map DBusValue.str)) ∧ UUID_A2DP ∉ uuids) :
    hasUUID conn path UUID_A2DP = false := by
  rcases h with h | ⟨uuids, hreply, hmem⟩
  · simp [hasUUID, h]
  · simp [hasUUID, hreply, hasUUIDLoop_map_str, hmem]

/-! ## C11: classification of hotplug events -/

/-- Claim C11. For a device that passes `isUsbAudioDevice` and has a non-empty
card identity, the udev branch of the loop handles the action "add" as a
connect (`handleUsbAudioConnected`, which with a successful write makes the
card the active sink), the action "remove" as a disconnect
(`handleUsbAudioDisconnected`, which with a successful unlink gives no file
and Default), and leaves the state as it is for every other action and for a
missing action. -/
theorem usb_event_classification (io : IoEnv) (dev : UdevDevice) (w : World)
    (hdev : isUsbAudioDevice dev = true) (hcard : getUsbAudioCardNumber dev ≠ "") :
    (dev.action = some "add" →
        udevBranch io (some dev) w = handleUsbAudioConnected io dev w
          ∧ (io.openOk = true → udevBranch io (some dev) w
              = (SinkState.UsbAudio (getUsbAudioCardNumber dev)).toWorld))
      ∧ (dev.action = some "remove" →
        udevBranch io (some dev) w = handleUsbAudioDisconnected io dev w
          ∧ (io.unlinkOk = true → udevBranch io (some dev) w
              = ⟨none, .AUDIO_SINK_DEFAULT⟩))
      ∧ (dev.action ≠ some "add" → dev.action ≠ some "remove" →
        udevBranch io (some dev) w = w) := by
  refine ⟨?_, ?_, ?_⟩
  · intro hact
    refine ⟨udevBranch_add io dev w hdev hact, fun hio => ?_⟩
    rw [udevBranch_add io dev w hdev hact,
      handleUsbAudioConnected_accepted io dev w hcard hio]
    rfl
  · intro hact
    refine ⟨udevBranch_remove io dev w hdev hact, fun hio => ?_⟩
    rw [udevBranch_remove io dev w hdev hact,
      handleUsbAudioDisconnected_accepted io dev w hcard, clearAudioFile_ok io w hio]
  · intro hadd hremove
    have hs := isUsbAudioDevice_subsystem dev hdev
    cases hact : dev.action with
    | none => simp [udevBranch, hs, hdev, hact]
    | some a =>
      have h1 : a ≠ "add" := fun h => hadd (by rw [hact, h])
      have h2 : a ≠ "remove" := fun h => hremove (by rw [hact, h])
      simp [udevBranch, hs, hdev, hact, h1, h2]

/-- Witness for C11: the control node of USB card 1 with the actions "add",
"remove" and "change", on a state with a Bluetooth sink. -/
theorem usb_event_classification_witness :
    udevBranch ioOk (some (usbCard1 "add")) (SinkState.Bluetooth "AA:BB:CC:DD:EE:FF").toWorld
        = (SinkState.UsbAudio (getUsbAudioCardNumber (usbCard1 "add"))).toWorld
      ∧ udevBranch ioOk (some (usbCard1 "remove"))
          (SinkState.Bluetooth "AA:BB:CC:DD:EE:FF").toWorld
        = ⟨none, .AUDIO_SINK_DEFAULT⟩
      ∧ udevBranch ioOk (some (usbCard1 "change"))
          (SinkState.Bluetooth "AA:BB:CC:DD:EE:FF").toWorld
        = (SinkState.Bluetooth "AA:BB:CC:DD:EE:FF").toWorld :=
  have hcard : ∀ a, getUsbAudioCardNumber (usbCard1 a) ≠ "" := fun a => by
    rw [getUsbAudioCardNumber_usbCard1]
    decide
  ⟨((usb_event_classification ioOk (usbCard1 "add") _
      (isUsbAudioDevice_usbCard1 "add") (hcard "add")).1 rfl).2 rfl,
    ((usb_event_classification ioOk (usbCard1 "remove") _
      (isUsbAudioDevice_usbCard1 "remove") (hcard "remove")).2.1 rfl).2 rfl,
    (usb_event_classification ioOk (usbCard1 "change") _
      (isUsbAudioDevice_usbCard1 "change") (hcard "change")).2.2
      (by decide) (by decide)⟩

/-! ## C12: the card identity of a hotplug device -/

/-- Claim C12. When the device node name is a text without "controlC",
followed by "controlC" and a text `n`, `getUsbAudioCardNumber` returns exactly
`n` (for every `n`, in particular a decimal number); the node
"/dev/snd/controlC1" gives "1". When the node name does not contain
"controlC", the result is the value of the SOUND_CARD property if the device
has one and the empty string otherwise. -/
theorem getUsbAudioCardNumber_spec :
    (∀ (dev : UdevDevice) (pre n : String),
        dev.devnode = some (pre ++ "controlC" ++ n) → ¬ Contains pre "controlC" →
        getUsbAudioCardNumber dev = n)
      ∧ getUsbAudioCardNumber (usbCard1 "add") = "1"
      ∧ (∀ (dev : UdevDevice) (node : String),
          dev.devnode = some node → ¬ Contains node "controlC" →
          (∀ card, udev_device_get_property_value dev "SOUND_CARD" = some card →
              getUsbAudioCardNumber dev = card)
            ∧ (udev_device_get_property_value dev "SOUND_CARD" = none →
              getUsbAudioCardNumber dev = "")) := by
  refine ⟨?_, getUsbAudioCardNumber_usbCard1 "add", ?_⟩
  · intro dev pre n hnode hpre
    have hfind := strFind_controlC_append pre n hpre
    simp only [getUsbAudioCardNumber, hnode, hfind]
    exact substrFrom_append pre "controlC" n 8 rfl
  · intro dev node hnode hnot
    have hfind := (strFind_eq_none_iff node "controlC").mpr hnot
    refine ⟨fun card hcard => ?_, fun hnone => ?_⟩
    · simp only [getUsbAudioCardNumber, hnode, hfind, hcard]
    · simp only [getUsbAudioCardNumber, hnode, hfind, hnone]

/-- Witness for C12: the node "/dev/snd/controlC12", a PCM node of a device
with the SOUND_CARD property, and a PCM node of a device without it. -/
theorem getUsbAudioCardNumber_spec_witness :
    getUsbAudioCardNumber ⟨some "add", some "sound",
        some ("/dev/snd/" ++ "controlC" ++ "12"), none, []⟩ = "12"
      ∧ getUsbAudioCardNumber ⟨some "add", some "sound", some "/dev/snd/pcmC2D0p", none,
          [("SOUND_CARD", "2")]⟩ = "2"
      ∧ getUsbAudioCardNumber ⟨some "add", some "sound", some "/dev/snd/pcmC2D0p", none,
          []⟩ = "" :=
  ⟨getUsbAudioCardNumber_spec.1 _ "/dev/snd/" "12" rfl
      ((strFind_eq_none_iff "/dev/snd/" "controlC").mp (by decide)),
    (getUsbAudioCardNumber_spec.2.2 ⟨some "add", some "sound", some "/dev/snd/pcmC2D0p",
        none, [("SOUND_CARD", "2")]⟩ "/dev/snd/pcmC2D0p" rfl
      ((strFind_eq_none_iff "/dev/snd/pcmC2D0p" "controlC").mp (by decide))).1 "2"
      (by decide),
    (getUsbAudioCardNumber_spec.2.2 ⟨some "add", some "sound", some "/dev/snd/pcmC2D0p",
        none, []⟩ "/dev/snd/pcmC2D0p" rfl
      ((strFind_eq_none_iff "/dev/snd/pcmC2D0p" "controlC").mp (by decide))).2
      (by decide)⟩

/-! ## C13: the audio-relevance test -/

/-- Claim C13. `hasUUID` returns true exactly when the query is answered, the
value is an array, and `uuid` equals one of the strings the loop reads, which
are the leading strings of the array. A D-Bus array has one element type, and
for such an array this says: `uuid` equals one of the string elements of the
array. `hasUUID` returns false when the query fails and when the value is not
an array. -/
theorem hasUUID_spec (conn : DBusConnection) (path uuid : String) :
    (hasUUID conn path uuid = true
        ↔ ∃ elems, conn path = some (.array elems)
            ∧ DBusValue.str uuid ∈ elems.takeWhile DBusValue.isStr)
      ∧ ((∀ elems, conn path = some (.array elems) → Homogeneous elems) →
          (hasUUID conn path uuid = true
            ↔ ∃ elems, conn path = some (.array elems) ∧ DBusValue.str uuid ∈ elems))
      ∧ (conn path = none → hasUUID conn path uuid = false)
      ∧ ((∀ elems, conn path ≠ some (.array elems)) → hasUUID conn path uuid = false) := by
  refine ⟨hasUUID_iff conn path uuid, ?_, ?_, ?_⟩
  · intro hhom
    rw [hasUUID_iff]
    constructor
    · rintro ⟨elems, hreply, hmem⟩
      exact ⟨elems, hreply, (mem_takeWhile_isStr_iff uuid elems (hhom elems hreply)).mp hmem⟩
    · rintro ⟨elems, hreply, hmem⟩
      exact ⟨elems, hreply, (mem_takeWhile_isStr_iff uuid elems (hhom elems hreply)).mpr hmem⟩
  · intro hnone
    simp [hasUUID, hnone]
  · intro hnot
    cases h : hasUUID conn path uuid with
    | false => rfl
    | true =>
      obtain ⟨elems, hreply, _⟩ := (hasUUID_iff conn path uuid).mp h
      exact absurd hreply (hnot elems)

/-- Witness for C13: a peer that lists the serial port profile and A2DP has
the A2DP identifier; a bus that does not answer and a bus that answers with a
string give false. -/
theorem hasUUID_spec_witness :
    (hasUUID (fun _ => some (.array [.str "00001101-0000-1000-8000-00805f9b34fb",
          .str UUID_A2DP])) peerPath UUID_A2DP = true
        ↔ ∃ elems, (some (DBusValue.array [.str "00001101-0000-1000-8000-00805f9b34fb",
              .str UUID_A2DP]) : Option DBusValue) = some (.array elems)
            ∧ DBusValue.str UUID_A2DP ∈ elems)
      ∧ hasUUID (fun _ => none) peerPath UUID_A2DP = false
      ∧ hasUUID (fun _ => some (.str UUID_A2DP)) peerPath UUID_A2DP = false :=
  ⟨(hasUUID_spec (fun _ => some (.array [.str "00001101-0000-1000-8000-00805f9b34fb",
        .str UUID_A2DP])) peerPath UUID_A2DP).2.1
      (fun elems h => by
        cases h
        exact Or.inl (fun e he => by
          simp only [List.mem_cons, List.mem_singleton, List.not_mem_nil, or_false] at he
          rcases he with rfl | rfl <;> rfl)),
    (hasUUID_spec (fun _ => none) peerPath UUID_A2DP).2.2.1 rfl,
    (hasUUID_spec (fun _ => some (.str UUID_A2DP)) peerPath UUID_A2DP).2.2.2
      (fun elems h => by cases h)⟩

/-! ## C14: peers without the audio profile -/

/-- Claim C14. When the profile query for the peer fails, or the peer answers
with a profile list that does not contain the A2DP identifier, both
`handleDeviceConnected` and `handleDeviceDisconnected` leave the routing file
and the notified category as they are. -/
theorem non_audio_peer_ignored (io : IoEnv) (conn : DBusConnection) (path : String)
    (w : World)
    (h : conn path = none ∨ ∃ uuids : List String,
      conn path = some (.array (uuids.map DBusValue.str)) ∧ UUID_A2DP ∉ uuids) :
    handleDeviceConnected io conn path w = w
      ∧ handleDeviceDisconnected io conn path w = w := by
  have hno := hasUUID_of_not_mem conn path h
  simp [handleDeviceConnected, handleDeviceDisconnected, hno]

/-- Witness for C14: a keyboard that lists only the HID profile connects and
disconnects while USB card 1 is the active sink, and a peer whose query fails
does the same. -/
theorem non_audio_peer_ignored_witness :
    (handleDeviceConnected ioOk
          (fun _ => some (.array (["00001124-0000-1000-8000-00805f9b34fb"].map DBusValue.str)))
          peerPath (SinkState.UsbAudio "1").toWorld = (SinkState.UsbAudio "1").toWorld
        ∧ handleDeviceDisconnected ioOk
          (fun _ => some (.array (["00001124-0000-1000-8000-00805f9b34fb"].map DBusValue.str)))
          peerPath (SinkState.UsbAudio "1").toWorld = (SinkState.UsbAudio "1").toWorld)
      ∧ (handleDeviceConnected ioOk (fun _ => none) peerPath (SinkState.UsbAudio "1").toWorld
          = (SinkState.UsbAudio "1").toWorld
        ∧ handleDeviceDisconnected ioOk (fun _ => none) peerPath
          (SinkState.UsbAudio "1").toWorld = (SinkState.UsbAudio "1").toWorld) :=
  ⟨non_audio_peer_ignored ioOk _ peerPath _
      (Or.inr ⟨["00001124-0000-1000-8000-00805f9b34fb"], rfl, by decide⟩),
    non_audio_peer_ignored ioOk (fun _ => none) peerPath _ (Or.inl rfl)⟩

/-! ## Helper lemmas for the D-Bus branch -/

theorem changedEntry_no_connected {σ : Type} (f g : σ → σ) (key value : DBusValue)
    (s : σ) (h : key ≠ .str "Connected") : changedEntry f g key value s = s := by
  unfold changedEntry
  split
  · rename_i k connected
    have hk : k ≠ "Connected" := fun hk => h (by rw [hk])
    simp [hk]
  · rfl

theorem changedLoop_no_connected {σ : Type} (f g : σ → σ) (changed : List DBusValue)
    (s : σ) (h : ∀ v, DBusValue.dictEntry (.str "Connected") v ∉ changed) :
    changedLoop f g changed s = s := by
  induction changed generalizing s with
  | nil => rfl
  | cons e rest ih =>
    have hrest : ∀ v, DBusValue.dictEntry (.str "Connected") v ∉ rest :=
      fun v hv => h v (List.mem_cons_of_mem _ hv)
    cases e with
    | dictEntry key value =>
      have hkey : key ≠ .str "Connected" := by
        intro hk
        exact h value (by rw [hk]; exact List.mem_cons_self _ _)
      rw [changedLoop, changedEntry_no_connected f g key value s hkey, ih _ hrest]
    | str v => rfl
    | bool b => rfl
    | array l => rfl
    | variant v => rfl
    | other => rfl

theorem changedEntry_counted (f g : World → World) (key value : DBusValue)
    (w : World) (n : Nat) :
    ∃ m, changedEntry (fun s : World × Nat => (f s.1, s.2 + 1))
        (fun s : World × Nat => (g s.1, s.2 + 1)) key value (w, n)
        = (changedEntry f g key value w, m)
      ∧ n ≤ m
      ∧ m ≤ n + (if (DBusValue.dictEntry key value).isConnectedEntry then 1 else 0) := by
  unfold changedEntry
  split
  · rename_i k connected
    by_cases hk : k = "Connected"
    · cases connected
      · exact ⟨n + 1, by simp [hk], by omega, by simp [hk, DBusValue.isConnectedEntry]⟩
      · exact ⟨n + 1, by simp [hk], by omega, by simp [hk, DBusValue.isConnectedEntry]⟩
    · exact ⟨n, by simp [hk], by omega, by omega⟩
  · exact ⟨n, rfl, by omega, by omega⟩

theorem changedLoop_counted (f g : World → World) (changed : List DBusValue)
    (w : World) (n : Nat) :
    ∃ m, changedLoop (fun s : World × Nat => (f s.1, s.2 + 1))
        (fun s : World × Nat => (g s.1, s.2 + 1)) changed (w, n)
        = (changedLoop f g changed w, m)
      ∧ n ≤ m
      ∧ m ≤ n + (changed.filter DBusValue.isConnectedEntry).length := by
  induction changed generalizing w n with
  | nil => exact ⟨n, rfl, Nat.le_refl _, Nat.le_add_right _ _⟩
  | cons e rest ih =>
    cases e with
    | dictEntry key value =>
      obtain ⟨m1, h1, hle1, hge1⟩ := changedEntry_counted f g key value w n
      obtain ⟨m2, h2, hle2, hge2⟩ := ih (changedEntry f g key value w) m1
      refine ⟨m2, ?_, by omega, ?_⟩
      · rw [changedLoop, h1, h2]
        rfl
      · by_cases hc : (DBusValue.dictEntry key value).isConnectedEntry = true
        · simp [List.filter, hc] at hge1 ⊢
          omega
        · simp [List.filter, hc] at hge1 ⊢
          omega
    | str v => exact ⟨n, rfl, Nat.le_refl _, Nat.le_add_right _ _⟩
    | bool b => exact ⟨n, rfl, Nat.le_refl _, Nat.le_add_right _ _⟩
    | array l => exact ⟨n, rfl, Nat.le_refl _, Nat.le_add_right _ _⟩
    | variant v => exact ⟨n, rfl, Nat.le_refl _, Nat.le_add_right _ _⟩
    | other => exact ⟨n, rfl, Nat.le_refl _, Nat.le_add_right _ _⟩


theorem dbusDispatch_irrelevant {σ : Type} (f g : String → σ → σ) (msg : DBusMessage)
    (s : σ)
    (h : msg.isPropertiesChanged = false
      ∨ (∀ path, msg.path = some path → ¬ Contains path "dev_")
      ∨ msg.args.head? ≠ some (.str "org.bluez.Device1")
      ∨ (∀ changed, msg.args.tail.head? = some (.array changed) →
          ∀ v, DBusValue.dictEntry (.str "Connected") v ∉ changed)) :
    dbusDispatch f g (some msg) s = s := by
  unfold dbusDispatch
  simp only
  split
  · split
    · rfl
    · split
      · split
        · split
          · split
            · rename_i hsig _ path hpath hfind _ iface hiface _ changed tail hargs
              rcases h with h | h | h | h
              · rw [h] at hsig
                exact absurd hsig (by simp)
              · exact absurd ((strFind_isSome_iff path "dev_").mp hfind) (h path hpath)
              · exact absurd (by rw [hargs, hiface]; rfl) h
              · exact changedLoop_no_connected _ _ changed s
                  (h changed (by rw [hargs]; rfl))
            · rfl
          · rfl
        · rfl
      · rfl
  · rfl

theorem dbusBranchCounted_eq (io : IoEnv) (conn : DBusConnection)
    (popped : Option DBusMessage) (w : World) (n : Nat) :
    ∃ m, dbusBranchCounted io conn popped (w, n) = (dbusBranch io conn popped w, m)
      ∧ n ≤ m ∧ m ≤ n + connectedEntries popped := by
  unfold dbusBranchCounted dbusBranch dbusDispatch connectedEntries
  split
  · exact ⟨n, rfl, Nat.le_refl _, Nat.le_add_right _ _⟩
  · simp only
    split
    · split
      · exact ⟨n, rfl, Nat.le_refl _, Nat.le_add_right _ _⟩
      · split
        · split
          · split
            · split
              · rename_i msg _ _ path _ _ _ _ _ _ changed tail hargs
                obtain ⟨m, hm, hle, hge⟩ := changedLoop_counted
                  (handleDeviceConnected io conn path) (handleDeviceDisconnected io conn path)
                  changed w n
                refine ⟨m, hm, hle, ?_⟩
                rw [hargs]
                exact hge
              · exact ⟨n, rfl, Nat.le_refl _, Nat.le_add_right _ _⟩
            · exact ⟨n, rfl, Nat.le_refl _, Nat.le_add_right _ _⟩
          · exact ⟨n, rfl, Nat.le_refl _, Nat.le_add_right _ _⟩
        · exact ⟨n, rfl, Nat.le_refl _, Nat.le_add_right _ _⟩
    · exact ⟨n, rfl, Nat.le_refl _, Nat.le_add_right _ _⟩

theorem writeAudioFile_log_ne_failed (io : IoEnv) (id : String) (kind : DeviceType)
    (h : io.openOk = true) :
    writeAudioFile_log io id kind ≠ ["Failed to write audio config file"] := by
  intro hlog
  have hF : ("Failed to write audio config file" : String).data.head? = some 'F' := rfl
  cases kind with
  | DEVICE_BLUETOOTH =>
    simp only [writeAudioFile_log, h, Bool.not_true, Bool.false_eq_true, if_false,
      List.cons.injEq, and_true] at hlog
    have hU : ("Updated .asoundrc with Bluetooth device: " ++ id).data.head? = some 'U' :=
      rfl
    rw [hlog, hF] at hU
    exact absurd hU (by decide)
  | DEVICE_USB_AUDIO =>
    simp only [writeAudioFile_log, h, Bool.not_true, Bool.false_eq_true, if_false,
      List.cons.injEq, and_true] at hlog
    have hU : ("Updated .asoundrc with USB audio device: " ++ id).data.head? = some 'U' :=
      rfl
    rw [hlog, hF] at hU
    exact absurd hU (by decide)

/-! ## C15: bus messages the daemon ignores -/

/-- Claim C15. A popped bus message that is not a PropertiesChanged signal, or
whose object path is missing or does not contain "dev_", or whose first
argument is not the string "org.bluez.Device1", or whose changed-properties
dictionary has no entry with the key "Connected", leaves the routing file and
the notified category as they are, and no handler is called for it, so no
profile query is sent. -/
theorem irrelevant_bus_message_ignored (io : IoEnv) (conn : DBusConnection)
    (msg : DBusMessage) (w : World) (n : Nat)
    (h : msg.isPropertiesChanged = false
      ∨ (∀ path, msg.path = some path → ¬ Contains path "dev_")
      ∨ msg.args.head? ≠ some (.str "org.bluez.Device1")
      ∨ (∀ changed, msg.args.tail.head? = some (.array changed) →
          ∀ v, DBusValue.dictEntry (.str "Connected") v ∉ changed)) :
    dbusBranch io conn (some msg) w = w
      ∧ dbusBranchCounted io conn (some msg) (w, n) = (w, n) :=
  ⟨dbusDispatch_irrelevant _ _ msg w h, dbusDispatch_irrelevant _ _ msg (w, n) h⟩

/-- Witness for C15, with USB card 1 active and an A2DP peer on the bus: a
message that is not a PropertiesChanged signal, a signal on the adapter path,
a signal of another interface, and a signal that reports only RSSI. -/
theorem irrelevant_bus_message_ignored_witness :
    dbusBranchCounted ioOk a2dpBus
        (some ⟨false, some peerPath, [.str "org.bluez.Device1",
          .array [.dictEntry (.str "Connected") (.variant (.bool true))]]⟩)
        ((SinkState.UsbAudio "1").toWorld, 0) = ((SinkState.UsbAudio "1").toWorld, 0)
      ∧ dbusBranchCounted ioOk a2dpBus
        (some ⟨true, some "/org/bluez/hci0", [.str "org.bluez.Device1",
          .array [.dictEntry (.str "Connected") (.variant (.bool true))]]⟩)
        ((SinkState.UsbAudio "1").toWorld, 0) = ((SinkState.UsbAudio "1").toWorld, 0)
      ∧ dbusBranchCounted ioOk a2dpBus
        (some ⟨true, some peerPath, [.str "org.bluez.MediaControl1",
          .array [.dictEntry (.str "Connected") (.variant (.bool true))]]⟩)
        ((SinkState.UsbAudio "1").toWorld, 0) = ((SinkState.UsbAudio "1").toWorld, 0)
      ∧ dbusBranchCounted ioOk a2dpBus
        (some ⟨true, some peerPath, [.str "org.bluez.Device1",
          .array [.dictEntry (.str "RSSI") (.variant .other)]]⟩)
        ((SinkState.UsbAudio "1").toWorld, 0) = ((SinkState.UsbAudio "1").toWorld, 0) :=
  ⟨(irrelevant_bus_message_ignored ioOk a2dpBus _ _ 0 (Or.inl rfl)).2,
    (irrelevant_bus_message_ignored ioOk a2dpBus _ _ 0
      (Or.inr (Or.inl (fun path hpath => by
        cases hpath
        exact (strFind_eq_none_iff "/org/bluez/hci0" "dev_").mp (by decide))))).2,
    (irrelevant_bus_message_ignored ioOk a2dpBus _ _ 0
      (Or.inr (Or.inr (Or.inl (by
        intro hhead
        have := Option.some.inj hhead
        injection this with hstr
        exact absurd hstr (by decide)))))).2,
    (irrelevant_bus_message_ignored ioOk a2dpBus _ _ 0
      (Or.inr (Or.inr (Or.inr (fun changed hchanged v hmem => by
        have hc := Option.some.inj hchanged
        injection hc with hc
        rw [← hc] at hmem
        simp only [List.mem_singleton] at hmem
        injection hmem with hkey _
        injection hkey with hkey
        exact absurd hkey (by decide)))))).2⟩

/-! ## C16: a failed write does not block arbitration -/

/-- Claim C16. When the routing file cannot be opened for writing,
`writeAudioFile` leaves it exactly as it was, and the connect handler of an
accepted event still notifies the category of the event: Bluetooth for an A2DP
peer, USB-DAC for a USB card. Whatever the outcome of the open, the handler
consists of one call of `writeAudioFile` followed by the notification; the
write is not attempted again. -/
theorem persistence_failure_keeps_arbitration (io : IoEnv) (conn : DBusConnection)
    (path : String) (dev : UdevDevice) (w : World) (hio : io.openOk = false) :
    (∀ (id : String) (kind : DeviceType), writeAudioFile io id kind w = w)
      ∧ (IsA2dpPeer conn path →
          handleDeviceConnected io conn path w = ⟨w.file, .AUDIO_SINK_BLUETOOTH⟩)
      ∧ (getUsbAudioCardNumber dev ≠ "" →
          handleUsbAudioConnected io dev w = ⟨w.file, .AUDIO_SINK_USBDAC⟩)
      ∧ (∀ io2 : IoEnv, IsA2dpPeer conn path →
          handleDeviceConnected io2 conn path w
            = SetAudioSink .AUDIO_SINK_BLUETOOTH
                (writeAudioFile io2 (pathToMac path) DeviceType.DEVICE_BLUETOOTH w))
      ∧ (∀ io2 : IoEnv, getUsbAudioCardNumber dev ≠ "" →
          handleUsbAudioConnected io2 dev w
            = SetAudioSink .AUDIO_SINK_USBDAC
                (writeAudioFile io2 (getUsbAudioCardNumber dev) DeviceType.DEVICE_USB_AUDIO w)) := by
  have hwrite : ∀ (id : String) (kind : DeviceType), writeAudioFile io id kind w = w := by
    intro id kind
    simp [writeAudioFile, hio]
  have hne : getUsbAudioCardNumber dev ≠ "" → (getUsbAudioCardNumber dev).isEmpty = false := by
    intro hcard
    cases h : (getUsbAudioCardNumber dev).isEmpty
    · rfl
    · exact absurd ((String.isEmpty_iff _).mp h) hcard
  refine ⟨hwrite, ?_, ?_, ?_, ?_⟩
  · intro hpeer
    simp [handleDeviceConnected, hasUUID_of_isA2dpPeer conn path hpeer, hwrite, SetAudioSink]
  · intro hcard
    simp [handleUsbAudioConnected, hne hcard, hwrite, SetAudioSink]
  · intro io2 hpeer
    simp [handleDeviceConnected, hasUUID_of_isA2dpPeer conn path hpeer]
  · intro io2 hcard
    simp [handleUsbAudioConnected, hne hcard]

/-- Witness for C16: with a file that cannot be opened, the connect of the
peer AA:BB:CC:DD:EE:FF and the add event of USB card 1 leave the stale file
"old" and notify their category. -/
theorem persistence_failure_keeps_arbitration_witness :
    handleDeviceConnected ⟨false, true⟩ a2dpBus peerPath ⟨some "old", .AUDIO_SINK_DEFAULT⟩
        = ⟨some "old", .AUDIO_SINK_BLUETOOTH⟩
      ∧ handleUsbAudioConnected ⟨false, true⟩ (usbCard1 "add") ⟨some "old", .AUDIO_SINK_DEFAULT⟩
        = ⟨some "old", .AUDIO_SINK_USBDAC⟩ :=
  ⟨(persistence_failure_keeps_arbitration ⟨false, true⟩ a2dpBus peerPath (usbCard1 "add")
      ⟨some "old", .AUDIO_SINK_DEFAULT⟩ rfl).2.1 (isA2dpPeer_a2dpBus peerPath),
    (persistence_failure_keeps_arbitration ⟨false, true⟩ a2dpBus peerPath (usbCard1 "add")
      ⟨some "old", .AUDIO_SINK_DEFAULT⟩ rfl).2.2.1
      (by rw [getUsbAudioCardNumber_usbCard1]; decide)⟩

/-! ## C17: what the persistence operations report -/

/-- Counterexample to claim C17. A write for card 1 whose open fails leaves no
file, and the same write with a successful open leaves the hw stanza, but the
two calls hand the same value back to their caller: no test on the returned
value tells the failure from the success. -/
theorem persistence_returns_no_outcome :
    (writeAudioFile ⟨false, true⟩ "1" DeviceType.DEVICE_USB_AUDIO
        ⟨none, .AUDIO_SINK_DEFAULT⟩).file = none
      ∧ (writeAudioFile ioOk "1" DeviceType.DEVICE_USB_AUDIO
        ⟨none, .AUDIO_SINK_DEFAULT⟩).file = some (hwStanza "1")
      ∧ ¬ ∃ failed : Unit → Bool,
          failed (writeAudioFile_return ⟨false, true⟩ "1" DeviceType.DEVICE_USB_AUDIO
            ⟨none, .AUDIO_SINK_DEFAULT⟩) = true
          ∧ failed (writeAudioFile_return ioOk "1" DeviceType.DEVICE_USB_AUDIO
            ⟨none, .AUDIO_SINK_DEFAULT⟩) = false := by
  refine ⟨rfl, ?_, ?_⟩
  · rw [writeAudioFile_usb ioOk "1" _ rfl]
  · rintro ⟨failed, h1, h2⟩
    have h3 : failed () = true := h1
    have h4 : failed () = false := h2
    rw [h3] at h4
    exact absurd h4 (by decide)

/-- Claim C17 as amended. `writeAudioFile` and `clearAudioFile` hand nothing
back to their caller: every call returns the same value, whatever its outcome.
The outcome is told to the log only. A failed open logs "Failed to write audio
config file" and leaves the file as it was; a successful open logs another
message and leaves a file. A successful unlink logs "Removed audio config" and
leaves no file; otherwise `clearAudioFile` logs "Audio config file not present
or failed to remove" and leaves the file as it was. -/
theorem persistence_outcome_only_logged (io io2 : IoEnv) (id : String)
    (kind : DeviceType) (w w2 : World) :
    writeAudioFile_return io id kind w = writeAudioFile_return io2 id kind w2
      ∧ clearAudioFile_return io w = clearAudioFile_return io2 w2
      ∧ (io.openOk = false →
          writeAudioFile_log io id kind = ["Failed to write audio config file"]
            ∧ writeAudioFile io id kind w = w)
      ∧ (io.openOk = true →
          writeAudioFile_log io id kind ≠ ["Failed to write audio config file"]
            ∧ (writeAudioFile io id kind w).file.isSome = true)
      ∧ (w.file.isSome = true → io.unlinkOk = true →
          clearAudioFile_log io w = ["Removed audio config"]
            ∧ (clearAudioFile io w).file = none)
      ∧ ((w.file = none ∨ io.unlinkOk = false) →
          clearAudioFile_log io w = ["Audio config file not present or failed to remove"]
            ∧ clearAudioFile io w = w) := by
  refine ⟨rfl, rfl, ?_, ?_, ?_, ?_⟩
  · intro hio
    simp [writeAudioFile_log, writeAudioFile, hio]
  · intro hio
    refine ⟨writeAudioFile_log_ne_failed io id kind hio, ?_⟩
    cases kind <;> simp [writeAudioFile, hio]
  · intro hfile hio
    simp [clearAudioFile_log, clearAudioFile, hfile, hio]
  · intro h
    rcases h with h | h
    · simp [clearAudioFile_log, clearAudioFile, h]
    · simp [clearAudioFile_log, clearAudioFile, h]

/-- Witness for the amended C17: a failed and a successful write for card 1,
a successful clear of an existing file, and a clear with no file. -/
theorem persistence_outcome_only_logged_witness :
    (writeAudioFile_log ⟨false, true⟩ "1" DeviceType.DEVICE_USB_AUDIO
          = ["Failed to write audio config file"]
        ∧ writeAudioFile ⟨false, true⟩ "1" DeviceType.DEVICE_USB_AUDIO
          ⟨some "old", .AUDIO_SINK_DEFAULT⟩ = ⟨some "old", .AUDIO_SINK_DEFAULT⟩)
      ∧ (writeAudioFile_log ioOk "1" DeviceType.DEVICE_USB_AUDIO
          ≠ ["Failed to write audio config file"]
        ∧ (writeAudioFile ioOk "1" DeviceType.DEVICE_USB_AUDIO
          ⟨some "old", .AUDIO_SINK_DEFAULT⟩).file.isSome = true)
      ∧ (clearAudioFile_log ioOk ⟨some "old", .AUDIO_SINK_DEFAULT⟩ = ["Removed audio config"]
        ∧ (clearAudioFile ioOk ⟨some "old", .AUDIO_SINK_DEFAULT⟩).file = none)
      ∧ (clearAudioFile_log ioOk ⟨none, .AUDIO_SINK_DEFAULT⟩
          = ["Audio config file not present or failed to remove"]
        ∧ clearAudioFile ioOk ⟨none, .AUDIO_SINK_DEFAULT⟩ = ⟨none, .AUDIO_SINK_DEFAULT⟩) :=
  ⟨(persistence_outcome_only_logged ⟨false, true⟩ ioOk "1" DeviceType.DEVICE_USB_AUDIO
      ⟨some "old", .AUDIO_SINK_DEFAULT⟩ ⟨none, .AUDIO_SINK_DEFAULT⟩).2.2.1 rfl,
    (persistence_outcome_only_logged ioOk ioOk "1" DeviceType.DEVICE_USB_AUDIO
      ⟨some "old", .AUDIO_SINK_DEFAULT⟩ ⟨none, .AUDIO_SINK_DEFAULT⟩).2.2.2.1 rfl,
    (persistence_outcome_only_logged ioOk ioOk "1" DeviceType.DEVICE_USB_AUDIO
      ⟨some "old", .AUDIO_SINK_DEFAULT⟩ ⟨none, .AUDIO_SINK_DEFAULT⟩).2.2.2.2.1 rfl rfl,
    (persistence_outcome_only_logged ioOk ioOk "1" DeviceType.DEVICE_USB_AUDIO
      ⟨none, .AUDIO_SINK_DEFAULT⟩ ⟨none, .AUDIO_SINK_DEFAULT⟩).2.2.2.2.2 (Or.inl rfl)⟩

/-! ## Helper lemmas for the scan, the rendering and the loop -/

theorem two_hole_injective (A B C x y : List Char)
    (h : A ++ (x ++ (B ++ (x ++ C))) = A ++ (y ++ (B ++ (y ++ C)))) : x = y := by
  have h1 := List.append_cancel_left h
  have hlen : x.length = y.length := by
    have := congrArg List.length h1
    simp only [List.length_append] at this
    omega
  exact (List.append_inj h1 hlen).1

theorem bluealsaStanza_template (id : String) :
    bluealsaStanza id
      = "defaults.bluealsa.device \"" ++ id
        ++ "\"\n\npcm.!default \x7b\n    type plug\n    slave.pcm \x7b\n        type bluealsa\n        device \""
        ++ id
        ++ "\"\n        profile \"a2dp\"\n        delay 0\n    \x7d\n\x7d\nctl.!default \x7b\n    type bluealsa\n\x7d\n" := by
  simp [bluealsaStanza, String.join, String.append_assoc]

theorem hwStanza_template (c : String) :
    hwStanza c
      = "pcm.!default \x7b\n    type hw\n    card " ++ c
        ++ "\n\x7d\nctl.!default \x7b\n    type hw\n    card " ++ c ++ "\n\x7d\n" := by
  simp [hwStanza, String.join, String.append_assoc]

theorem bluealsaStanza_injective (id1 id2 : String)
    (h : bluealsaStanza id1 = bluealsaStanza id2) : id1 = id2 := by
  rw [bluealsaStanza_template, bluealsaStanza_template] at h
  have hd := congrArg String.data h
  simp only [String.data_append, List.append_assoc] at hd
  exact String.ext (two_hole_injective _ _ _ _ _ hd)

theorem hwStanza_injective (c1 c2 : String)
    (h : hwStanza c1 = hwStanza c2) : c1 = c2 := by
  rw [hwStanza_template, hwStanza_template] at h
  have hd := congrArg String.data h
  simp only [String.data_append, List.append_assoc] at hd
  exact String.ext (two_hole_injective _ _ _ _ _ hd)

theorem handleUsbAudioConnected_empty (io : IoEnv) (dev : UdevDevice) (w : World)
    (h : getUsbAudioCardNumber dev = "") : handleUsbAudioConnected io dev w = w := by
  have he : ("" : String).isEmpty = true := by decide
  simp [handleUsbAudioConnected, h, he]

theorem scanLoop_eq_runEvents (entries : List (IoEnv × Option UdevDevice)) (w : World) :
    scanLoop entries w = runEvents (addEvents entries) w := by
  induction entries generalizing w with
  | nil => rfl
  | cons e rest ih =>
    obtain ⟨io, d⟩ := e
    cases d with
    | none => simpa [scanLoop, addEvents] using ih w
    | some dev =>
      by_cases hdev : isUsbAudioDevice dev = true
      · have := ih (handleUsbAudioConnected io dev w)
        simpa [scanLoop, addEvents, hdev, runEvents, handleEvent] using this
      · have := ih w
        simpa [scanLoop, addEvents, hdev] using this

theorem udevBranch_asAddEvent (io : IoEnv) (dev : UdevDevice) (w : World) :
    udevBranch io (some (asAddEvent dev)) w
      = if isUsbAudioDevice dev then handleUsbAudioConnected io dev w else w := by
  have h1 : isUsbAudioDevice (asAddEvent dev) = isUsbAudioDevice dev := rfl
  have h2 : handleUsbAudioConnected io (asAddEvent dev) w = handleUsbAudioConnected io dev w :=
    rfl
  by_cases hdev : isUsbAudioDevice dev = true
  · rw [udevBranch_add io (asAddEvent dev) w (by rw [h1, hdev]) rfl, h2, if_pos hdev]
  · have hf : isUsbAudioDevice dev = false := by simpa using hdev
    rw [udevBranch_rejected io (asAddEvent dev) w (by rw [h1, hf]), if_neg hdev]

theorem scanLoop_eq_foldl (entries : List (IoEnv × Option UdevDevice)) (w : World) :
    scanLoop entries w
      = entries.foldl (fun acc e => udevBranch e.1 (e.2.map asAddEvent) acc) w := by
  induction entries generalizing w with
  | nil => rfl
  | cons e rest ih =>
    obtain ⟨io, d⟩ := e
    cases d with
    | none => simpa [scanLoop, udevBranch] using ih w
    | some dev =>
      rw [scanLoop, List.foldl_cons, ih]
      simp only [Option.map_some']
      rw [udevBranch_asAddEvent]

theorem scanLoop_append (xs ys : List (IoEnv × Option UdevDevice)) (w : World) :
    scanLoop (xs ++ ys) w = scanLoop ys (scanLoop xs w) := by
  rw [scanLoop_eq_foldl, scanLoop_eq_foldl, scanLoop_eq_foldl, List.foldl_append]

theorem scanLoop_unchanged (entries : List (IoEnv × Option UdevDevice)) (w : World)
    (h : ∀ e ∈ entries, ∀ d, e.2 = some d → isUsbAudioDevice d = true →
      getUsbAudioCardNumber d = "") :
    scanLoop entries w = w := by
  induction entries generalizing w with
  | nil => rfl
  | cons e rest ih =>
    have hrest : ∀ e ∈ rest, ∀ d, e.2 = some d → isUsbAudioDevice d = true →
        getUsbAudioCardNumber d = "" := fun e he => h e (List.mem_cons_of_mem _ he)
    obtain ⟨io, d⟩ := e
    cases d with
    | none => simpa [scanLoop] using ih w hrest
    | some dev =>
      by_cases hdev : isUsbAudioDevice dev = true
      · have hc := h (io, some dev) (List.mem_cons_self _ _) dev rfl hdev
        rw [scanLoop, if_pos hdev, handleUsbAudioConnected_empty io dev w hc]
        exact ih w hrest
      · rw [scanLoop, if_neg hdev]
        exact ih w hrest

theorem dbusBranch_connectedSignal (io : IoEnv) (conn : DBusConnection) (b : Bool)
    (w : World) :
    dbusBranch io conn (some (connectedSignal b)) w
      = if b then handleDeviceConnected io conn peerPath w
        else handleDeviceDisconnected io conn peerPath w := by
  have hfind : (strFind peerPath "dev_").isSome = true := by decide
  simp [dbusBranch, dbusDispatch, connectedSignal, hfind, changedLoop, changedEntry]

theorem udevBranch_one_handler (io : IoEnv) (received : Option UdevDevice) (w : World) :
    udevBranch io received w = w
      ∨ ∃ dev, received = some dev
          ∧ (udevBranch io received w = handleUsbAudioConnected io dev w
            ∨ udevBranch io received w = handleUsbAudioDisconnected io dev w) := by
  cases received with
  | none => exact Or.inl rfl
  | some dev =>
    by_cases hdev : isUsbAudioDevice dev = true
    · by_cases hadd : dev.action = some "add"
      · exact Or.inr ⟨dev, rfl, Or.inl (udevBranch_add io dev w hdev hadd)⟩
      · by_cases hrem : dev.action = some "remove"
        · exact Or.inr ⟨dev, rfl, Or.inr (udevBranch_remove io dev w hdev hrem)⟩
        · left
          have hs := isUsbAudioDevice_subsystem dev hdev
          cases hact : dev.action with
          | none => simp [udevBranch, hs, hdev, hact]
          | some a =>
            have h1 : a ≠ "add" := fun h => hadd (by rw [hact, h])
            have h2 : a ≠ "remove" := fun h => hrem (by rw [hact, h])
            simp [udevBranch, hs, hdev, hact, h1, h2]
    · have hf : isUsbAudioDevice dev = false := by simpa using hdev
      exact Or.inl (udevBranch_rejected io dev w hf)

/-! ## C18: the startup scan -/

/-- Claim C18. The startup scan has the same effect on the state as handling,
in enumeration order, one add event for each enumerated device that passes
`isUsbAudioDevice`; it is also the same as feeding every enumerated device with
the action "add" to the udev branch of the loop. Hence, when the write for the
last enumerated device that passes the filter with a non-empty card identity
succeeds, the state after the scan is that of this device, and the state is
unchanged when no enumerated device passes the filter or no enumerator could
be made. -/
theorem scan_refines_add_events (entries : List (IoEnv × Option UdevDevice)) (w : World) :
    scanExistingUsbAudioDevices (some entries) w = runEvents (addEvents entries) w
      ∧ scanExistingUsbAudioDevices (some entries) w
        = entries.foldl (fun acc e => udevBranch e.1 (e.2.map asAddEvent) acc) w
      ∧ (∀ (before after : List (IoEnv × Option UdevDevice)) (io : IoEnv) (dev : UdevDevice),
          entries = before ++ (io, some dev) :: after →
          isUsbAudioDevice dev = true → getUsbAudioCardNumber dev ≠ "" →
          io.openOk = true →
          (∀ e ∈ after, ∀ d, e.2 = some d → isUsbAudioDevice d = true →
            getUsbAudioCardNumber d = "") →
          scanExistingUsbAudioDevices (some entries) w
            = (SinkState.UsbAudio (getUsbAudioCardNumber dev)).toWorld)
      ∧ ((∀ e ∈ entries, ∀ d, e.2 = some d → isUsbAudioDevice d = false) →
          scanExistingUsbAudioDevices (some entries) w = w)
      ∧ scanExistingUsbAudioDevices none w = w := by
  refine ⟨scanLoop_eq_runEvents entries w, scanLoop_eq_foldl entries w, ?_, ?_, rfl⟩
  · intro before after io dev hentries hdev hcard hio hafter
    show scanLoop entries w = _
    have hsplit : before ++ (io, some dev) :: after
        = before ++ ([(io, some dev)] ++ after) := rfl
    rw [hentries, hsplit, scanLoop_append, scanLoop_append, scanLoop_unchanged after _ hafter]
    simp only [scanLoop, if_pos hdev]
    rw [handleUsbAudioConnected_accepted io dev _ hcard hio]
    rfl
  · intro hnone
    show scanLoop entries w = w
    apply scanLoop_unchanged
    intro e he d hd hdev
    rw [hnone e he d hd] at hdev
    exact absurd hdev (by decide)

/-- Witness for C18: the scan enumerates the on-board card 0, the USB card 1
and an entry without device. The state after the scan is that of card 1; a
scan that finds only the on-board card changes nothing. -/
theorem scan_refines_add_events_witness :
    scanExistingUsbAudioDevices
        (some [(ioOk, some ⟨none, some "sound", some "/dev/snd/controlC0",
            some "/devices/platform/soc/sound/card0/controlC0", []⟩),
          (ioOk, some (usbCard1 "add")), (ioOk, none)])
        ⟨none, .AUDIO_SINK_DEFAULT⟩
        = (SinkState.UsbAudio (getUsbAudioCardNumber (usbCard1 "add"))).toWorld
      ∧ scanExistingUsbAudioDevices
        (some [(ioOk, some ⟨none, some "sound", some "/dev/snd/controlC0",
            some "/devices/platform/soc/sound/card0/controlC0", []⟩)])
        ⟨none, .AUDIO_SINK_DEFAULT⟩
        = ⟨none, .AUDIO_SINK_DEFAULT⟩ :=
  ⟨(scan_refines_add_events _ ⟨none, .AUDIO_SINK_DEFAULT⟩).2.2.1
      [(ioOk, some ⟨none, some "sound", some "/dev/snd/controlC0",
        some "/devices/platform/soc/sound/card0/controlC0", []⟩)]
      [(ioOk, none)] ioOk (usbCard1 "add") rfl (isUsbAudioDevice_usbCard1 "add")
      (by rw [getUsbAudioCardNumber_usbCard1]; decide) rfl
      (by
        intro e he d hd
        simp only [List.mem_singleton] at he
        rw [he] at hd
        cases hd),
    (scan_refines_add_events _ ⟨none, .AUDIO_SINK_DEFAULT⟩).2.2.2.1
      (by
        intro e he d hd
        simp only [List.mem_singleton] at he
        rw [he] at hd
        cases hd
        decide)⟩

/-! ## C19: the routing file determines the sink -/

/-- Claim C19. The rendering of the routing file is injective in the kind and
the identity: when two successful calls of `writeAudioFile` leave the same
file content, they were made for the same kind and the same identity. -/
theorem artifact_injective (io1 io2 : IoEnv) (w1 w2 : World) (id1 id2 : String)
    (k1 k2 : DeviceType) (h1 : io1.openOk = true) (h2 : io2.openOk = true)
    (h : (writeAudioFile io1 id1 k1 w1).file = (writeAudioFile io2 id2 k2 w2).file) :
    k1 = k2 ∧ id1 = id2 := by
  cases k1 <;> cases k2
  · rw [writeAudioFile_bluetooth io1 id1 w1 h1, writeAudioFile_bluetooth io2 id2 w2 h2] at h
    exact ⟨rfl, bluealsaStanza_injective id1 id2 (Option.some.inj h)⟩
  · rw [writeAudioFile_bluetooth io1 id1 w1 h1, writeAudioFile_usb io2 id2 w2 h2] at h
    exact absurd (Option.some.inj h) (bluealsaStanza_ne_hwStanza id1 id2)
  · rw [writeAudioFile_usb io1 id1 w1 h1, writeAudioFile_bluetooth io2 id2 w2 h2] at h
    exact absurd (Option.some.inj h).symm (bluealsaStanza_ne_hwStanza id2 id1)
  · rw [writeAudioFile_usb io1 id1 w1 h1, writeAudioFile_usb io2 id2 w2 h2] at h
    exact ⟨rfl, hwStanza_injective id1 id2 (Option.some.inj h)⟩

/-- Witness for C19: two successful writes for card 1 over different earlier
contents leave the same file, and they agree in kind and identity. -/
theorem artifact_injective_witness :
    DeviceType.DEVICE_USB_AUDIO = DeviceType.DEVICE_USB_AUDIO ∧ ("1" : String) = "1" :=
  artifact_injective ioOk ⟨true, false⟩ ⟨none, .AUDIO_SINK_DEFAULT⟩
    ⟨some "old", .AUDIO_SINK_BLUETOOTH⟩ "1" "1" DeviceType.DEVICE_USB_AUDIO
    DeviceType.DEVICE_USB_AUDIO rfl rfl
    (by rw [writeAudioFile_usb _ _ _ rfl, writeAudioFile_usb _ _ _ rfl])

/-! ## C20: events handled in one iteration of the loop -/

/-- Counterexample to claim C20. A Connected signal of the A2DP peer
AA:BB:CC:DD:EE:FF waits on the bus and the add event of USB card 1 waits on
the udev monitor, and `select` reports both descriptors ready. One iteration
drains both events and applies two connects: the state goes from Default to
the Bluetooth sink and then to the USB sink. -/
theorem iteration_handles_two_events :
    (loopIteration ioOk ioOk a2dpBus true true
        ⟨⟨none, .AUDIO_SINK_DEFAULT⟩, [connectedSignal true], [usbCard1 "add"]⟩).bus = []
      ∧ (loopIteration ioOk ioOk a2dpBus true true
        ⟨⟨none, .AUDIO_SINK_DEFAULT⟩, [connectedSignal true], [usbCard1 "add"]⟩).hotplug = []
      ∧ (loopIteration ioOk ioOk a2dpBus true true
        ⟨⟨none, .AUDIO_SINK_DEFAULT⟩, [connectedSignal true], [usbCard1 "add"]⟩).world
        = handleUsbAudioConnected ioOk (usbCard1 "add")
            (handleDeviceConnected ioOk a2dpBus peerPath ⟨none, .AUDIO_SINK_DEFAULT⟩)
      ∧ handleDeviceConnected ioOk a2dpBus peerPath ⟨none, .AUDIO_SINK_DEFAULT⟩
        = (SinkState.Bluetooth "AA:BB:CC:DD:EE:FF").toWorld
      ∧ handleUsbAudioConnected ioOk (usbCard1 "add")
          (SinkState.Bluetooth "AA:BB:CC:DD:EE:FF").toWorld
        = (SinkState.UsbAudio "1").toWorld
      ∧ (dbusBranchCounted ioOk a2dpBus (some (connectedSignal true))
          (⟨none, .AUDIO_SINK_DEFAULT⟩, 0)).2 = 1 := by
  have hcard : getUsbAudioCardNumber (usbCard1 "add") ≠ "" := by
    rw [getUsbAudioCardNumber_usbCard1]
    decide
  refine ⟨rfl, rfl, ?_, ?_, ?_, by decide⟩
  · simp only [loopIteration, if_true, List.head?_cons, dbusBranch_connectedSignal]
    exact udevBranch_add ioOk (usbCard1 "add") _ (isUsbAudioDevice_usbCard1 "add") rfl
  · rw [handleDeviceConnected_accepted _ _ _ _ (isA2dpPeer_a2dpBus peerPath) rfl,
      pathToMac_peerPath]
    rfl
  · rw [handleUsbAudioConnected_accepted _ _ _ hcard rfl, getUsbAudioCardNumber_usbCard1]
    rfl

/-- Claim C20 as amended. One iteration of the loop drains at most one raw
event from each source: the first waiting bus message when the bus descriptor
is ready and the first waiting hotplug device when the udev descriptor is
ready, the bus message being handled first. The hotplug device leads to at
most one call of a connect or disconnect handler, and the bus message to at
most one call for each "Connected" entry of its changed-properties
dictionary. -/
theorem iteration_one_event_per_source (ioBus ioUdev : IoEnv) (conn : DBusConnection)
    (dbusReady udevReady : Bool) (s : LoopState) :
    (loopIteration ioBus ioUdev conn dbusReady udevReady s).bus
        = (if dbusReady then s.bus.tail else s.bus)
      ∧ (loopIteration ioBus ioUdev conn dbusReady udevReady s).hotplug
        = (if udevReady then s.hotplug.tail else s.hotplug)
      ∧ s.bus.length ≤ (loopIteration ioBus ioUdev conn dbusReady udevReady s).bus.length + 1
      ∧ s.hotplug.length
        ≤ (loopIteration ioBus ioUdev conn dbusReady udevReady s).hotplug.length + 1
      ∧ (loopIteration ioBus ioUdev conn dbusReady udevReady s).world
        = udevBranch ioUdev (if udevReady then s.hotplug.head? else none)
            (dbusBranch ioBus conn (if dbusReady then s.bus.head? else none) s.world)
      ∧ (∀ (received : Option UdevDevice) (w : World),
          udevBranch ioUdev received w = w
            ∨ ∃ dev, received = some dev
                ∧ (udevBranch ioUdev received w = handleUsbAudioConnected ioUdev dev w
                  ∨ udevBranch ioUdev received w = handleUsbAudioDisconnected ioUdev dev w))
      ∧ (∀ (popped : Option DBusMessage) (w : World) (n : Nat),
          ∃ m, dbusBranchCounted ioBus conn popped (w, n)
              = (dbusBranch ioBus conn popped w, m)
            ∧ m ≤ n + connectedEntries popped) := by
  refine ⟨?_, ?_, ?_, ?_, ?_, udevBranch_one_handler ioUdev, ?_⟩
  · cases dbusReady <;> cases udevReady <;> rfl
  · cases dbusReady <;> cases udevReady <;> rfl
  · cases dbusReady <;> cases udevReady <;>
      simp only [loopIteration, if_true, if_false, Bool.false_eq_true, List.length_tail] <;>
      omega
  · cases dbusReady <;> cases udevReady <;>
      simp only [loopIteration, if_true, if_false, Bool.false_eq_true, List.length_tail] <;>
      omega
  · cases dbusReady <;> cases udevReady <;> rfl
  · intro popped w n
    obtain ⟨m, hm, _, hle⟩ := dbusBranchCounted_eq ioBus conn popped w n
    exact ⟨m, hm, hle⟩

/-! ## C27: the card identity of a filtered device -/

theorem strFind_some_split (s pat : String) (n : Nat) (h : strFind s pat = some n) :
    ∃ a b : String, s = a ++ pat ++ b ∧ a.length = n
      ∧ substrFrom s (n + pat.length) = b := by
  obtain ⟨a, b, hs, ha⟩ := findList_some pat.data s.data n h
  refine ⟨String.mk a, String.mk b, String.ext (by simp [hs]), ha, ?_⟩
  apply String.ext
  show List.drop (n + pat.length) s.data = b
  rw [hs, ← ha]
  exact List.drop_left' (by rw [List.length_append]; rfl)

theorem getUsbAudioCardNumber_of_filtered (dev : UdevDevice)
    (hdev : isUsbAudioDevice dev = true) :
    ∃ node pos, dev.devnode = some node ∧ strFind node "controlC" = some pos
      ∧ getUsbAudioCardNumber dev = substrFrom node (pos + 8) := by
  obtain ⟨_, ⟨node, hnode, hcontains⟩, _⟩ := (isUsbAudioDevice_iff dev).mp hdev
  cases hfind : strFind node "controlC" with
  | none => exact absurd hcontains ((strFind_eq_none_iff node "controlC").mp hfind)
  | some pos =>
    exact ⟨node, pos, hnode, hfind, by simp only [getUsbAudioCardNumber, hnode, hfind]⟩

theorem handleUsbAudioDisconnected_empty (io : IoEnv) (dev : UdevDevice) (w : World)
    (h : getUsbAudioCardNumber dev = "") : handleUsbAudioDisconnected io dev w = w := by
  have he : ("" : String).isEmpty = true := by decide
  simp [handleUsbAudioDisconnected, h, he]

/-- Counterexample to claim C27. The node name "/dev/snd/controlCcontrolC"
ends in "controlC" and the device passes `isUsbAudioDevice`, but its identity
is the text after the first "controlC", which is "controlC" and not empty: the
add event makes it the active sink. -/
theorem node_ending_in_controlC_with_identity :
    isUsbAudioDevice ⟨some "add", some "sound", some "/dev/snd/controlCcontrolC",
        some "/devices/platform/soc/usb1/1-1/sound/card1/controlCcontrolC", []⟩ = true
      ∧ (∃ pre : String, (some "/dev/snd/controlCcontrolC" : Option String)
          = some (pre ++ "controlC"))
      ∧ getUsbAudioCardNumber ⟨some "add", some "sound", some "/dev/snd/controlCcontrolC",
        some "/devices/platform/soc/usb1/1-1/sound/card1/controlCcontrolC", []⟩ = "controlC"
      ∧ udevBranch ioOk (some ⟨some "add", some "sound", some "/dev/snd/controlCcontrolC",
          some "/devices/platform/soc/usb1/1-1/sound/card1/controlCcontrolC", []⟩)
          ⟨none, .AUDIO_SINK_DEFAULT⟩
        = (SinkState.UsbAudio "controlC").toWorld
      ∧ (SinkState.UsbAudio "controlC").toWorld ≠ ⟨none, .AUDIO_SINK_DEFAULT⟩ := by
  have hfind : strFind "/dev/snd/controlCcontrolC" "controlC" = some 9 := by decide
  have hsub : substrFrom "/dev/snd/controlCcontrolC" (9 + 8) = "controlC" := by decide
  have hpath : strstr "/devices/platform/soc/usb1/1-1/sound/card1/controlCcontrolC" "usb"
      = true := by decide
  have hdev : isUsbAudioDevice ⟨some "add", some "sound", some "/dev/snd/controlCcontrolC",
      some "/devices/platform/soc/usb1/1-1/sound/card1/controlCcontrolC", []⟩ = true := by
    simp [isUsbAudioDevice, hfind, hpath]
  have hcard : getUsbAudioCardNumber ⟨some "add", some "sound",
      some "/dev/snd/controlCcontrolC",
      some "/devices/platform/soc/usb1/1-1/sound/card1/controlCcontrolC", []⟩
      = "controlC" := by
    simp [getUsbAudioCardNumber, hfind, hsub]
  refine ⟨hdev, ⟨"/dev/snd/controlC", by decide⟩, hcard, ?_, by simp [SinkState.toWorld]⟩
  rw [udevBranch_add _ _ _ hdev rfl,
    handleUsbAudioConnected_accepted _ _ _ (by rw [hcard]; decide) rfl, hcard]
  rfl

/-- Claim C27 as amended. For a device that passes `isUsbAudioDevice`,
`getUsbAudioCardNumber` returns the text that follows the first "controlC" of
the node name, whatever the properties of the device are. Consequently a
filtered device in whose node name nothing follows the first "controlC" has
an empty identity, and the udev branch leaves the state as it is for such a
device, whatever its action. -/
theorem filtered_identity_from_node (dev : UdevDevice)
    (hdev : isUsbAudioDevice dev = true) :
    (∃ pre rest : String, dev.devnode = some (pre ++ "controlC" ++ rest)
        ∧ (∀ a b : String, pre ++ "controlC" ++ rest = a ++ "controlC" ++ b →
            pre.length ≤ a.length)
        ∧ getUsbAudioCardNumber dev = rest)
      ∧ (∀ props : List (String × String),
          getUsbAudioCardNumber { dev with properties := props }
            = getUsbAudioCardNumber dev)
      ∧ (∀ pre : String, dev.devnode = some (pre ++ "controlC") →
          ¬ Contains pre "controlC" →
          getUsbAudioCardNumber dev = ""
            ∧ ∀ (io : IoEnv) (w : World), udevBranch io (some dev) w = w) := by
  obtain ⟨node, pos, hnode, hfind, hcard⟩ := getUsbAudioCardNumber_of_filtered dev hdev
  refine ⟨?_, ?_, ?_⟩
  · obtain ⟨a, b, hs, ha, hsub⟩ := strFind_some_split node "controlC" pos hfind
    refine ⟨a, b, by rw [hnode, hs], ?_, ?_⟩
    · intro a2 b2 h2
      rw [ha]
      exact strFind_le_of_decomposition node "controlC" pos hfind a2 b2 (by rw [hs, h2])
    · rw [hcard]
      exact hsub
  · intro props
    rw [hcard]
    simp only [getUsbAudioCardNumber, hnode, hfind]
  · intro pre hpre hnot
    have hnode2 : dev.devnode = some (pre ++ "controlC" ++ "") := by
      rw [hpre]
      simp
    have hfind2 := strFind_controlC_append pre "" hnot
    have hempty : getUsbAudioCardNumber dev = "" := by
      simp only [getUsbAudioCardNumber, hnode2, hfind2]
      exact substrFrom_append pre "controlC" "" 8 rfl
    refine ⟨hempty, fun io w => ?_⟩
    rcases udevBranch_one_handler io (some dev) w with h | ⟨d, hd, h | h⟩
    · exact h
    · cases hd
      rw [h, handleUsbAudioConnected_empty io dev w hempty]
    · cases hd
      rw [h, handleUsbAudioDisconnected_empty io dev w hempty]

/-- Witness for the amended C27: a USB control node named "controlC" with a
SOUND_CARD property. Its identity is empty and its add event changes
nothing. -/
theorem filtered_identity_from_node_witness :
    getUsbAudioCardNumber ⟨some "add", some "sound", some "/dev/snd/controlC",
        some "/devices/platform/soc/usb1/1-1/sound/card1/controlC",
        [("SOUND_CARD", "1")]⟩ = ""
      ∧ ∀ (io : IoEnv) (w : World),
        udevBranch io (some ⟨some "add", some "sound", some "/dev/snd/controlC",
          some "/devices/platform/soc/usb1/1-1/sound/card1/controlC",
          [("SOUND_CARD", "1")]⟩) w = w :=
  (filtered_identity_from_node ⟨some "add", some "sound", some "/dev/snd/controlC",
      some "/devices/platform/soc/usb1/1-1/sound/card1/controlC", [("SOUND_CARD", "1")]⟩
    (by
      have hfind : strFind "/dev/snd/controlC" "controlC" = some 9 := by decide
      have hpath : strstr "/devices/platform/soc/usb1/1-1/sound/card1/controlC" "usb"
          = true := by decide
      simp [isUsbAudioDevice, hfind, hpath])).2.2 "/dev/snd/" (by decide)
    ((strFind_eq_none_iff "/dev/snd/" "controlC").mp (by decide))

end Audiomon

namespace Utils

/-! ## Helper lemmas for the utilities -/

theorem dropWhile_append_stop (p : Char → Bool) (a : List Char) (c : Char) (b : List Char)
    (ha : ∀ x ∈ a, p x = true) (hc : p c = false) :
    (a ++ c :: b).dropWhile p = c :: b := by
  induction a with
  | nil => simp [List.dropWhile, hc]
  | cons x xs ih =>
    have hx : p x = true := ha x (List.mem_cons_self _ _)
    have hxs : ∀ y ∈ xs, p y = true := fun y hy => ha y (List.mem_cons_of_mem _ hy)
    simp [List.dropWhile, hx, ih hxs]

theorem dropWhile_all (p : Char → Bool) (a : List Char) (ha : ∀ x ∈ a, p x = true) :
    a.dropWhile p = [] := by
  induction a with
  | nil => rfl
  | cons x xs ih =>
    have hx : p x = true := ha x (List.mem_cons_self _ _)
    have hxs : ∀ y ∈ xs, p y = true := fun y hy => ha y (List.mem_cons_of_mem _ hy)
    simp [List.dropWhile, hx, ih hxs]

/-! ## C24: the sorting prefix -/

/-- Claim C24. For a string made of a run of decimal digits (possibly empty),
a closing parenthesis, a run of spaces and tabs (possibly empty) and a rest
that does not start with a space or a tab, `trimSortingMeta` advances the
pointer to the rest. For a string whose leading run of digits is not followed
by a closing parenthesis, the pointer stays where it was. -/
theorem trimSortingMeta_spec :
    (∀ d b rest : List Char, (∀ c ∈ d, isdigit c = true) → (∀ c ∈ b, c = ' ' ∨ c = '\t') →
        rest.head? ≠ some ' ' → rest.head? ≠ some '\t' →
        trimSortingMeta (d ++ ')' :: (b ++ rest)) = rest)
      ∧ (∀ str : List Char, (str.dropWhile isdigit).head? ≠ some ')' →
        trimSortingMeta str = str) := by
  constructor
  · intro d b rest hd hb h1 h2
    have hstop : isdigit ')' = false := by decide
    have e1 : (d ++ ')' :: (b ++ rest)).dropWhile isdigit = ')' :: (b ++ rest) :=
      dropWhile_append_stop isdigit d ')' (b ++ rest) hd hstop
    have hb2 : ∀ c ∈ b, isblank c = true := by
      intro c hc
      rcases hb c hc with h | h <;> simp [isblank, h]
    simp only [trimSortingMeta, e1]
    cases rest with
    | nil =>
      rw [List.append_nil]
      exact dropWhile_all isblank b hb2
    | cons r rs =>
      have hr : isblank r = false := by
        have hr1 : r ≠ ' ' := fun h => h1 (by simp [h])
        have hr2 : r ≠ '\t' := fun h => h2 (by simp [h])
        simp [isblank, hr1, hr2]
      exact dropWhile_append_stop isblank b r rs hb2 hr
  · intro str h
    unfold trimSortingMeta
    split
    · rename_i rest heq
      rw [heq] at h
      exact absurd rfl h
    · rfl

/-- Witness for C24: "001) Zelda" loses its sorting prefix and "2048 Tiles"
is left alone. -/
theorem trimSortingMeta_spec_witness :
    trimSortingMeta ("001".data ++ ')' :: (" ".data ++ "Zelda".data)) = "Zelda".data
      ∧ trimSortingMeta "2048 Tiles".data = "2048 Tiles".data :=
  ⟨trimSortingMeta_spec.1 "001".data " ".data "Zelda".data (by decide) (by decide)
      (by decide) (by decide),
    trimSortingMeta_spec.2 "2048 Tiles".data (by decide)⟩


theorem strrchr_eq_none_iff (s : List Char) (c : Char) : strrchr s c = none ↔ c ∉ s := by
  induction s with
  | nil => simp [strrchr]
  | cons x xs ih =>
    unfold strrchr
    cases h : strrchr xs c with
    | none =>
      have hxs : c ∉ xs := ih.mp h
      by_cases hx : x = c
      · simp [hx]
      · have hx2 : ¬ c = x := fun e => hx e.symm
        simp [hx, hx2, hxs]
    | some i =>
      have hxs : ¬ c ∉ xs := fun hn => by
        rw [ih.mpr hn] at h
        exact absurd h (by simp)
      have hmem : c ∈ xs := by
        by_contra hn
        exact hxs hn
      simp [hmem]

theorem strrchr_some (s : List Char) (c : Char) (i : Nat) (h : strrchr s c = some i) :
    s = s.take i ++ c :: s.drop (i + 1) ∧ c ∉ s.drop (i + 1) := by
  induction s generalizing i with
  | nil => simp [strrchr] at h
  | cons x xs ih =>
    unfold strrchr at h
    cases hxs : strrchr xs c with
    | none =>
      rw [hxs] at h
      by_cases hx : x = c
      · simp only [hx, if_true, Option.some.injEq] at h
        subst h
        subst hx
        exact ⟨by simp, by simpa using (strrchr_eq_none_iff xs x).mp hxs⟩
      · simp [hx] at h
    | some j =>
      rw [hxs] at h
      simp only [Option.some.injEq] at h
      subst h
      obtain ⟨h1, h2⟩ := ih j hxs
      refine ⟨?_, by simpa using h2⟩
      simp only [List.take_succ_cons, List.drop_succ_cons, List.cons_append]
      rw [← h1]

/-! ## C25: splitting a path -/

/-- Claim C25. For a path of fewer than 256 characters that contains a slash,
the folder path, a slash and the base name make up the path again, and the
base name contains no slash. For a path without a slash the folder path is
empty and the base name is the whole path. -/
theorem baseName_folderPath_split :
    (∀ path : List Char, path.length < 256 → '/' ∈ path →
        folderPath path ++ '/' :: baseName path = path ∧ '/' ∉ baseName path)
      ∧ (∀ path : List Char, '/' ∉ path → folderPath path = [] ∧ baseName path = path) := by
  constructor
  · intro path hlen hmem
    have htake : path.take (256 - 1) = path := List.take_of_length_le (by omega)
    cases h : strrchr path '/' with
    | none => exact absurd hmem ((strrchr_eq_none_iff path '/').mp h)
    | some i =>
      obtain ⟨h1, h2⟩ := strrchr_some path '/' i h
      have hi : (path.take i).length ≤ 255 := by
        rw [List.length_take]
        omega
      simp only [folderPath, baseName, htake, h]
      rw [List.take_of_length_le (by simpa using hi)]
      exact ⟨h1.symm, h2⟩
  · intro path hmem
    have hcopy : '/' ∉ path.take (256 - 1) := fun h => hmem (List.mem_of_mem_take h)
    simp [folderPath, baseName, (strrchr_eq_none_iff _ '/').mpr hcopy,
      (strrchr_eq_none_iff _ '/').mpr hmem]

/-- Witness for C25: a ROM path and a bare file name. -/
theorem baseName_folderPath_split_witness :
    (folderPath "/mnt/SDCARD/Roms/GB/Tetris.gb".data
          ++ '/' :: baseName "/mnt/SDCARD/Roms/GB/Tetris.gb".data
        = "/mnt/SDCARD/Roms/GB/Tetris.gb".data
      ∧ '/' ∉ baseName "/mnt/SDCARD/Roms/GB/Tetris.gb".data)
      ∧ (folderPath "Tetris.gb".data = [] ∧ baseName "Tetris.gb".data = "Tetris.gb".data) :=
  ⟨baseName_folderPath_split.1 "/mnt/SDCARD/Roms/GB/Tetris.gb".data (by decide) (by decide),
    baseName_folderPath_split.2 "Tetris.gb".data (by decide)⟩

/-! ## Helper lemmas for trimString -/

theorem scanForward_append_stop (p : Char → Bool) (a : List Char) (c : Char) (b : List Char)
    (ha : ∀ x ∈ a, p x = true) (hc : p c = false) :
    scanForward p (a ++ c :: b) = some a.length := by
  induction a with
  | nil => simp [scanForward, hc]
  | cons x xs ih =>
    have hx : p x = true := ha x (List.mem_cons_self _ _)
    have hxs : ∀ y ∈ xs, p y = true := fun y hy => ha y (List.mem_cons_of_mem _ hy)
    simp [scanForward, hx, ih hxs]

theorem scanForward_all (p : Char → Bool) (a : List Char) (ha : ∀ x ∈ a, p x = true) :
    scanForward p a = none := by
  induction a with
  | nil => rfl
  | cons x xs ih =>
    have hx : p x = true := ha x (List.mem_cons_self _ _)
    have hxs : ∀ y ∈ xs, p y = true := fun y hy => ha y (List.mem_cons_of_mem _ hy)
    simp [scanForward, hx, ih hxs]

theorem dropWhile_head_false (p : Char → Bool) (l : List Char) (c : Char) (r : List Char)
    (h : l.dropWhile p = c :: r) : p c = false := by
  induction l with
  | nil => simp at h
  | cons x xs ih =>
    by_cases hx : p x = true
    · simp only [List.dropWhile, hx] at h
      exact ih h
    · have hx2 : p x = false := by simpa using hx
      simp only [List.dropWhile, hx2] at h
      have := (List.cons.inj h).1
      rw [← this]
      exact hx2

/-! ## C21: trimString on a string of trim characters -/

/-- Claim C21, evaluated on the code. For a string that is empty or made only
of trim characters, stored in an array of exactly its size, the loop over the
leading trim characters does not stop at the terminator: `strchr` finds the
terminating byte in its set as well, so the loop runs past the last byte of
the array and `trimString` has no defined result. When more bytes follow the
terminator in the array, the result is taken from them: for the string " "
followed by the bytes of "A", the output is "A" and not the empty string. -/
theorem trimString_all_trim_overruns (len : Nat) (s : List Char) (first : Bool)
    (hlen : 1 ≤ len) (hs : ∀ c ∈ s, c ∈ trimSet) :
    trimString len (s ++ [NUL]) first = none
      ∧ trimString 8 (" ".data ++ NUL :: ("A".data ++ [NUL])) false
        = some ⟨['A', NUL], 1⟩ := by
  refine ⟨?_, by decide⟩
  have hl0 : len ≠ 0 := by omega
  have hall : ∀ x ∈ s ++ [NUL], strchrHit trimSet x = true := by
    intro x hx
    rcases List.mem_append.mp hx with h | h
    · show (x == NUL || trimSet.contains x) = true
      have : trimSet.contains x = true := by simpa using hs x h
      rw [this]
      simp
    · have hx2 : x = NUL := by simpa using h
      rw [hx2]
      decide
  simp only [trimString, hl0, if_false, scanForward_all _ _ hall]

/-- Witness for C21: the empty string in a one-byte array and the string
"  ,  " in a six-byte array. -/
theorem trimString_all_trim_overruns_witness :
    trimString 1 ([] ++ [NUL]) true = none
      ∧ trimString 16 ("  ,  ".data ++ [NUL]) false = none :=
  ⟨(trimString_all_trim_overruns 1 [] true (by decide) (by simp)).1,
    (trimString_all_trim_overruns 16 "  ,  ".data false (by decide) (by decide)).1⟩

/-! ## The trimmed text computed by trimString -/

theorem takeWhile_dropWhile_congr (p q : Char → Bool) (l : List Char)
    (h : ∀ x ∈ l, p x = q x) :
    l.takeWhile p = l.takeWhile q ∧ l.dropWhile p = l.dropWhile q := by
  induction l with
  | nil => exact ⟨rfl, rfl⟩
  | cons x xs ih =>
    have hx := h x (List.mem_cons_self _ _)
    obtain ⟨h1, h2⟩ := ih (fun y hy => h y (List.mem_cons_of_mem _ hy))
    simp only [List.takeWhile_cons, List.dropWhile_cons, hx, h1, h2]
    exact ⟨trivial, trivial⟩

theorem hit_of_not_nul (set : List Char) (c : Char) (hc : c ≠ NUL) :
    strchrHit set c = set.contains c := by
  show (c == NUL || set.contains c) = set.contains c
  have : (c == NUL) = false := by simpa using hc
  rw [this]
  rfl

theorem scanFrom_takeWhile (cont : Char → Bool) (hN : cont NUL = false)
    (X r tail : List Char) :
    scanFrom cont (X ++ r ++ NUL :: tail) X.length
      = some (X.length + (r.takeWhile cont).length) := by
  have hsplit : r = r.takeWhile cont ++ r.dropWhile cont :=
    (List.takeWhile_append_dropWhile cont r).symm
  obtain ⟨c, b, hcb, hc⟩ : ∃ c b, r.dropWhile cont ++ NUL :: tail = c :: b ∧ cont c = false := by
    cases hd : r.dropWhile cont with
    | nil => exact ⟨NUL, tail, rfl, hN⟩
    | cons x xs => exact ⟨x, xs ++ NUL :: tail, rfl, dropWhile_head_false cont r x xs hd⟩
  have hmem : X ++ r ++ NUL :: tail = X ++ (r.takeWhile cont ++ c :: b) := by
    rw [← hcb, List.append_assoc X r, ← List.append_assoc (r.takeWhile cont), ← hsplit]
  have hstop := scanForward_append_stop cont (r.takeWhile cont) c b
    (fun x hx => List.mem_takeWhile_imp hx) hc
  rw [hmem, scanFrom, List.drop_left, hstop]
  simp [Nat.add_comm]

theorem scanBack_eq (mem : List Char) (str e : Nat) :
    scanBack mem str e
      = if str < e && strchrHit trimSet (mem.getD e NUL) then scanBack mem str (e - 1)
        else e := by
  cases e with
  | zero => simp [scanBack]
  | succ e => rw [scanBack]; rfl

theorem getD_mid (A : List Char) (c : Char) (B : List Char) (d : Char) :
    (A ++ c :: B).getD A.length d = c := by
  rw [List.getD_append_right _ _ _ _ (Nat.le_refl _)]
  simp

theorem getOpt_mid (A : List Char) (c : Char) (B : List Char) :
    (A ++ c :: B).get? A.length = some c := by
  rw [List.get?_append_right (Nat.le_refl _)]
  simp

theorem scanBack_stop (A : List Char) (a : Char) (str : Nat) (hstr : str ≤ A.length)
    (hstop : str = A.length ∨ strchrHit trimSet a = false) :
    ∀ (trail rest : List Char), (∀ x ∈ trail, strchrHit trimSet x = true) →
      scanBack (A ++ a :: (trail ++ rest)) str (A.length + trail.length) = A.length := by
  intro trail
  induction trail using List.reverseRecOn with
  | nil =>
    intro rest _
    rw [scanBack_eq, List.length_nil, Nat.add_zero, List.nil_append, getD_mid]
    rcases hstop with h | h
    · have : ¬ (str < A.length) := by omega
      simp [this]
    · simp [h]
  | append_singleton tr c ih =>
    intro rest htr
    have hc : strchrHit trimSet c = true := htr c (by simp)
    have hmem : A ++ a :: (tr ++ [c] ++ rest) = (A ++ a :: tr) ++ c :: rest := by simp
    have hidx : A.length + (tr ++ [c]).length = (A ++ a :: tr).length := by
      simp only [List.length_append, List.length_cons, List.length_nil]
    rw [scanBack_eq, hidx, hmem, getD_mid, hc]
    have hlt : str < (A ++ a :: tr).length := by
      simp only [List.length_append, List.length_cons]
      omega
    have e1 : (A ++ a :: tr).length - 1 = A.length + tr.length := by
      simp
    have hmem2 : (A ++ a :: tr) ++ c :: rest = A ++ a :: (tr ++ (c :: rest)) := by simp
    simp only [hlt, decide_True, Bool.and_self, if_true, e1]
    rw [hmem2]
    exact ih (c :: rest) (fun x hx => htr x (by simp [hx]))

theorem lineText_decomp (r : List Char) (hr : r ≠ []) (hnul : NUL ∉ r) :
    ∃ L a trail, r = L ++ a :: trail ∧ lineText r = L ++ [a]
      ∧ (L = [] ∨ strchrHit trimSet a = false)
      ∧ ∀ x ∈ trail, strchrHit trimSet x = true := by
  have hsplit : r = dropTrailing r
      ++ (r.reverse.takeWhile (fun c => trimSet.contains c)).reverse := by
    have h := congrArg List.reverse
      (List.takeWhile_append_dropWhile (fun c => trimSet.contains c) r.reverse)
    rw [List.reverse_append, List.reverse_reverse] at h
    exact h.symm
  have htrail : ∀ x ∈ (r.reverse.takeWhile (fun c => trimSet.contains c)).reverse,
      strchrHit trimSet x = true := by
    intro x hx
    have h1 : trimSet.contains x = true := List.mem_takeWhile_imp (List.mem_reverse.mp hx)
    show (x == NUL || trimSet.contains x) = true
    rw [h1]
    simp
  by_cases hk : dropTrailing r = []
  · obtain ⟨x, xs, hxs⟩ := List.exists_cons_of_ne_nil hr
    rw [hk, List.nil_append] at hsplit
    refine ⟨[], x, xs, by rw [hxs]; rfl, ?_, Or.inl rfl, ?_⟩
    · rw [lineText, if_pos hk, hxs]
      rfl
    · intro y hy
      exact htrail y (by rw [← hsplit, hxs]; exact List.mem_cons_of_mem _ hy)
  · cases hd : r.reverse.dropWhile (fun c => trimSet.contains c) with
    | nil =>
      exact absurd (by rw [dropTrailing, hd]; rfl) hk
    | cons a rest =>
      have ha : trimSet.contains a = false := dropWhile_head_false _ _ a rest hd
      have hkeep : dropTrailing r = rest.reverse ++ [a] := by
        rw [dropTrailing, hd, List.reverse_cons]
      have hmem : a ∈ r := by
        rw [hsplit, hkeep]
        simp
      have han : a ≠ NUL := fun h => hnul (h ▸ hmem)
      refine ⟨rest.reverse, a, _, ?_, ?_, Or.inr ?_, htrail⟩
      · rw [← List.singleton_append, ← List.append_assoc, ← hkeep]
        exact hsplit
      · rw [lineText, if_neg hk, hkeep]
      · rw [hit_of_not_nul _ _ han, ha]

theorem take_min_prefix (T rest : List Char) (k : Nat) :
    (T ++ rest).take (min T.length k) = T.take k := by
  rw [List.take_append_of_le_length (Nat.min_le_left _ _)]
  rcases Nat.le_total k T.length with h | h
  · rw [Nat.min_eq_right h]
  · rw [Nat.min_eq_left h, List.take_length, List.take_of_length_le h]

theorem trimTail_exact (X T : List Char) (z : Char) (Y : List Char)
    (first is_string : Bool) (end1 len : Nat)
    (hT : NUL ∉ T ++ [z]) (hsize : (X ++ (T ++ [z])).length < 2 ^ 64)
    (hscan : (if first then
          scanFrom (fun c => !strchrHit trimSet c) (X ++ (T ++ [z]) ++ Y) end1
        else (scanFrom (fun c => c != NUL) (X ++ (T ++ [z]) ++ Y) X.length).map
          (fun e => scanBack (X ++ (T ++ [z]) ++ Y) X.length (e - 1) + 1))
      = some (X.length + (T ++ [z]).length)) :
    trimTail (X ++ (T ++ [z]) ++ Y) first is_string X.length end1 len
      = some ⟨(if is_string then dropClosingQuote (T ++ [z]) else T ++ [z]).take (len - 1)
            ++ [NUL],
          min (if is_string then dropClosingQuote (T ++ [z]) else T ++ [z]).length
            (len - 1)⟩ := by
  obtain ⟨c, rest, hcr⟩ : ∃ c rest, T ++ [z] = c :: rest := by
    cases T with
    | nil => exact ⟨z, [], rfl⟩
    | cons x xs => exact ⟨x, xs ++ [z], rfl⟩
  have hcn : c ≠ NUL := fun h => hT (by rw [hcr, h]; exact List.mem_cons_self _ _)
  have hget : (X ++ (T ++ [z]) ++ Y).get? X.length = some c := by
    rw [hcr, List.append_assoc, List.cons_append]
    exact getOpt_mid X c _
  have hlast : (X ++ (T ++ [z]) ++ Y).get? (X.length + (T ++ [z]).length - 1) = some z := by
    have e1 : X ++ (T ++ [z]) ++ Y = (X ++ T) ++ z :: Y := by simp
    have e2 : X.length + (T ++ [z]).length - 1 = (X ++ T).length := by
      simp only [List.length_append, List.length_cons, List.length_nil]
      omega
    rw [e2, e1]
    exact getOpt_mid _ z Y
  have hdrop : (X ++ (T ++ [z]) ++ Y).drop X.length = (T ++ [z]) ++ Y := by
    rw [List.append_assoc, List.drop_left]
  have hdrop2 : (X ++ (T ++ [z]) ++ Y).drop X.length = T ++ ([z] ++ Y) := by
    rw [hdrop, List.append_assoc]
  have hlenT : (T ++ [z]).length = T.length + 1 := by simp
  have hlenX : (X ++ (T ++ [z])).length = X.length + T.length + 1 := by
    simp only [List.length_append, List.length_cons, List.length_nil]
    omega
  have hmemlen : (X ++ (T ++ [z]) ++ Y).length = X.length + T.length + 1 + Y.length := by
    simp only [List.length_append, List.length_cons, List.length_nil]
    omega
  have hpow : (2 : Int) ^ 64 = 18446744073709551616 := by norm_num
  have hpowN : (2 : Nat) ^ 64 = 18446744073709551616 := by norm_num
  rw [hpowN] at hsize
  unfold trimTail
  simp only [hget, hcn, if_false, hscan, hlast]
  by_cases hq : is_string = true ∧ z = '\x22'
  · obtain ⟨his, hz⟩ := hq
    subst hz
    subst his
    have hclose : dropClosingQuote (T ++ ['\x22']) = T := by
      rw [dropClosingQuote]
      simp
    have hdiff : (((((X.length + (T ++ ['\x22']).length : Nat) : Int) - 1) - (X.length : Int))
        % 2 ^ 64).toNat = T.length := by
      rw [hlenT, hpow]
      omega
    have hmin : (if T.length < len - 1 then T.length else len - 1) = min T.length (len - 1) := by
      split <;> omega
    have hb : X.length + min T.length (len - 1) ≤ X.length + T.length + 1 + Y.length := by
      omega
    simp only [beq_self_eq_true, Bool.and_self, if_true, hdiff, hmin, hmemlen, hb,
      hclose, hdrop2, take_min_prefix]
  · have hcond : (is_string && (some z == some '\x22')) = false := by
      cases is_string with
      | false => rfl
      | true =>
        have hz : z ≠ '\x22' := fun h => hq ⟨rfl, h⟩
        simp [hz]
    have hclose : (if is_string then dropClosingQuote (T ++ [z]) else T ++ [z]) = T ++ [z] := by
      cases is_string with
      | false => rfl
      | true =>
        have hz : z ≠ '\x22' := fun h => hq ⟨rfl, h⟩
        simp [dropClosingQuote, hz]
    have hdiff : ((((X.length + (T ++ [z]).length : Nat) : Int) - (X.length : Int))
        % 2 ^ 64).toNat = (T ++ [z]).length := by
      rw [hlenT, hpow]
      omega
    have hmin : (if (T ++ [z]).length < len - 1 then (T ++ [z]).length else len - 1)
        = min (T ++ [z]).length (len - 1) := by
      split <;> omega
    have hb : X.length + min (T ++ [z]).length (len - 1)
        ≤ X.length + T.length + 1 + Y.length := by
      rw [hlenT]
      omega
    simp only [hcond, Bool.false_eq_true, if_false, hdiff, hmin, hmemlen, hb, if_true, hclose,
      hdrop, take_min_prefix]

theorem scanFrom_set (set : List Char) (X r tail : List Char) (hnul : NUL ∉ r) :
    scanFrom (fun c => !strchrHit set c) (X ++ r ++ NUL :: tail) X.length
      = some (X.length + (r.takeWhile (fun c => !set.contains c)).length) := by
  have hcongr := (takeWhile_dropWhile_congr (fun c => !strchrHit set c)
    (fun c => !set.contains c) r (fun x hx => by
      have hx0 : x ≠ NUL := fun h => hnul (h ▸ hx)
      show (!strchrHit set x) = !set.contains x
      rw [hit_of_not_nul set x hx0])).1
  rw [← hcongr]
  exact scanFrom_takeWhile _ (by
    show (!(NUL == NUL || set.contains NUL)) = false
    simp) X r tail

theorem scanFrom_strlen (X r tail : List Char) (hnul : NUL ∉ r) :
    scanFrom (fun c => c != NUL) (X ++ r ++ NUL :: tail) X.length
      = some (X.length + r.length) := by
  have h := scanFrom_takeWhile (fun c => c != NUL) (by decide) X r tail
  have hall : r.takeWhile (fun c => c != NUL) = r := by
    rw [List.takeWhile_eq_self_iff]
    intro x hx
    have hx0 : x ≠ NUL := fun h => hnul (h ▸ hx)
    simpa using hx0
  rw [hall] at h
  exact h

theorem scanLine (X body tail : List Char) (hne : body ≠ []) (hnul : NUL ∉ body) :
    (scanFrom (fun c => c != NUL) (X ++ body ++ NUL :: tail) X.length).map
        (fun e => scanBack (X ++ body ++ NUL :: tail) X.length (e - 1) + 1)
      = some (X.length + (lineText body).length)
    ∧ lineText body ≠ []
    ∧ ∃ Y, body ++ NUL :: tail = lineText body ++ Y := by
  obtain ⟨L, a, trail, hbody, hline, hstop, htrail⟩ := lineText_decomp body hne hnul
  refine ⟨?_, by rw [hline]; simp, trail ++ NUL :: tail, by rw [hline, hbody]; simp⟩
  rw [scanFrom_strlen X body tail hnul, Option.map_some']
  have hmem : X ++ body ++ NUL :: tail = (X ++ L) ++ a :: (trail ++ NUL :: tail) := by
    rw [hbody]
    simp
  have hidx : X.length + body.length - 1 = (X ++ L).length + trail.length := by
    rw [hbody]
    simp only [List.length_append, List.length_cons]
    omega
  have hsb := scanBack_stop (X ++ L) a X.length (by simp)
    (by
      rcases hstop with h | h
      · left
        rw [h]
        simp
      · right
        exact h) trail (NUL :: tail) htrail
  rw [hidx, hmem, hsb, hline]
  simp only [List.length_append, List.length_cons, List.length_nil]
  exact congrArg some (by omega)

theorem trimTail_text (mem X Traw Y : List Char) (first is_string : Bool) (end1 len : Nat)
    (hmem : mem = X ++ Traw ++ Y) (hne : Traw ≠ []) (hT : NUL ∉ Traw)
    (hsize : (X ++ Traw).length < 2 ^ 64)
    (hscan : (if first then scanFrom (fun c => !strchrHit trimSet c) mem end1
        else (scanFrom (fun c => c != NUL) mem X.length).map
          (fun e => scanBack mem X.length (e - 1) + 1))
      = some (X.length + Traw.length)) :
    trimTail mem first is_string X.length end1 len
      = some ⟨(if is_string then dropClosingQuote Traw else Traw).take (len - 1) ++ [NUL],
          min (if is_string then dropClosingQuote Traw else Traw).length (len - 1)⟩ := by
  subst hmem
  have hsplit := List.dropLast_append_getLast hne
  rw [← hsplit] at hT hsize hscan ⊢
  exact trimTail_exact X _ _ Y first is_string end1 len hT hsize hscan

theorem quote_and_trim (c : Char) (hq : quoteSet.contains c = true)
    (ht : trimSet.contains c = true) : c = '\r' ∨ c = '\n' := by
  simp only [quoteSet, List.contains_cons, List.contains_nil, Bool.or_false, Bool.or_eq_true,
    beq_iff_eq] at hq
  rcases hq with h | h | h
  · exact Or.inl h
  · exact Or.inr h
  · rw [h] at ht
    exact absurd ht (by decide)

theorem quotedTokenText_ne_nil (c : Char) (rest : List Char) (hr : c ≠ '\r') (hl : c ≠ '\n') :
    quotedTokenText (c :: rest) ≠ [] := by
  intro h
  rw [quotedTokenText, List.append_eq_nil] at h
  obtain ⟨h1, h2⟩ := h
  by_cases hq : quoteSet.contains c = true
  · have hd : (c :: rest).dropWhile (fun c => !quoteSet.contains c) = c :: rest := by
      rw [List.dropWhile_cons]
      simp only [hq, Bool.not_true, Bool.false_eq_true, if_false]
    rw [hd] at h2
    by_cases ht : trimSet.contains c = true
    · rcases quote_and_trim c hq ht with h | h
      · exact hr h
      · exact hl h
    · have ht2 : trimSet.contains c = false := by
        cases hv : trimSet.contains c with
        | true => exact absurd hv ht
        | false => rfl
      rw [List.takeWhile_cons] at h2
      simp only [ht2, Bool.not_false, if_true] at h2
      exact List.cons_ne_nil _ _ h2
  · have hq2 : quoteSet.contains c = false := by
      cases hv : quoteSet.contains c with
      | true => exact absurd hv hq
      | false => rfl
    rw [List.takeWhile_cons] at h1
    simp only [hq2, Bool.not_false, if_true] at h1
    exact List.cons_ne_nil _ _ h1

theorem reassoc (X r A E N : List Char) (h : r = A ++ E) :
    X ++ r ++ N = X ++ A ++ (E ++ N) := by
  subst h
  simp

theorem quotedTokenText_split (r : List Char) :
    r = quotedTokenText r
      ++ (r.dropWhile (fun c => !quoteSet.contains c)).dropWhile
        (fun c => !trimSet.contains c) := by
  rw [quotedTokenText, List.append_assoc, List.takeWhile_append_dropWhile,
    List.takeWhile_append_dropWhile]

theorem tokenText_split (c0 : Char) (r : List Char) (hc0 : trimSet.contains c0 = false) :
    tokenText (c0 :: r) = c0 :: r.takeWhile (fun c => !trimSet.contains c)
      ∧ c0 :: r = tokenText (c0 :: r) ++ r.dropWhile (fun c => !trimSet.contains c) := by
  have h1 : tokenText (c0 :: r) = c0 :: r.takeWhile (fun c => !trimSet.contains c) := by
    rw [tokenText, List.takeWhile_cons]
    simp only [hc0, Bool.not_false, if_true]
  refine ⟨h1, ?_⟩
  rw [h1, List.cons_append, List.takeWhile_append_dropWhile]

theorem not_nul_of_split (r A E : List Char) (h : r = A ++ E) (hr : NUL ∉ r) :
    NUL ∉ A ∧ A.length ≤ r.length := by
  subst h
  refine ⟨fun hA => hr (List.mem_append_left _ hA), ?_⟩
  rw [List.length_append]
  omega

theorem trimString_only_quote (pre tail : List Char) (first : Bool)
    (hpre : ∀ x ∈ pre, trimSet.contains x = true) (len : Nat) (hl : 1 ≤ len) :
    trimString len ((pre ++ ['\x22']) ++ NUL :: tail) first = some ⟨[NUL], 1⟩ := by
  have hl0 : len ≠ 0 := by omega
  have hscan0 : scanForward (strchrHit trimSet) ((pre ++ ['\x22']) ++ NUL :: tail)
      = some pre.length := by
    have e : (pre ++ ['\x22']) ++ NUL :: tail = pre ++ '\x22' :: (NUL :: tail) := by simp
    rw [e]
    exact scanForward_append_stop _ pre '\x22' _
      (fun x hx => by
        show (x == NUL || trimSet.contains x) = true
        rw [hpre x hx]
        simp) (by decide)
  have hif : ((pre ++ ['\x22']) ++ NUL :: tail).get? pre.length = some '\x22' := by
    have e : (pre ++ ['\x22']) ++ NUL :: tail = pre ++ '\x22' :: (NUL :: tail) := by simp
    rw [e]
    exact getOpt_mid pre '\x22' _
  have hXlen : (pre ++ ['\x22']).length = pre.length + 1 := by simp
  have hscan1 : scanFrom (fun c => !strchrHit quoteSet c)
      ((pre ++ ['\x22']) ++ NUL :: tail) (pre.length + 1) = some (pre.length + 1) := by
    have h := scanFrom_set quoteSet (pre ++ ['\x22']) [] tail (by simp)
    rw [List.append_nil, hXlen] at h
    exact h
  have hstr : ((pre ++ ['\x22']) ++ NUL :: tail).get? (pre.length + 1) = some NUL := by
    rw [← hXlen]
    exact getOpt_mid _ NUL tail
  simp only [trimString, hl0, if_false, hscan0, hif, if_true, hscan1, trimTail, hstr]

theorem trimString_text (pre r tail : List Char) (c0 : Char) (first : Bool)
    (hpre : ∀ x ∈ pre, trimSet.contains x = true) (hc0 : trimSet.contains c0 = false)
    (hnul : NUL ∉ pre ++ c0 :: r) (hsize : (pre ++ c0 :: r).length < 2 ^ 64)
    (hslip : first = true → c0 = '\x22' →
      ∀ c rest, r = c :: rest → c ≠ '\r' ∧ c ≠ '\n')
    (hnot : ¬ (c0 = '\x22' ∧ r = [])) (len : Nat) (hl : 1 ≤ len) :
    trimString len ((pre ++ c0 :: r) ++ NUL :: tail) first
      = some ⟨(if c0 = '\x22' then
              dropClosingQuote (if first then quotedTokenText r else lineText r)
            else if first then tokenText (c0 :: r) else lineText (c0 :: r)).take (len - 1)
          ++ [NUL],
        min (if c0 = '\x22' then
              dropClosingQuote (if first then quotedTokenText r else lineText r)
            else if first then tokenText (c0 :: r) else lineText (c0 :: r)).length
          (len - 1)⟩ := by
  have hc0n : c0 ≠ NUL := fun h => hnul (by simp [h])
  have hrn : NUL ∉ r := fun h => hnul (by simp [h])
  have hbn : NUL ∉ c0 :: r := fun h => hnul (List.mem_append_right _ h)
  have hp0 : strchrHit trimSet c0 = false := by
    rw [hit_of_not_nul _ _ hc0n, hc0]
  have hl0 : len ≠ 0 := by omega
  have hslen : (pre ++ c0 :: r).length = pre.length + 1 + r.length := by
    simp only [List.length_append, List.length_cons]
    omega
  have hscan0 : scanForward (strchrHit trimSet) ((pre ++ c0 :: r) ++ NUL :: tail)
      = some pre.length := by
    have e : (pre ++ c0 :: r) ++ NUL :: tail = pre ++ c0 :: (r ++ NUL :: tail) := by simp
    rw [e]
    exact scanForward_append_stop _ pre c0 _
      (fun x hx => by
        show (x == NUL || trimSet.contains x) = true
        rw [hpre x hx]
        simp) hp0
  have hget0 : ((pre ++ c0 :: r) ++ NUL :: tail).get? pre.length = some c0 := by
    have e : (pre ++ c0 :: r) ++ NUL :: tail = pre ++ c0 :: (r ++ NUL :: tail) := by simp
    rw [e]
    exact getOpt_mid pre c0 _
  have hmemX : (pre ++ c0 :: r) ++ NUL :: tail = (pre ++ [c0]) ++ r ++ NUL :: tail := by
    simp
  have hmemP : (pre ++ c0 :: r) ++ NUL :: tail = pre ++ (c0 :: r) ++ NUL :: tail := rfl
  have hXlen : (pre ++ [c0]).length = pre.length + 1 := by simp
  by_cases hq : c0 = '\x22'
  · have hr : r ≠ [] := fun h => hnot ⟨hq, h⟩
    have hif : ((pre ++ c0 :: r) ++ NUL :: tail).get? pre.length = some '\x22' := by
      rw [hget0, hq]
    have hscan1 : scanFrom (fun c => !strchrHit quoteSet c)
        ((pre ++ c0 :: r) ++ NUL :: tail) (pre.length + 1)
        = some ((pre ++ [c0]).length
          + (r.takeWhile (fun c => !quoteSet.contains c)).length) := by
      rw [hmemX, ← hXlen]
      exact scanFrom_set quoteSet _ r tail hrn
    simp only [trimString, hl0, if_false, hscan0, hif, if_true, hscan1, if_pos hq]
    rw [← hXlen]
    cases first with
    | true =>
      obtain ⟨c1, r1, hr1⟩ := List.exists_cons_of_ne_nil hr
      obtain ⟨hcr, hcl⟩ := hslip rfl hq c1 r1 hr1
      have hne : quotedTokenText r ≠ [] := by
        rw [hr1]
        exact quotedTokenText_ne_nil c1 r1 hcr hcl
      have hsp := quotedTokenText_split r
      obtain ⟨hT, hTlen⟩ := not_nul_of_split r _ _ hsp hrn
      have hdn : NUL ∉ r.dropWhile (fun c => !quoteSet.contains c) :=
        fun h => hrn ((List.dropWhile_suffix _).subset h)
      have hmem : (pre ++ c0 :: r) ++ NUL :: tail
          = (pre ++ [c0]) ++ quotedTokenText r
            ++ ((r.dropWhile (fun c => !quoteSet.contains c)).dropWhile
              (fun c => !trimSet.contains c) ++ NUL :: tail) := by
        rw [hmemX]
        exact reassoc _ r _ _ _ hsp
      have hmem2 : (pre ++ c0 :: r) ++ NUL :: tail
          = ((pre ++ [c0]) ++ r.takeWhile (fun c => !quoteSet.contains c))
            ++ r.dropWhile (fun c => !quoteSet.contains c) ++ NUL :: tail := by
        rw [hmemX, List.append_assoc (pre ++ [c0]) (r.takeWhile _),
          List.takeWhile_append_dropWhile]
      have hsz : ((pre ++ [c0]) ++ quotedTokenText r).length < 2 ^ 64 := by
        rw [List.length_append, hXlen]
        omega
      have hscan := scanFrom_set trimSet
        ((pre ++ [c0]) ++ r.takeWhile (fun c => !quoteSet.contains c))
        (r.dropWhile (fun c => !quoteSet.contains c)) tail hdn
      rw [← hmem2, List.length_append] at hscan
      have hres := trimTail_text _ (pre ++ [c0]) (quotedTokenText r) _ true true
        ((pre ++ [c0]).length + (r.takeWhile (fun c => !quoteSet.contains c)).length) len
        hmem hne hT hsz (by
          rw [if_pos rfl, hscan, quotedTokenText]
          exact congrArg some (by simp only [List.length_append]; omega))
      rw [hres]
      simp
    | false =>
      obtain ⟨hscan, hne, Y, hY⟩ := scanLine (pre ++ [c0]) r tail hr hrn
      rw [← hmemX] at hscan
      have hmem : (pre ++ c0 :: r) ++ NUL :: tail = (pre ++ [c0]) ++ lineText r ++ Y := by
        rw [hmemX, List.append_assoc (pre ++ [c0]) r, hY, ← List.append_assoc]
      obtain ⟨L, a, trail, hbody, hline, _, _⟩ := lineText_decomp r hr hrn
      have hsp : r = lineText r ++ trail := by
        rw [hline, List.append_assoc]
        exact hbody
      obtain ⟨hT, hTlen⟩ := not_nul_of_split r _ _ hsp hrn
      have hsz : ((pre ++ [c0]) ++ lineText r).length < 2 ^ 64 := by
        rw [List.length_append, hXlen]
        omega
      have hres := trimTail_text _ (pre ++ [c0]) (lineText r) Y false true
        ((pre ++ [c0]).length + (r.takeWhile (fun c => !quoteSet.contains c)).length) len
        hmem hne hT hsz (by
          rw [if_neg (by decide)]
          exact hscan)
      rw [hres]
      simp
  · have hif : ¬ ((pre ++ c0 :: r) ++ NUL :: tail).get? pre.length = some '\x22' := by
      rw [hget0]
      intro h
      exact hq (Option.some.inj h)
    simp only [trimString, hl0, if_false, hscan0, hif, if_neg hq]
    cases first with
    | true =>
      obtain ⟨htok, hsp⟩ := tokenText_split c0 r hc0
      obtain ⟨hT, hTlen⟩ := not_nul_of_split (c0 :: r) _ _ hsp hbn
      have hne : tokenText (c0 :: r) ≠ [] := by
        rw [htok]
        exact List.cons_ne_nil _ _
      have hmem : (pre ++ c0 :: r) ++ NUL :: tail
          = pre ++ tokenText (c0 :: r)
            ++ (r.dropWhile (fun c => !trimSet.contains c) ++ NUL :: tail) :=
        reassoc pre (c0 :: r) _ _ _ hsp
      have hsz : (pre ++ tokenText (c0 :: r)).length < 2 ^ 64 := by
        rw [List.length_append]
        rw [List.length_cons] at hTlen
        omega
      have hscan := scanFrom_set trimSet (pre ++ [c0]) r tail hrn
      rw [← hmemX, hXlen] at hscan
      have hres := trimTail_text _ pre (tokenText (c0 :: r)) _ true false (pre.length + 1) len
        hmem hne hT hsz (by
          rw [if_pos rfl, hscan, htok, List.length_cons]
          exact congrArg some (by omega))
      rw [hres]
      simp
    | false =>
      obtain ⟨hscan, hne, Y, hY⟩ := scanLine pre (c0 :: r) tail (List.cons_ne_nil _ _) hbn
      have hmem : (pre ++ c0 :: r) ++ NUL :: tail = pre ++ lineText (c0 :: r) ++ Y := by
        rw [List.append_assoc pre (c0 :: r), hY, ← List.append_assoc]
      obtain ⟨L, a, trail, hbody, hline, _, _⟩ :=
        lineText_decomp (c0 :: r) (List.cons_ne_nil _ _) hbn
      have hsp : c0 :: r = lineText (c0 :: r) ++ trail := by
        rw [hline, List.append_assoc]
        exact hbody
      obtain ⟨hT, hTlen⟩ := not_nul_of_split (c0 :: r) _ _ hsp hbn
      have hsz : (pre ++ lineText (c0 :: r)).length < 2 ^ 64 := by
        rw [List.length_append]
        rw [List.length_cons] at hTlen
        omega
      have hres := trimTail_text _ pre (lineText (c0 :: r)) Y false false (pre.length + 1) len
        hmem hne hT hsz (by
          rw [if_neg (by decide)]
          exact hscan)
      rw [hres]
      simp

/-! ## C22: truncation by trimString -/

/-- Counterexample to claim C22. The input that consists of one double quote
contains a character that is not a trim character. `trimString` writes the
empty string for it and returns 1, which is not the length of the output. -/
theorem trimString_lone_quote :
    '\x22' ∉ trimSet
      ∧ trimString 8 (['\x22'] ++ [NUL]) false = some ⟨[NUL], 1⟩
      ∧ trimString 8 (['\x22'] ++ [NUL]) true = some ⟨[NUL], 1⟩ := by
  decide

/-- The input made of a double quote and a line feed, with `first` set: the
difference `end - str` is -1, the copy takes `len - 1` bytes and leaves the
array. With further bytes in the array the copy takes them along. -/
theorem trimString_quote_newline :
    trimString 4 (['\x22', '\n'] ++ [NUL]) true = none
      ∧ trimString 4 (['\x22', '\n'] ++ NUL :: ['x', 'y', 'z']) true
        = some ⟨['\n', NUL, 'x', NUL], 3⟩ := by
  decide

/-- Claim C22 as amended. Let the input be a string of fewer than 2^64
characters with a character that is not a trim character, and, when `first` is
set, let the opening double quote of a quoted text not be directly followed by
a carriage return or a line feed. If only a double quote follows the leading
trim characters, `trimString` writes the empty string and returns 1.
Otherwise, for every `len` of at least 1, the output is the first
`min t (len - 1)` characters of the trimmed text `trimmedText first s`, `t`
being its length, followed by the terminator, and the returned value is that
number. The bytes after the terminator of the input play no role. For
`len = 0` nothing is written and 0 is returned. -/
theorem trimString_truncates (s tail : List Char) (first : Bool)
    (hnul : NUL ∉ s) (hsize : s.length < 2 ^ 64) (hsome : ∃ c ∈ s, c ∉ trimSet)
    (hslip : first = true → ∀ c rest, afterLeading s = '\x22' :: c :: rest →
      c ≠ '\r' ∧ c ≠ '\n') :
    (afterLeading s = ['\x22'] → ∀ len, 1 ≤ len →
        trimString len (s ++ NUL :: tail) first = some ⟨[NUL], 1⟩)
      ∧ (afterLeading s ≠ ['\x22'] → ∀ len, 1 ≤ len →
          trimString len (s ++ NUL :: tail) first
            = some ⟨(trimmedText first s).take (len - 1) ++ [NUL],
                min (trimmedText first s).length (len - 1)⟩)
      ∧ trimString 0 (s ++ NUL :: tail) first = some ⟨[], 0⟩ := by
  have hsplit : s = s.takeWhile (fun c => trimSet.contains c) ++ afterLeading s :=
    (List.takeWhile_append_dropWhile _ s).symm
  have hne : afterLeading s ≠ [] := by
    intro h
    obtain ⟨c, hc, hct⟩ := hsome
    have hall := List.dropWhile_eq_nil_iff.mp h
    have := hall c hc
    exact hct (by simpa using this)
  obtain ⟨c0, r, hr⟩ := List.exists_cons_of_ne_nil hne
  have hc0 : trimSet.contains c0 = false :=
    dropWhile_head_false (fun c => trimSet.contains c) s c0 r hr
  have hpre : ∀ x ∈ s.takeWhile (fun c => trimSet.contains c), trimSet.contains x = true :=
    fun x hx => List.mem_takeWhile_imp hx
  have hs : s = s.takeWhile (fun c => trimSet.contains c) ++ c0 :: r := by
    rw [← hr]
    exact hsplit
  have hslip2 : first = true → c0 = '\x22' → ∀ c rest, r = c :: rest → c ≠ '\r' ∧ c ≠ '\n' :=
    fun hfirst hq c rest hrest => hslip hfirst c rest (by rw [hr, hq, hrest])
  refine ⟨?_, ?_, rfl⟩
  · intro hq len hl
    have hquote := trimString_only_quote (s.takeWhile (fun c => trimSet.contains c)) tail
      first hpre len hl
    rw [hq] at hsplit
    rw [← hsplit] at hquote
    exact hquote
  · intro hq len hl
    have hnot : ¬ (c0 = '\x22' ∧ r = []) := by
      rintro ⟨h1, h2⟩
      exact hq (by rw [hr, h1, h2])
    have htext := trimString_text (s.takeWhile (fun c => trimSet.contains c)) r tail c0 first
      hpre hc0 (by rw [← hs]; exact hnul) (by rw [← hs]; exact hsize) hslip2 hnot len hl
    rw [← hs] at htext
    have ht : trimmedText first s
        = (if c0 = '\x22' then
            dropClosingQuote (if first then quotedTokenText r else lineText r)
          else if first then tokenText (c0 :: r) else lineText (c0 :: r)) := by
      simp only [trimmedText, hr]
    rw [ht]
    exact htext

/-- Witness for the amended C22: the line `  "Game Boy" , ` with `first` set
has the trimmed text `Game Boy`, of which a buffer of `len` bytes receives the
first `len - 1` characters, and a lone double quote gives the empty string
and 1. -/
theorem trimString_truncates_witness :
    (∀ len, 1 ≤ len →
        trimString len ("  \x22Game Boy\x22 , ".data ++ NUL :: []) true
          = some ⟨(trimmedText true "  \x22Game Boy\x22 , ".data).take (len - 1) ++ [NUL],
              min (trimmedText true "  \x22Game Boy\x22 , ".data).length (len - 1)⟩)
      ∧ trimmedText true "  \x22Game Boy\x22 , ".data = "Game Boy".data
      ∧ (∀ len, 1 ≤ len →
        trimString len (" \x22".data ++ NUL :: ['x']) false = some ⟨[NUL], 1⟩) :=
  ⟨(trimString_truncates "  \x22Game Boy\x22 , ".data [] true (by decide) (by decide)
      ⟨'G', by decide, by decide⟩
      (by
        intro _ c rest h
        have e : afterLeading "  \x22Game Boy\x22 , ".data
            = '\x22' :: 'G' :: "ame Boy\x22 , ".data := by decide
        rw [e] at h
        have h2 : ('G' : Char) = c := (List.cons.inj (List.cons.inj h).2).1
        rw [← h2]
        decide)).2.1 (by decide),
    by decide,
    (trimString_truncates " \x22".data ['x'] false (by decide) (by decide)
      ⟨'\x22', by decide, by decide⟩ (by intro h; cases h)).1 (by decide)⟩

/-! ## C26: the putInt / getInt round trip -/

theorem decimalDigitsAux_eq (fuel n : Nat) (acc : List Char) (hn : 0 < n) (hf : n < fuel) :
    decimalDigitsAux fuel n acc = (Nat.digits 10 n).reverse.map digitChar ++ acc := by
  induction fuel generalizing n acc with
  | zero => omega
  | succ fuel ih =>
    unfold decimalDigitsAux
    by_cases h10 : n < 10
    · rw [if_pos h10, Nat.digits_of_lt 10 n (by omega) h10]
      rfl
    · rw [if_neg h10, ih (n / 10) _ (by omega) (by omega),
        Nat.digits_def' (by omega : 1 < 10) hn]
      simp

theorem decimalDigits_pos (n : Nat) (hn : 0 < n) :
    decimalDigits n = (Nat.digits 10 n).reverse.map digitChar := by
  rw [decimalDigits, decimalDigitsAux_eq (n + 1) n [] hn (by omega)]
  simp

theorem digitChar_facts :
    ∀ d, d < 10 → digitValue 10 (digitChar d) = some d ∧ isspace (digitChar d) = false
      ∧ digitChar d ≠ '-' ∧ digitChar d ≠ '+' ∧ (digitChar d = '0' → d = 0) := by
  decide

theorem readDigits_digits (ds : List Nat) (hds : ∀ d ∈ ds, d < 10) (acc k : Nat) :
    readDigits 10 (ds.map digitChar) acc k
      = (ds.foldl (fun a d => a * 10 + d) acc, k + ds.length) := by
  induction ds generalizing acc k with
  | nil => rfl
  | cons d ds ih =>
    have hd := (digitChar_facts d (hds d (List.mem_cons_self _ _))).1
    have hrest : ∀ x ∈ ds, x < 10 := fun x hx => hds x (List.mem_cons_of_mem _ hx)
    simp only [List.map_cons, readDigits, hd, ih hrest, List.foldl_cons, List.length_cons]
    congr 1
    omega

theorem foldl_digits_lt (ds : List Nat) (hds : ∀ d ∈ ds, d < 10) (acc : Nat) :
    ds.foldl (fun a d => a * 10 + d) acc < (acc + 1) * 10 ^ ds.length := by
  induction ds generalizing acc with
  | nil => simp
  | cons d ds ih =>
    have hd := hds d (List.mem_cons_self _ _)
    have hrest : ∀ x ∈ ds, x < 10 := fun x hx => hds x (List.mem_cons_of_mem _ hx)
    have h1 := ih hrest (acc * 10 + d)
    have h2 : (acc * 10 + d + 1) * 10 ^ ds.length ≤ (acc + 1) * 10 ^ (d :: ds).length := by
      rw [List.length_cons, pow_succ]
      have : acc * 10 + d + 1 ≤ (acc + 1) * 10 := by omega
      calc (acc * 10 + d + 1) * 10 ^ ds.length
          ≤ ((acc + 1) * 10) * 10 ^ ds.length := Nat.mul_le_mul_right _ this
        _ = (acc + 1) * (10 ^ ds.length * 10) := by ring
    exact lt_of_lt_of_le h1 h2

theorem foldl_reverse_digits (n : Nat) :
    (Nat.digits 10 n).reverse.foldl (fun a d => a * 10 + d) 0 = n := by
  have h := Nat.ofDigits_digits 10 n
  rw [Nat.ofDigits_eq_foldr] at h
  rw [List.foldl_reverse]
  have e : (fun (x y : Nat) => y * 10 + x) = (fun (x y : Nat) => (x : Nat) + 10 * y) := by
    funext x y
    omega
  rw [e]
  simpa using h

theorem scanInteger_digits (ds : List Nat) (hds : ∀ d ∈ ds, d < 10) (hne : ds ≠ [])
    (h0 : ds.head? ≠ some 0) :
    scanInteger (ds.map digitChar)
      = some ((ds.foldl (fun a d => a * 10 + d) 0 : Nat) : Int) := by
  obtain ⟨d, rest, hds2⟩ := List.exists_cons_of_ne_nil hne
  subst hds2
  obtain ⟨_, hsp, hm, hp, hz⟩ := digitChar_facts d (hds d (List.mem_cons_self _ _))
  have hd0 : digitChar d ≠ '0' := fun h => h0 (by simp [hz h])
  have hdrop : ((d :: rest).map digitChar).dropWhile isspace = (d :: rest).map digitChar := by
    simp [List.dropWhile, hsp]
  have hsign : skipSign ((d :: rest).map digitChar) = (false, (d :: rest).map digitChar) := by
    simp [skipSign, hm, hp]
  have hbase : detectBase ((d :: rest).map digitChar) = (10, (d :: rest).map digitChar) := by
    simp [detectBase, hd0]
  simp only [scanInteger, hdrop, hsign, hbase, readDigits_digits _ hds]
  simp

theorem scanInteger_neg_digits (ds : List Nat) (hds : ∀ d ∈ ds, d < 10) (hne : ds ≠ [])
    (h0 : ds.head? ≠ some 0) :
    scanInteger ('-' :: ds.map digitChar)
      = some (-((ds.foldl (fun a d => a * 10 + d) 0 : Nat) : Int)) := by
  obtain ⟨d, rest, hds2⟩ := List.exists_cons_of_ne_nil hne
  subst hds2
  obtain ⟨_, hsp, hm, hp, hz⟩ := digitChar_facts d (hds d (List.mem_cons_self _ _))
  have hd0 : digitChar d ≠ '0' := fun h => h0 (by simp [hz h])
  have hsp2 : isspace '-' = false := by decide
  have hdrop : ('-' :: (d :: rest).map digitChar).dropWhile isspace
      = '-' :: (d :: rest).map digitChar := by
    simp [List.dropWhile, hsp2]
  have hsign : skipSign ('-' :: (d :: rest).map digitChar)
      = (true, (d :: rest).map digitChar) := by
    simp [skipSign]
  have hbase : detectBase ((d :: rest).map digitChar) = (10, (d :: rest).map digitChar) := by
    simp [detectBase, hd0]
  simp only [scanInteger, hdrop, hsign, hbase, readDigits_digits _ hds]
  simp

theorem digits_length_le_iff (n k : Nat) (hn : 0 < n) :
    (Nat.digits 10 n).length ≤ k ↔ n < 10 ^ k := by
  constructor
  · intro h
    exact lt_of_lt_of_le (Nat.lt_base_pow_length_digits (by omega : 1 < 10))
      (Nat.pow_le_pow_right (by omega) h)
  · intro h
    by_contra hc
    have h1 : 10 ^ (k + 1) ≤ 10 ^ (Nat.digits 10 n).length :=
      Nat.pow_le_pow_right (by omega) (by omega)
    have h2 := Nat.base_pow_length_digits_le 10 n (by omega) (by omega)
    rw [pow_succ] at h1
    omega

theorem digits_ne_nil_of_pos (n : Nat) (hn : 0 < n) : Nat.digits 10 n ≠ [] :=
  Nat.digits_ne_nil_iff_ne_zero.mpr (by omega)

theorem scanInteger_take_digits (n k : Nat) (hn : 0 < n) (hk : 0 < k) :
    ∃ m : Nat,
      scanInteger (((Nat.digits 10 n).reverse.map digitChar).take k) = some (m : Int)
      ∧ scanInteger ('-' :: ((Nat.digits 10 n).reverse.map digitChar).take k)
          = some (-(m : Int))
      ∧ (m = n ↔ n < 10 ^ k) := by
  have hne : Nat.digits 10 n ≠ [] := Nat.digits_ne_nil_iff_ne_zero.mpr (by omega)
  have hlast := Nat.getLast_digit_ne_zero 10 (by omega : n ≠ 0)
  have hlt : ∀ d ∈ (Nat.digits 10 n).reverse, d < 10 := fun d hd =>
    Nat.digits_lt_base (by omega) (List.mem_reverse.mp hd)
  have hrne : (Nat.digits 10 n).reverse ≠ [] := by simpa using hne
  obtain ⟨d, rest, hdr⟩ := List.exists_cons_of_ne_nil hrne
  have hd0 : d ≠ 0 := by
    have e : (Nat.digits 10 n).getLast hne = d := by
      have := List.head_reverse (l := Nat.digits 10 n) hrne
      rw [← this]
      simp [hdr]
    rw [e] at hlast
    exact hlast
  obtain ⟨k, rfl⟩ : ∃ j, k = j + 1 := ⟨k - 1, by omega⟩
  have htake : ((Nat.digits 10 n).reverse.map digitChar).take (k + 1)
      = (((Nat.digits 10 n).reverse).take (k + 1)).map digitChar := by
    rw [List.map_take]
  have hlt2 : ∀ x ∈ ((Nat.digits 10 n).reverse).take (k + 1), x < 10 := fun x hx =>
    hlt x (List.mem_of_mem_take hx)
  have hne2 : ((Nat.digits 10 n).reverse).take (k + 1) ≠ [] := by
    rw [hdr]
    simp
  have hh : (((Nat.digits 10 n).reverse).take (k + 1)).head? ≠ some 0 := by
    rw [hdr]
    simpa using hd0
  refine ⟨(((Nat.digits 10 n).reverse).take (k + 1)).foldl (fun a d => a * 10 + d) 0, ?_, ?_, ?_⟩
  · rw [htake]
    exact scanInteger_digits _ hlt2 hne2 hh
  · rw [htake]
    exact scanInteger_neg_digits _ hlt2 hne2 hh
  · rw [← digits_length_le_iff n (k + 1) hn]
    constructor
    · intro h
      by_contra hc
      have hlen : (((Nat.digits 10 n).reverse).take (k + 1)).length = k + 1 := by
        rw [List.length_take, List.length_reverse]
        omega
      have hb := foldl_digits_lt _ hlt2 0
      rw [hlen, h] at hb
      have := (digits_length_le_iff n (k + 1) hn).mpr (by simpa using hb)
      exact hc this
    · intro h
      rw [List.take_of_length_le (by rw [List.length_reverse]; exact h)]
      exact foldl_reverse_digits n

theorem formatDecimal_ofNat (n : Nat) (hn : 0 < n) :
    formatDecimal (n : Int) = (Nat.digits 10 n).reverse.map digitChar := by
  have h : ¬ ((n : Int) < 0) := by omega
  rw [formatDecimal, if_neg h, Int.natAbs_ofNat, decimalDigits_pos n hn]

theorem formatDecimal_neg (n : Nat) (hn : 0 < n) :
    formatDecimal (-(n : Int)) = '-' :: (Nat.digits 10 n).reverse.map digitChar := by
  have h : (-(n : Int) < 0) := by omega
  rw [formatDecimal, if_pos h, Int.natAbs_neg, Int.natAbs_ofNat, decimalDigits_pos n hn]

theorem getInt_putInt (files : Files) (path : String) (v : Int) :
    getInt (putInt true files path v) (some path)
      = match scanInteger ((formatDecimal v).take 7) with
        | some i => i
        | none => 0 := by
  simp [getInt, putInt, putFile, snprintfDecimal]

/-- C26: with file operations succeeding, `putInt(path, v)` stores the first
seven characters of the decimal form of `v`, that decimal form reads back as
`v`, it has at most seven characters exactly when `-999999 ≤ v ≤ 9999999`, and
`getInt(path)` after `putInt(path, v)` returns `v` exactly for those values (so
it returns a different number for every other value). -/
theorem putInt_getInt_round_trip (files : Files) (path : String) (v : Int) :
    putInt true files path v path = some ((formatDecimal v).take 7)
    ∧ scanInteger (formatDecimal v) = some v
    ∧ ((formatDecimal v).length ≤ 7 ↔ -999999 ≤ v ∧ v ≤ 9999999)
    ∧ (getInt (putInt true files path v) (some path) = v
        ↔ -999999 ≤ v ∧ v ≤ 9999999) := by
  refine ⟨by simp [putInt, putFile, snprintfDecimal], ?_⟩
  rw [getInt_putInt]
  rcases lt_trichotomy v 0 with hneg | hzero | hpos
  · obtain ⟨n, rfl⟩ : ∃ n : Nat, v = -(n : Int) := ⟨v.natAbs, by omega⟩
    have hn : 0 < n := by omega
    rw [formatDecimal_neg n hn]
    obtain ⟨m, _, hm2, hm3⟩ := scanInteger_take_digits n 6 hn (by omega)
    obtain ⟨m', _, hf2, hf3⟩ := scanInteger_take_digits n ((Nat.digits 10 n).length) hn
      (List.length_pos.mpr (digits_ne_nil_of_pos n hn))
    have hfull : ((Nat.digits 10 n).reverse.map digitChar).take (Nat.digits 10 n).length
        = (Nat.digits 10 n).reverse.map digitChar :=
      List.take_of_length_le (by simp)
    rw [hfull] at hf2
    have hm' : m' = n := hf3.mpr (Nat.lt_base_pow_length_digits (by omega))
    have hlen := digits_length_le_iff n 6 hn
    refine ⟨by rw [hf2, hm'], ?_, ?_⟩
    · simp only [List.length_cons, List.length_map, List.length_reverse]
      constructor
      · intro h
        have := hlen.mp (by omega)
        norm_num at this
        omega
      · intro h
        have : n < 10 ^ 6 := by norm_num; omega
        have := hlen.mpr this
        omega
    · rw [List.take_succ_cons, hm2]
      show (-(m : Int) = -(n : Int)) ↔ _
      constructor
      · intro h
        have : m = n := by omega
        have := hm3.mp this
        norm_num at this
        omega
      · intro h
        have : n < 10 ^ 6 := by norm_num; omega
        have := hm3.mpr this
        omega
  · subst hzero
    decide
  · obtain ⟨n, rfl⟩ : ∃ n : Nat, v = (n : Int) := ⟨v.natAbs, by omega⟩
    have hn : 0 < n := by omega
    rw [formatDecimal_ofNat n hn]
    obtain ⟨m, hm1, _, hm3⟩ := scanInteger_take_digits n 7 hn (by omega)
    obtain ⟨m', hf1, _, hf3⟩ := scanInteger_take_digits n ((Nat.digits 10 n).length) hn
      (List.length_pos.mpr (digits_ne_nil_of_pos n hn))
    have hfull : ((Nat.digits 10 n).reverse.map digitChar).take (Nat.digits 10 n).length
        = (Nat.digits 10 n).reverse.map digitChar :=
      List.take_of_length_le (by simp)
    rw [hfull] at hf1
    have hm' : m' = n := hf3.mpr (Nat.lt_base_pow_length_digits (by omega))
    have hlen := digits_length_le_iff n 7 hn
    refine ⟨by rw [hf1, hm'], ?_, ?_⟩
    · simp only [List.length_map, List.length_reverse]
      constructor
      · intro h
        have := hlen.mp h
        norm_num at this
        omega
      · intro h
        have : n < 10 ^ 7 := by norm_num; omega
        exact hlen.mpr this
    · rw [hm1]
      show ((m : Int) = (n : Int)) ↔ _
      constructor
      · intro h
        have : m = n := by omega
        have := hm3.mp this
        norm_num at this
        omega
      · intro h
        have : n < 10 ^ 7 := by norm_num; omega
        have := hm3.mpr this
        omega

/-- An evaluation of the truncation: `putInt(path, 10000000)` stores
`1000000`, and `putInt(path, -1000000)` stores `-100000`. -/
theorem putInt_getInt_truncated :
    getInt (putInt true (fun _ => none) "/tmp/x" 10000000) (some "/tmp/x") = 1000000
    ∧ getInt (putInt true (fun _ => none) "/tmp/x" (-1000000)) (some "/tmp/x") = -100000
    ∧ getInt (putInt true (fun _ => none) "/tmp/x" 9999999) (some "/tmp/x") = 9999999
    ∧ getInt (putInt true (fun _ => none) "/tmp/x" (-999999)) (some "/tmp/x") = -999999 := by
  decide

/-! ## replaceString2 and its undeclared variable (C23) -/

theorem replaceAllAux_skip (rep with_ : List Char) (skip : Nat) (s : List Char) :
    replaceAllAux rep with_ skip s = replaceAllAux rep with_ 0 (s.drop skip) := by
  induction s generalizing skip with
  | nil => cases skip <;> simp [replaceAllAux]
  | cons c cs ih =>
    cases skip with
    | zero => rfl
    | succ skip => rw [replaceAllAux, ih skip, List.drop_succ_cons]

theorem occurrencesAux_skip (rep : List Char) (skip : Nat) (s : List Char) :
    occurrencesAux rep skip s = occurrencesAux rep 0 (s.drop skip) := by
  induction s generalizing skip with
  | nil => cases skip <;> simp [occurrencesAux]
  | cons c cs ih =>
    cases skip with
    | zero => rfl
    | succ skip => rw [occurrencesAux, ih skip, List.drop_succ_cons]

theorem replaceAll_found (rep with_ : List Char) (hrep : rep ≠ []) :
    ∀ (s : List Char) (k : Nat), Audiomon.findList rep s = some k →
      replaceAll rep with_ s
        = s.take k ++ with_ ++ replaceAll rep with_ (s.drop (k + rep.length))
      ∧ occurrences rep s = occurrences rep (s.drop (k + rep.length)) + 1 := by
  have hlen : 0 < rep.length := List.length_pos.mpr hrep
  intro s
  induction s with
  | nil =>
    intro k h
    have hp : rep.isEmpty = false := by
      cases rep with
      | nil => exact absurd rfl hrep
      | cons _ _ => rfl
    simp [Audiomon.findList, hp] at h
  | cons c cs ih =>
    intro k h
    by_cases hp : rep.isPrefixOf (c :: cs) = true
    · rw [Audiomon.findList, if_pos hp] at h
      have hk : k = 0 := by
        injection h with h
        exact h.symm
      subst hk
      have hd : (c :: cs).drop (0 + rep.length) = cs.drop (rep.length - 1) := by
        obtain ⟨j, hj⟩ : ∃ j, rep.length = j + 1 := ⟨rep.length - 1, by omega⟩
        rw [hj]
        simp
      rw [hd]
      constructor
      · rw [replaceAll, replaceAllAux, if_pos hp, replaceAllAux_skip]
        rfl
      · rw [occurrences, occurrencesAux, if_pos hp, occurrencesAux_skip]
        rfl
    · rw [Audiomon.findList, if_neg hp] at h
      cases hf : Audiomon.findList rep cs with
      | none =>
        rw [hf] at h
        cases h
      | some m =>
        rw [hf] at h
        have hk : k = m + 1 := by
          injection h with h
          exact h.symm
        subst hk
        obtain ⟨h1, h2⟩ := ih m hf
        have hd : (c :: cs).drop (m + 1 + rep.length) = cs.drop (m + rep.length) := by
          have : m + 1 + rep.length = (m + rep.length) + 1 := by omega
          rw [this, List.drop_succ_cons]
        rw [hd]
        constructor
        · rw [replaceAll, replaceAllAux, if_neg hp]
          change c :: replaceAll rep with_ cs = _
          rw [h1]
          rfl
        · rw [occurrences, occurrencesAux, if_neg hp]
          exact h2

theorem replaceAll_not_found (rep with_ : List Char) :
    ∀ (s : List Char), Audiomon.findList rep s = none →
      replaceAll rep with_ s = s ∧ occurrences rep s = 0 := by
  intro s
  induction s with
  | nil =>
    intro _
    exact ⟨rfl, rfl⟩
  | cons c cs ih =>
    intro h
    by_cases hp : rep.isPrefixOf (c :: cs) = true
    · rw [Audiomon.findList, if_pos hp] at h
      cases h
    · rw [Audiomon.findList, if_neg hp] at h
      have hf : Audiomon.findList rep cs = none := by
        cases hf : Audiomon.findList rep cs with
        | none => rfl
        | some m =>
          rw [hf] at h
          cases h
      obtain ⟨h1, h2⟩ := ih hf
      constructor
      · rw [replaceAll, replaceAllAux, if_neg hp]
        change c :: replaceAll rep with_ cs = _
        rw [h1]
      · rw [occurrences, occurrencesAux, if_neg hp]
        exact h2

theorem findList_bound (rep s : List Char) (k : Nat) (h : Audiomon.findList rep s = some k) :
    k + rep.length ≤ s.length := by
  obtain ⟨a, b, hs, ha⟩ := Audiomon.findList_some rep s k h
  rw [hs, List.length_append, List.length_append, ha]
  omega

/-- Length of the replaced text, by strong induction on the text. -/
theorem replaceAll_length (rep with_ : List Char) (hrep : rep ≠ []) :
    ∀ (n : Nat) (s : List Char), s.length ≤ n →
      ((replaceAll rep with_ s).length : Int)
        = (s.length : Int)
          + (occurrences rep s : Int) * ((with_.length : Int) - (rep.length : Int)) := by
  have hlen : 0 < rep.length := List.length_pos.mpr hrep
  intro n
  induction n with
  | zero =>
    intro s hs
    have : s = [] := List.length_eq_zero.mp (by omega)
    subst this
    simp [replaceAll, replaceAllAux, occurrences, occurrencesAux]
  | succ n ih =>
    intro s hs
    cases hf : Audiomon.findList rep s with
    | none =>
      obtain ⟨h1, h2⟩ := replaceAll_not_found rep with_ s hf
      rw [h1, h2]
      simp
    | some k =>
      obtain ⟨h1, h2⟩ := replaceAll_found rep with_ hrep s k hf
      have hb := findList_bound rep s k hf
      have hd : (s.drop (k + rep.length)).length = s.length - (k + rep.length) :=
        List.length_drop _ _
      have hi := ih (s.drop (k + rep.length)) (by omega)
      rw [h1, h2, List.length_append, List.length_append, List.length_take,
        Nat.min_eq_left (by omega)]
      push_cast
      rw [hi, hd]
      push_cast [Nat.cast_sub hb]
      ring

theorem toInt32_nat (n : Nat) (h : n < 2147483648) : toInt32 (n : Int) = (n : Int) := by
  unfold toInt32
  omega

theorem toSizeT_sub (a b : Nat) (hb : b ≤ a) (ha : a < 18446744073709551616) :
    toSizeT ((a : Int) - (b : Int)) = a - b := by
  unfold toSizeT
  omega

theorem toSizeT_pred (a : Nat) (h1 : 1 ≤ a) (ha : a < 18446744073709551616) :
    toSizeT ((a : Int) - 1) = a - 1 := by
  unfold toSizeT
  omega

theorem toSizeT_sub_pred (a b : Nat) (hb : b + 1 ≤ a) (ha : a < 18446744073709551616) :
    toSizeT ((a : Int) - (b : Int) - 1) = a - b - 1 := by
  unfold toSizeT
  omega

theorem inInt32_of_bounds (n : Int) (h1 : -2147483648 ≤ n) (h2 : n < 2147483648) :
    inInt32 n = true := by
  simp [inInt32, h1, h2]

theorem ptrAdd_nat (bound p d : Nat) (h : p + d ≤ bound) :
    ptrAdd bound p (d : Int) = some (p + d) := by
  unfold ptrAdd
  have hc : 0 ≤ (p : Int) + (d : Int) ∧ (p : Int) + (d : Int) ≤ (bound : Int) := by omega
  rw [if_pos hc]
  congr 1

theorem ptrAdd_nat_add (bound p d e : Nat) (h : p + d + e ≤ bound) :
    ptrAdd bound p ((d : Int) + (e : Int)) = some (p + d + e) := by
  unfold ptrAdd
  have hc : 0 ≤ (p : Int) + ((d : Int) + (e : Int))
      ∧ (p : Int) + ((d : Int) + (e : Int)) ≤ (bound : Int) := by omega
  rw [if_pos hc]
  congr 1
  omega

theorem take_set_of_le (l : List Char) (c : Char) :
    ∀ (j pos : Nat), j ≤ pos → (l.set pos c).take j = l.take j := by
  induction l with
  | nil => intro j pos _; simp
  | cons x xs ih =>
    intro j pos h
    cases j with
    | zero => simp
    | succ j =>
      cases pos with
      | zero => omega
      | succ pos =>
        simp only [List.set_cons_succ, List.take_succ_cons]
        rw [ih j pos (by omega)]

theorem set_last (l : List Char) (c : Char) :
    ∀ (n : Nat), l.length = n + 1 → l.set n c = l.take n ++ [c] := by
  induction l with
  | nil => intro n h; simp at h
  | cons x xs ih =>
    intro n h
    cases n with
    | zero =>
      have : xs = [] := List.length_eq_zero.mp (by simpa using h)
      subst this
      rfl
    | succ n =>
      simp only [List.set_cons_succ, List.take_succ_cons, List.cons_append]
      rw [ih n (by simpa using h)]

theorem strncpyAt_spec (buf : List Char) (pos : Nat) (src : List Char) (n : Nat)
    (h : pos + n ≤ buf.length) :
    ∃ r, strncpyAt buf pos src n = some r ∧ r.length = buf.length
      ∧ ∀ j, j ≤ n → j ≤ src.length → r.take (pos + j) = buf.take pos ++ src.take j := by
  refine ⟨_, if_pos h, ?_, ?_⟩
  · simp only [List.length_append, List.length_take, List.length_replicate, List.length_drop]
    omega
  · intro j hj hjs
    have hl : (buf.take pos).length = pos := by
      rw [List.length_take]
      omega
    rw [List.append_assoc, List.take_append_eq_append_take, hl,
      List.take_of_length_le (by omega : (buf.take pos).length ≤ pos + j)]
    congr 1
    have e : pos + j - pos = j := by omega
    rw [e, List.take_append_eq_append_take, List.take_append_eq_append_take]
    have hl2 : (src.take n).length = min n src.length := List.length_take _ _
    rw [List.take_take, Nat.min_eq_left hj, hl2]
    have e2 : j - min n src.length = 0 := by omega
    rw [e2]
    simp
    omega

theorem storeAt_spec (buf : List Char) (pos : Nat) (c : Char) (h : pos < buf.length) :
    storeAt buf pos c = some (buf.set pos c) := if_pos h

theorem countLoop_spec (orig rep : List Char) (hrep : rep ≠ [])
    (horig : orig.length < 2147483648) :
    ∀ (fuel ins count : Nat), ins ≤ orig.length → orig.length - ins < fuel → count ≤ ins →
      countLoop orig rep (rep.length : Int) fuel ins count
        = some (count + occurrences rep (orig.drop ins)) := by
  have hlen : 0 < rep.length := List.length_pos.mpr hrep
  intro fuel
  induction fuel with
  | zero => intro ins count _ h _; omega
  | succ fuel ih =>
    intro ins count hins hfuel hcount
    rw [countLoop]
    cases hf : Audiomon.findList rep (orig.drop ins) with
    | none =>
      simp only [strstr, hf]
      rw [(replaceAll_not_found rep [] _ hf).2]
      rfl
    | some k =>
      have hb := findList_bound rep _ k hf
      rw [List.length_drop] at hb
      have hp := ptrAdd_nat orig.length (ins + k) rep.length (by omega)
      have hi : inInt32 ((count : Int) + 1) = true :=
        inInt32_of_bounds _ (by omega) (by omega)
      simp only [strstr, hf, hp, hi, if_true]
      rw [ih (ins + k + rep.length) (count + 1) (by omega) (by omega) (by omega),
        (replaceAll_found rep [] hrep _ k hf).2, List.drop_drop]
      have e : ins + (k + rep.length) = ins + k + rep.length := by omega
      rw [e]
      exact congrArg some (by omega)

theorem writeStep_spec (orig rep with_ : List Char) (L : Nat) (st : WriteState) (k : Nat)
    (hf : Audiomon.findList rep (orig.drop st.orig) = some k)
    (hres : st.result.length = L + 1) (hL : L < 2147483648)
    (horig : orig.length < 2147483648)
    (hfit : st.tmp + k + with_.length ≤ L) (ho : st.orig ≤ orig.length) :
    ∃ r, writeStep orig rep with_ (rep.length : Int) (with_.length : Int) (L + 1) st
        = some ⟨r, st.tmp + k + with_.length, st.orig + k + rep.length⟩
      ∧ r.length = L + 1
      ∧ r.take (st.tmp + k + with_.length)
          = st.result.take st.tmp ++ (orig.drop st.orig).take k ++ with_ := by
  have hb := findList_bound rep _ k hf
  rw [List.length_drop] at hb
  obtain ⟨r1, h1, h1l, h1t⟩ :=
    strncpyAt_spec st.result st.tmp (orig.drop st.orig) k (by omega)
  have hp1 : ptrAdd r1.length st.tmp (k : Int) = some (st.tmp + k) :=
    ptrAdd_nat _ _ _ (by omega)
  have hrem : toSizeT (((L + 1 : Nat) : Int) - ((st.tmp + k : Nat) : Int))
      = L + 1 - (st.tmp + k) := toSizeT_sub _ _ (by omega) (by omega)
  have hn : toSizeT (((L + 1 - (st.tmp + k) : Nat) : Int) - 1) = L - (st.tmp + k) := by
    rw [toSizeT_pred _ (by omega) (by omega)]
    omega
  obtain ⟨r2, h2, h2l, h2t⟩ :=
    strncpyAt_spec r1 (st.tmp + k) with_ (L - (st.tmp + k)) (by omega)
  have h3 := storeAt_spec r2 (st.tmp + k + (L - (st.tmp + k))) NUL (by omega)
  have hp2 : ptrAdd (r2.set (st.tmp + k + (L - (st.tmp + k))) NUL).length (st.tmp + k)
      (with_.length : Int) = some (st.tmp + k + with_.length) :=
    ptrAdd_nat _ _ _ (by rw [List.length_set]; omega)
  have hi : inInt32 ((k : Int) + (rep.length : Int)) = true :=
    inInt32_of_bounds _ (by omega) (by omega)
  have hp3 : ptrAdd orig.length st.orig ((k : Int) + (rep.length : Int))
      = some (st.orig + k + rep.length) := ptrAdd_nat_add _ _ _ _ (by omega)
  have hk : ¬ ((k : Int) < 0) := by omega
  refine ⟨r2.set (st.tmp + k + (L - (st.tmp + k))) NUL, ?_, ?_, ?_⟩
  · simp only [writeStep, strstr, hf, toInt32_nat k (by omega), if_neg hk, Int.toNat_ofNat,
      h1, Option.some_bind, hp1, hrem, hn, h2, h3, hp2, hi, if_true, hp3]
  · rw [List.length_set, h2l, h1l, hres]
  · rw [take_set_of_le _ _ _ _ (by omega), h2t with_.length (by omega) (Nat.le_refl _),
      List.take_length, h1t k (Nat.le_refl _) (by rw [List.length_drop]; omega)]

theorem replaceAll_of_no_occurrence (rep with_ : List Char) (hrep : rep ≠ []) (s : List Char)
    (h : occurrences rep s = 0) : replaceAll rep with_ s = s := by
  cases hf : Audiomon.findList rep s with
  | none => exact (replaceAll_not_found rep with_ s hf).1
  | some k =>
    have := (replaceAll_found rep with_ hrep s k hf).2
    omega

theorem writeLoop_spec (orig rep with_ : List Char) (hrep : rep ≠ []) (R : List Char)
    (hR : R.length < 2147483648) (horig : orig.length < 2147483648) :
    ∀ (count : Nat) (st : WriteState),
      st.result.length = R.length + 1 → st.tmp ≤ R.length → st.orig ≤ orig.length →
      st.result.take st.tmp ++ replaceAll rep with_ (orig.drop st.orig) = R →
      occurrences rep (orig.drop st.orig) = count →
      ∃ st', writeLoop orig rep with_ (rep.length : Int) (with_.length : Int) (R.length + 1)
            count st = some st'
        ∧ st'.result.length = R.length + 1 ∧ st'.tmp ≤ R.length ∧ st'.orig ≤ orig.length
        ∧ st'.result.take st'.tmp ++ orig.drop st'.orig = R := by
  intro count
  induction count with
  | zero =>
    intro st hres htmp ho hinv hocc
    rw [replaceAll_of_no_occurrence rep with_ hrep _ hocc] at hinv
    exact ⟨st, rfl, hres, htmp, ho, hinv⟩
  | succ count ih =>
    intro st hres htmp ho hinv hocc
    cases hf : Audiomon.findList rep (orig.drop st.orig) with
    | none =>
      have := (replaceAll_not_found rep with_ _ hf).2
      omega
    | some k =>
      obtain ⟨hrepl, hocc2⟩ := replaceAll_found rep with_ hrep _ k hf
      have hb := findList_bound rep _ k hf
      rw [List.length_drop] at hb
      rw [hrepl] at hinv
      have hlenR := congrArg List.length hinv
      simp only [List.length_append, List.length_take, List.length_drop] at hlenR
      have hfit : st.tmp + k + with_.length ≤ R.length := by omega
      obtain ⟨r, hstep, hrl, hrt⟩ :=
        writeStep_spec orig rep with_ R.length st k hf hres hR horig hfit ho
      have hdrop : orig.drop (st.orig + k + rep.length)
          = (orig.drop st.orig).drop (k + rep.length) := by
        rw [List.drop_drop]
        congr 1
        omega
      obtain ⟨st', hloop, h1, h2, h3, h4⟩ :=
        ih ⟨r, st.tmp + k + with_.length, st.orig + k + rep.length⟩ hrl hfit (by simp only; omega)
          (by
            simp only
            rw [hrt, hdrop, ← hinv]
            simp only [List.append_assoc])
          (by
            simp only
            rw [hdrop]
            omega)
      refine ⟨st', ?_, h1, h2, h3, h4⟩
      rw [writeLoop, hstep, Option.some_bind, hloop]

theorem writeRest_spec (orig : List Char) (R : List Char) (st : WriteState)
    (hR : R.length < 2147483648)
    (hres : st.result.length = R.length + 1) (htmp : st.tmp ≤ R.length)
    (hinv : st.result.take st.tmp ++ orig.drop st.orig = R) :
    writeRest orig (R.length + 1) st = some (R ++ [NUL]) := by
  have hlenR := congrArg List.length hinv
  simp only [List.length_append, List.length_take] at hlenR
  have hn : toSizeT (((R.length + 1 : Nat) : Int) - (st.tmp : Int) - 1) = R.length - st.tmp := by
    rw [toSizeT_sub_pred _ _ (by omega) (by omega)]
    omega
  have hl : toSizeT (((R.length + 1 : Nat) : Int) - 1) = R.length := by
    rw [toSizeT_pred _ (by omega) (by omega)]
    omega
  obtain ⟨r, h1, h1l, h1t⟩ :=
    strncpyAt_spec st.result st.tmp (orig.drop st.orig) (R.length - st.tmp) (by omega)
  have h2 := storeAt_spec r R.length NUL (by omega)
  have ht := h1t (R.length - st.tmp) (Nat.le_refl _) (by omega)
  have e : st.tmp + (R.length - st.tmp) = R.length := by omega
  rw [e, List.take_of_length_le (by omega : (orig.drop st.orig).length ≤ R.length - st.tmp),
    hinv] at ht
  simp only [writeRest, hn, hl, h1, Option.some_bind, h2]
  rw [set_last r NUL R.length (by omega), ht]

/-- What `replaceString2` does once `result_len` holds the size passed to
`malloc`. For a non-null `orig` and a non-empty `rep`, with every length and
the size of the result inside the range of `int` and `malloc` succeeding,
`replaceString2(orig, rep, with)` then returns a new block that holds `orig`
with every non-overlapping occurrence of `rep`, found from left to right,
replaced by `with` (a null `with` counting as the empty string) and then the
terminator; the length of that text is
`strlen(orig) + count * (strlen(with) - strlen(rep))`, where `count` is the
number of those occurrences. The function returns the null pointer when `orig`
is null, when `rep` is null and when `rep` is empty. -/
theorem replaceString2_sized (fresh : Nat → Char) (result_len : Nat)
    (orig rep : List Char) (with_ : Option (List Char))
    (hrep : rep ≠ [])
    (horig : orig.length < 2147483648) (hreplen : rep.length < 2147483648)
    (hwith : (with_.getD []).length < 2147483648)
    (hlen : (result_len : Int) = (orig.length : Int)
      + (((with_.getD []).length : Int) - (rep.length : Int)) * (occurrences rep orig : Int) + 1)
    (hsize : result_len ≤ 2147483648) :
    replaceString2 fresh true result_len (some orig) (some rep) with_
        = Outcome.block (replaceAll rep (with_.getD []) orig ++ [NUL])
    ∧ ((replaceAll rep (with_.getD []) orig).length : Int)
        = (orig.length : Int)
          + (occurrences rep orig : Int) * (((with_.getD []).length : Int) - (rep.length : Int))
    ∧ (∀ (ok : Bool) (n : Nat) (r w : Option (List Char)),
        replaceString2 fresh ok n none r w = Outcome.null)
    ∧ (∀ (ok : Bool) (n : Nat) (o w : Option (List Char)),
        replaceString2 fresh ok n o none w = Outcome.null)
    ∧ (∀ (ok : Bool) (n : Nat) (o w : Option (List Char)),
        replaceString2 fresh ok n o (some []) w = Outcome.null) := by
  have hRlen := replaceAll_length rep (with_.getD []) hrep orig.length orig (Nat.le_refl _)
  refine ⟨?_, hRlen, ?_, ?_, ?_⟩
  · have hlen1 : result_len = (replaceAll rep (with_.getD []) orig).length + 1 := by
      have e : (((with_.getD []).length : Int) - (rep.length : Int)) * (occurrences rep orig : Int)
          = (occurrences rep orig : Int) * (((with_.getD []).length : Int) - (rep.length : Int)) :=
        Int.mul_comm _ _
      omega
    have hR : (replaceAll rep (with_.getD []) orig).length < 2147483648 := by omega
    have hpos : 0 < rep.length := List.length_pos.mpr hrep
    have hne : ¬ ((rep.length : Int) = 0) := by omega
    have hcount := countLoop_spec orig rep hrep horig (orig.length + 1) 0 0 (Nat.zero_le _)
      (by omega) (Nat.le_refl _)
    rw [List.drop_zero, Nat.zero_add] at hcount
    have hprod : (((with_.getD []).length : Int) - (rep.length : Int)) * (occurrences rep orig : Int)
        = ((replaceAll rep (with_.getD []) orig).length : Int) - (orig.length : Int) := by
      rw [hRlen, Int.mul_comm]
      omega
    have hi1 : inInt32 (((with_.getD []).length : Int) - (rep.length : Int)) = true :=
      inInt32_of_bounds _ (by omega) (by omega)
    have hi2 : inInt32 ((((with_.getD []).length : Int) - (rep.length : Int))
        * (occurrences rep orig : Int)) = true := by
      rw [hprod]
      exact inInt32_of_bounds _ (by omega) (by omega)
    have hsz : toSizeT ((orig.length : Int)
        + (((with_.getD []).length : Int) - (rep.length : Int)) * (occurrences rep orig : Int) + 1)
        = (replaceAll rep (with_.getD []) orig).length + 1 := by
      rw [hprod]
      unfold toSizeT
      omega
    obtain ⟨st', hloop, h1, h2, _, h4⟩ :=
      writeLoop_spec orig rep (with_.getD []) hrep (replaceAll rep (with_.getD []) orig) hR horig
        (occurrences rep orig)
        ⟨(List.range ((replaceAll rep (with_.getD []) orig).length + 1)).map fresh, 0, 0⟩
        (by simp) (Nat.zero_le _) (Nat.zero_le _) (by simp) (by simp)
    have hrest := writeRest_spec orig _ st' hR h1 h2 h4
    simp only [replaceString2, toInt32_nat rep.length hreplen,
      toInt32_nat (with_.getD []).length hwith, if_neg hne, hcount, replaceAlloc, hi1, hi2,
      Bool.and_self, if_true, hsz, malloc, hlen1, hloop, Option.some_bind, hrest]
  · intro ok n r w
    rfl
  · intro ok n o w
    cases o <;> rfl
  · intro ok n o w
    cases o <;> rfl

/-- Evaluation of `replaceString2_sized` on `orig = "a-b-c"`, `rep = "-"` and
`with = "::"`. -/
theorem replaceString2_sized_example :
    replaceString2 (fun _ => 'Z') true 8 (some "a-b-c".data) (some "-".data)
        (some "::".data)
      = Outcome.block ("a::b::c".data ++ [NUL])
    ∧ replaceAll "-".data "::".data "a-b-c".data = "a::b::c".data
    ∧ occurrences "-".data "a-b-c".data = 2 :=
  ⟨(replaceString2_sized (fun _ => 'Z') 8 "a-b-c".data "-".data (some "::".data)
      (by decide) (by decide) (by decide) (by decide) (by decide) (by decide)).1,
    by decide, by decide⟩

theorem replaceString2_empty (fresh : Nat → Char) (result_len : Nat) :
    replaceString2 fresh true result_len (some []) (some ['x']) none
      = match writeRest [] result_len ⟨[fresh 0], 0, 0⟩ with
        | none => Outcome.undefined
        | some r => Outcome.block r := by
  rfl

theorem replaceString2_one (fresh : Nat → Char) (result_len : Nat) :
    replaceString2 fresh true result_len (some ['a']) (some ['x']) none
      = match writeRest ['a'] result_len ⟨[fresh 0, fresh 1], 0, 0⟩ with
        | none => Outcome.undefined
        | some r => Outcome.block r := by
  rfl

theorem writeRest_empty (c : Char) (result_len : Nat) :
    writeRest [] result_len ⟨[c], 0, 0⟩
      = if toSizeT ((result_len : Int) - 1) = 0 then some [NUL] else none := by
  have hm : toSizeT ((result_len : Int) - ((0 : Nat) : Int) - 1)
      = toSizeT ((result_len : Int) - 1) := by
    simp
  simp only [writeRest, hm]
  generalize toSizeT ((result_len : Int) - 1) = n
  match n with
  | 0 => rfl
  | 1 => rfl
  | n + 2 =>
    have h : ¬ (0 + (n + 2) ≤ [c].length) := by simp
    simp only [strncpyAt, h, if_false, Option.none_bind]
    simp

theorem writeRest_one (c d : Char) (result_len : Nat)
    (h : toSizeT ((result_len : Int) - 1) = 0) :
    writeRest ['a'] result_len ⟨[c, d], 0, 0⟩ = some [NUL, d] := by
  have hm : toSizeT ((result_len : Int) - ((0 : Nat) : Int) - 1)
      = toSizeT ((result_len : Int) - 1) := by
    simp
  simp only [writeRest, hm, h]
  rfl

/-- C23, evaluated on the code. `replaceString2` takes the lengths of its
copies from `result_len`, a variable that the file neither declares nor
assigns, so that its value does not follow the arguments. Whatever value it
holds, the function does not return the replaced text for both the empty
string and the string "a" (with `rep = "x"`, which occurs in neither): the
first needs the value 1, and with that value the second gets a block that
starts with the terminator. For `orig = "a-b-c"`, `rep = "-"` and
`with = "::"`, whose result takes 8 bytes, the value 0 makes the first copy
run over the end of the block, the value 7 leaves the truncated text "a::b::"
in the block, and the value 9 stores a terminator behind the block; the new
block is taken to be filled with the letter Z there. -/
theorem replaceString2_result_len_unset (fresh : Nat → Char) (result_len : Nat) :
    (replaceString2 fresh true result_len (some []) (some ['x']) none
        ≠ Outcome.block (replaceAll ['x'] [] [] ++ [NUL])
      ∨ replaceString2 fresh true result_len (some ['a']) (some ['x']) none
        ≠ Outcome.block (replaceAll ['x'] [] ['a'] ++ [NUL]))
    ∧ replaceString2 (fun _ => 'Z') true 0 (some "a-b-c".data) (some "-".data) (some "::".data)
        = Outcome.undefined
    ∧ replaceString2 (fun _ => 'Z') true 7 (some "a-b-c".data) (some "-".data) (some "::".data)
        = Outcome.block ("a::b::".data ++ [NUL, 'Z'])
    ∧ replaceString2 (fun _ => 'Z') true 9 (some "a-b-c".data) (some "-".data) (some "::".data)
        = Outcome.undefined
    ∧ replaceAll "-".data "::".data "a-b-c".data = "a::b::c".data := by
  refine ⟨?_, by decide, by decide, by decide, by decide⟩
  by_cases h : toSizeT ((result_len : Int) - 1) = 0
  · right
    rw [replaceString2_one, writeRest_one _ _ _ h]
    intro hc
    have h2 : [NUL, fresh 1] = replaceAll ['x'] [] ['a'] ++ [NUL] := Outcome.block.inj hc
    have h3 : replaceAll ['x'] [] ['a'] ++ [NUL] = ['a', NUL] := by decide
    rw [h3] at h2
    exact absurd (List.cons.inj h2).1 (by decide)
  · left
    rw [replaceString2_empty, writeRest_empty, if_neg h]
    intro hc
    cases hc

end Utils
